import Mathlib

/-!
The environmentvariable58 probe: `read_environment` and `probe_main`.

A shallow embedding of `src/OVAL/probes/independent/environmentvariable58.c`.

* Bytes are natural numbers (`NUL = 0`, `'=' = 61`); byte strings are `List Nat`.
* `unsigned int` variables (`buffer_size`, `read_size`) are natural numbers kept
  below `2 ^ 32`; every arithmetic operation of the source on them is taken
  modulo `2 ^ 32` (`uadd`, `usub`).
* The heap block `buffer` is a `List Nat` whose length is the allocated size.
  Bytes that `oscap_realloc` hands out uninitialised are drawn from an arbitrary
  function `junk : Nat → Nat` (offset ↦ byte).
* A memory access outside the block (`memmove`, the store of `read`) is
  undefined behaviour in C; the model stops there with `Exit.fault`.
* `strlen` and `strchr` stop at the end of the block when it holds no NUL.
* The loops take a fuel argument; running out of fuel is `none`.
* External calls are recorded in the state: items given to `probe_item_collect`
  (`items`), the `(env_name, env_value)` pairs built for the name comparison
  (`pairs`) and the system calls on process streams (`io`).
* `probe_entobj_cmp (pid_ent, ·) == OVAL_RESULT_TRUE` and
  `probe_entobj_cmp (name_ent, ·) == OVAL_RESULT_TRUE` are functions to `Bool`
  supplied by the caller (`pid_ent`, `name_ent`); `strerror` likewise.
-/

namespace Envvar58

/-! ## Constants and machine arithmetic -/

/-- The constant of `#define BUFFER_SIZE 256`. -/
def BUFFER_SIZE : Nat := 256

/-- Number of values of an `unsigned int` (32 bits). -/
def UINT_MOD : Nat := 4294967296

/-- The terminator byte. -/
def NUL : Nat := 0

/-- The byte `'='`. -/
def EQ : Nat := 61

/-- Addition of `unsigned int`. -/
def uadd (a b : Nat) : Nat := (a + b) % UINT_MOD

/-- Subtraction of `unsigned int`. -/
def usub (a b : Nat) : Nat := (a + (UINT_MOD - b % UINT_MOD)) % UINT_MOD

/-! ## C strings inside the buffer -/

/-- The call `strlen (buffer)`: offset of the first NUL. -/
def strlen : List Nat → Nat
  | [] => 0
  | b :: rest => if b = NUL then 0 else strlen rest + 1

/-- The call `strchr (buffer, c)` as an offset: the first `c` before the first NUL. -/
def strchr (c : Nat) : List Nat → Option Nat
  | [] => none
  | b :: rest =>
    if b = c then some 0
    else if b = NUL then none
    else (strchr c rest).map (· + 1)

/-- The C string that starts at the head of the list (bytes before the first NUL). -/
def cstr (l : List Nat) : List Nat := l.take (strlen l)

/-- Store one byte: `buffer[i] = v`; `none` when `i` is outside the block. -/
def store (buffer : List Nat) (i v : Nat) : Option (List Nat) :=
  if i < buffer.length then some (buffer.set i v) else none

/-- Store the bytes `l` at offset `off`; `none` when they do not fit the block. -/
def store_bytes (buffer : List Nat) (off : Nat) (l : List Nat) : Option (List Nat) :=
  if off + l.length ≤ buffer.length then
    some (buffer.take off ++ l ++ buffer.drop (off + l.length))
  else none

/-- The call `memmove (buffer, buffer + src, n)`; `none` when the source range leaves
the block. -/
def memmove (buffer : List Nat) (src n : Nat) : Option (List Nat) :=
  if src + n ≤ buffer.length then
    some ((buffer.drop src).take n ++ buffer.drop n)
  else none

/-- The call `oscap_realloc (buffer, n)`: the old bytes are kept up to `n`, new ones
are junk. -/
def realloc (junk : Nat → Nat) (buffer : List Nat) (n : Nat) : List Nat :=
  (List.range n).map (fun i => buffer.getD i (junk i))

/-! ## Process streams -/

/-- An open `/proc/<pid>/environ`: the bytes not yet delivered, and how the next
reads behave: `none` is a failing read (`-1`), `some k` delivers at most `k + 1`
bytes; once the list is used up every read delivers as much as requested. -/
structure Fd where
  data : List Nat
  sched : List (Option Nat)
  deriving DecidableEq, Repr

/-- Result of `read`: `-1`, or the bytes delivered (none at end of stream). -/
inductive ReadResult where
  | error
  | bytes (l : List Nat)
  deriving DecidableEq, Repr

/-- The call `read (fd, _, count)`. -/
def read (fd : Fd) (count : Nat) : ReadResult × Fd :=
  match fd.sched with
  | [] => (.bytes (fd.data.take count), { data := fd.data.drop count, sched := [] })
  | none :: rest => (.error, { data := fd.data, sched := rest })
  | some k :: rest =>
    let n := min (k + 1) count
    (.bytes (fd.data.take n), { data := fd.data.drop n, sched := rest })

/-! ## Items and state -/

/-- Status of an item: `probe_item_create` leaves the default, the open-failure path
sets `SYSCHAR_STATUS_NOT_COLLECTED`. -/
inductive Status where
  | collected
  | not_collected
  deriving DecidableEq, Repr

/-- An item handed to `probe_item_collect`. -/
structure Item where
  pid : Int
  name : Option (List Nat)
  value : Option (List Nat)
  status : Status
  message : Option String
  deriving DecidableEq, Repr

/-- A system call on a process stream. -/
inductive IOEvent where
  | open_ (pid : Int) (ok : Bool)
  | read (pid : Int) (count : Nat) (result : ReadResult)
  | close (pid : Int)
  deriving DecidableEq, Repr

/-- Variables of `read_environment` that live across loop iterations, with the
record of its external calls. -/
structure State where
  buffer : List Nat
  buffer_size : Nat
  read_size : Nat
  items : List Item
  pairs : List (List Nat × List Nat)
  io : List IOEvent
  deriving DecidableEq, Repr

/-- How a part of `read_environment` ends: it falls through to the next directory
entry, executes `return`, or leaves the defined behaviour of C. -/
inductive Exit where
  | next
  | returned
  | fault
  deriving DecidableEq, Repr

/-- The item `probe_item_create` builds from the `SEXP_string_new` and
`SEXP_string_newf` results. -/
def mk_item (pid : Int) (env_name env_value : List Nat) : Item :=
  { pid := pid, name := some env_name, value := some env_value,
    status := .collected, message := none }

/-! ## The consume loop (source lines 146-176) -/

/-- The two statements `read_size -= strlen(buffer);`
`memmove(buffer, buffer + strlen(buffer) + 1, read_size--);`. -/
def compact (st : State) : Option State :=
  let n := usub st.read_size (strlen st.buffer)
  match memmove st.buffer (strlen st.buffer + 1) n with
  | none => none
  | some b => some { st with buffer := b, read_size := usub n 1 }

/-- The loop `while (strlen(buffer) < read_size && read_size > 0)`. The result is
`Except.error` with the state reached when a `memmove` leaves the block. -/
def consume_loop (name_ent : List Nat → Bool) (pid : Int) :
    Nat → State → Option (Except State State)
  | 0, _ => none
  | fuel + 1, st =>
    if strlen st.buffer < st.read_size ∧ st.read_size > 0 then
      match strchr EQ st.buffer with
      | none =>
        match compact st with
        | none => some (.error st)
        | some st1 => consume_loop name_ent pid fuel st1
      | some env_name_size =>
        let env_name := st.buffer.take env_name_size
        let env_value := cstr (st.buffer.drop (env_name_size + 1))
        let st1 := { st with pairs := st.pairs ++ [(env_name, env_value)] }
        let st2 :=
          if name_ent env_name then
            { st1 with items := st1.items ++ [mk_item pid env_name env_value] }
          else st1
        match compact st2 with
        | none => some (.error st2)
        | some st3 => consume_loop name_ent pid fuel st3
    else some (.ok st)

/-! ## The refill loop (source lines 131-144) -/

/-- The statements `buffer_size += BUFFER_SIZE; buffer = oscap_realloc(buffer, buffer_size);`. -/
def grow (junk : Nat → Nat) (st : State) : State :=
  { st with buffer_size := uadd st.buffer_size BUFFER_SIZE,
            buffer := realloc junk st.buffer (uadd st.buffer_size BUFFER_SIZE) }

/-- The loop `while (strlen(buffer) >= read_size)`. The result carries the state,
the stream and the value of `empty` at the exit of the loop. -/
def refill_loop (junk : Nat → Nat) (pid : Int) :
    Nat → State → Fd → Option (Except State (State × Fd × Bool))
  | 0, _, _ => none
  | fuel + 1, st, fd =>
    if strlen st.buffer ≥ st.read_size then
      let st1 := if uadd st.read_size 1 ≥ st.buffer_size then grow junk st else st
      let count := usub (usub st1.buffer_size st1.read_size) 1
      let r := read fd count
      let st2 := { st1 with io := st1.io ++ [.read pid count r.1] }
      match r.1 with
      | .bytes [] => some (.ok (st2, r.2, true))
      | .bytes l =>
        match store_bytes st2.buffer st2.read_size l with
        | none => some (.error st2)
        | some b =>
          match store b (usub st2.buffer_size 1) NUL with
          | none => some (.error st2)
          | some b1 =>
            refill_loop junk pid fuel
              { st2 with buffer := b1, read_size := uadd st2.read_size (l.length % UINT_MOD) } r.2
      | .error =>
        match store st2.buffer (usub st2.buffer_size 1) NUL with
        | none => some (.error st2)
        | some b1 =>
          refill_loop junk pid fuel
            { st2 with buffer := b1, read_size := uadd st2.read_size (UINT_MOD - 1) } r.2
    else some (.ok (st, fd, false))

/-! ## The splitter loop (source lines 129-177) -/

/-- The loop `while (! empty)`, entered with `empty = 0`. The inner loops get the
fuel `n` each time. -/
def splitter_loop (junk : Nat → Nat) (name_ent : List Nat → Bool) (pid : Int) (n : Nat) :
    Nat → State → Fd → Option (Except State State)
  | 0, _, _ => none
  | fuel + 1, st, fd =>
    match refill_loop junk pid n st fd with
    | none => none
    | some (.error st1) => some (.error st1)
    | some (.ok (st1, fd1, empty)) =>
      match consume_loop name_ent pid n st1 with
      | none => none
      | some (.error st2) => some (.error st2)
      | some (.ok st2) =>
        if empty then some (.ok st2)
        else splitter_loop junk name_ent pid n fuel st2 fd1

/-! ## One opened process (source lines 117-178) -/

/-- From `*buffer = 0` to `close(fd)` for one opened stream. -/
def scan_process (junk : Nat → Nat) (name_ent : List Nat → Bool) (pid : Int) (fuel : Nat)
    (st : State) (fd : Fd) : Option (Exit × State) :=
  match store st.buffer 0 NUL with
  | none => some (.fault, st)
  | some b0 =>
    let count := usub st.buffer_size 1
    let r := read fd count
    let st1 := { st with buffer := b0, io := st.io ++ [.read pid count r.1] }
    -- `read_size = read(...)`: conversion of the `ssize_t` result to `unsigned int`
    let n := match r.1 with
      | .error => UINT_MOD - 1
      | .bytes l => l.length % UINT_MOD
    let stored := match r.1 with
      | .error => some b0
      | .bytes l => store_bytes b0 0 l
    match stored with
    | none => some (.fault, st1)
    | some b1 =>
      let st2 := { st1 with buffer := b1, read_size := n }
      if n > 0 then
        match store b1 (usub st2.buffer_size 1) NUL with
        | none => some (.fault, st2)
        | some b2 =>
          match splitter_loop junk name_ent pid fuel fuel { st2 with buffer := b2 } r.2 with
          | none => none
          | some (.error st3) => some (.fault, st3)
          | some (.ok st3) => some (.next, { st3 with io := st3.io ++ [.close pid] })
      else
        some (.returned, { st2 with io := st2.io ++ [.close pid] })

/-! ## The directory loop (source lines 84-179) -/

/-- What `open` does for an entry: it fails with an `errno`, or gives a stream. -/
inductive OpenResult where
  | fail (errno : Nat)
  | ok (fd : Fd)
  deriving DecidableEq, Repr

/-- One entry returned by `readdir`, with the outcome of opening its `environ`. -/
structure Dirent where
  d_name : String
  environ : OpenResult
  deriving DecidableEq, Repr

/-- The test `strspn(d_name, "0123456789") == strlen(d_name)`. -/
def all_digits (d_name : String) : Bool := d_name.toList.all Char.isDigit

/-- The call `atoi (d_name)` on a string of digits whose value fits an `int`. -/
def atoi (d_name : String) : Int :=
  ((d_name.toList.foldl (fun n c => 10 * n + (c.toNat - 48)) 0 : Nat) : Int)

/-- The path written by `sprintf(env_file, "/proc/%d/environ", pid)`. -/
def env_file (pid : Int) : String := "/proc/" ++ toString pid ++ "/environ"

/-- The text of `SEXP_string_newf("Can't open \"%s\": errno=%d, %s.", ...)`. -/
def open_message (strerror : Nat → String) (pid : Int) (errno : Nat) : String :=
  "Can't open \"" ++ env_file pid ++ "\": errno=" ++ toString errno ++ ", "
    ++ strerror errno ++ "."

/-- The item built when `open` fails. -/
def open_failed_item (strerror : Nat → String) (pid : Int) (errno : Nat) : Item :=
  { pid := pid, name := none, value := none, status := .not_collected,
    message := some (open_message strerror pid errno) }

/-- The body of `while ((d_entry = readdir(d)))` for one entry. -/
def process_entry (junk : Nat → Nat) (strerror : Nat → String)
    (pid_ent : Int → Bool) (name_ent : List Nat → Bool) (fuel : Nat)
    (st : State) (e : Dirent) : Option (Exit × State) :=
  if all_digits e.d_name then
    let pid := atoi e.d_name
    if pid_ent pid then
      match e.environ with
      | .fail errno =>
        some (.next, { st with io := st.io ++ [.open_ pid false],
                               items := st.items ++ [open_failed_item strerror pid errno] })
      | .ok fd =>
        scan_process junk name_ent pid fuel { st with io := st.io ++ [.open_ pid true] } fd
    else some (.next, st)
  else some (.next, st)

/-- The loop over the entries of `/proc`. -/
def dir_loop (junk : Nat → Nat) (strerror : Nat → String)
    (pid_ent : Int → Bool) (name_ent : List Nat → Bool) (fuel : Nat) :
    State → List Dirent → Option (Exit × State)
  | st, [] => some (.returned, st)
  | st, e :: rest =>
    match process_entry junk strerror pid_ent name_ent fuel st e with
    | none => none
    | some (.next, st1) => dir_loop junk strerror pid_ent name_ent fuel st1 rest
    | some (x, st1) => some (x, st1)

/-! ## `read_environment` -/

/-- Return values of `read_environment`: `err` (always `0`) and the two error codes. -/
inductive RetCode where
  | zero
  | PROBE_EACCESS
  | PROBE_EFAULT
  deriving DecidableEq, Repr

/-- The state after `buffer = oscap_realloc(NULL, BUFFER_SIZE); buffer_size = BUFFER_SIZE;`. -/
def init (junk : Nat → Nat) : State :=
  { buffer := realloc junk [] BUFFER_SIZE, buffer_size := BUFFER_SIZE, read_size := 0,
    items := [], pairs := [], io := [] }

/-- The state before the buffer is allocated. -/
def no_buffer : State :=
  { buffer := [], buffer_size := 0, read_size := 0, items := [], pairs := [], io := [] }

/-- The function `read_environment`. `proc` is what `opendir("/proc")` and `readdir`
give (`none` when `opendir` fails), `alloc_ok` tells whether the first
`oscap_realloc` succeeds. The result is the return code (`none` after a fault)
and the final state. -/
def read_environment (junk : Nat → Nat) (strerror : Nat → String)
    (pid_ent : Int → Bool) (name_ent : List Nat → Bool) (fuel : Nat)
    (proc : Option (List Dirent)) (alloc_ok : Bool) : Option (Option RetCode × State) :=
  match proc with
  | none => some (some .PROBE_EACCESS, no_buffer)
  | some entries =>
    if alloc_ok then
      match dir_loop junk strerror pid_ent name_ent fuel (init junk) entries with
      | none => none
      | some (.fault, st) => some (none, st)
      | some (_, st) => some (some .zero, st)
    else some (some .PROBE_EFAULT, no_buffer)

/-! ## Records of a finished stream

These functions describe the stream, not the program: they are used to state
what the loops compute. -/


/-- The pair of one segment (the bytes before a terminator): split at the first
`'='`, nothing when the segment has none. -/
def record (seg : List Nat) : List (List Nat × List Nat) :=
  match strchr EQ seg with
  | none => []
  | some k => [(seg.take k, seg.drop (k + 1))]

/-- Pairs of the terminated segments of `l`, where `cur` is the unterminated
segment in front of `l`. -/
def records_from : List Nat → List Nat → List (List Nat × List Nat)
  | _, [] => []
  | cur, b :: rest =>
    if b = NUL then record cur ++ records_from [] rest
    else records_from (cur ++ [b]) rest

/-- The unterminated bytes at the end of `cur ++ l`. -/
def leftover_from : List Nat → List Nat → List Nat
  | cur, [] => cur
  | cur, b :: rest =>
    if b = NUL then leftover_from [] rest
    else leftover_from (cur ++ [b]) rest

/-- Pairs of the terminated segments of a stream. -/
def records (l : List Nat) : List (List Nat × List Nat) := records_from [] l

/-- The unterminated tail of a stream. -/
def leftover (l : List Nat) : List Nat := leftover_from [] l

/-- The items collected for a list of pairs. -/
def items_of (name_ent : List Nat → Bool) (pid : Int)
    (ps : List (List Nat × List Nat)) : List Item :=
  (ps.filter (fun p => name_ent p.1)).map (fun p => mk_item pid p.1 p.2)

/-- The stream made of the records `name=value`, each followed by one NUL. -/
def encode : List (List Nat × List Nat) → List Nat
  | [] => []
  | (name, value) :: rest => name ++ EQ :: value ++ NUL :: encode rest

/-- The bytes of the buffer in use: its first `read_size` bytes. -/
def filled (st : State) : List Nat := st.buffer.take st.read_size

/-- Shape of the buffer at the loop heads: the block has `buffer_size` bytes and
`read_size` stays below it. -/
structure Inv (st : State) : Prop where
  len : st.buffer.length = st.buffer_size
  lt : st.read_size < st.buffer_size
  bound : st.buffer_size < UINT_MOD

/-- Shape of the buffer between two processes: the block has `buffer_size` bytes,
at least `BUFFER_SIZE` of them. -/
def BufferOk (st : State) : Prop :=
  st.buffer.length = st.buffer_size ∧ BUFFER_SIZE ≤ st.buffer_size ∧ st.buffer_size < UINT_MOD

instance (st : State) : Decidable (BufferOk st) := by
  unfold BufferOk
  infer_instance

/-! ## Sample inputs -/

/-- The bytes of a text. -/
def bytes (s : String) : List Nat := s.toList.map Char.toNat

/-- A sample of uninitialised memory without NUL bytes. -/
def junk0 : Nat → Nat := fun i => 97 + i % 3

/-- A sample `strerror`. -/
def strerror0 : Nat → String := fun e => if e = 13 then "Permission denied" else "Unknown error"

/-! ## The loop bodies, one pass at a time -/

/-- Result of one pass through the body of the refill loop: the read gave no byte
(`empty = 1; break`), the loop test is evaluated again, or a store left the block. -/
inductive RefillStep where
  | eof (st : State) (fd : Fd)
  | again (st : State) (fd : Fd)
  | fault (st : State)
  deriving DecidableEq, Repr

/-- One pass through the body of the refill loop (source lines 132-143). -/
def refill_body (junk : Nat → Nat) (pid : Int) (st : State) (fd : Fd) : RefillStep :=
  let st1 := if uadd st.read_size 1 ≥ st.buffer_size then grow junk st else st
  let count := usub (usub st1.buffer_size st1.read_size) 1
  let r := read fd count
  let st2 := { st1 with io := st1.io ++ [.read pid count r.1] }
  match r.1 with
  | .bytes [] => .eof st2 r.2
  | .bytes l =>
    match store_bytes st2.buffer st2.read_size l with
    | none => .fault st2
    | some b =>
      match store b (usub st2.buffer_size 1) NUL with
      | none => .fault st2
      | some b1 =>
        .again { st2 with buffer := b1,
                          read_size := uadd st2.read_size (l.length % UINT_MOD) } r.2
  | .error =>
    match store st2.buffer (usub st2.buffer_size 1) NUL with
    | none => .fault st2
    | some b1 =>
      .again { st2 with buffer := b1, read_size := uadd st2.read_size (UINT_MOD - 1) } r.2

/-- One pass through the body of the consume loop (source lines 147-175); the result
is `Except.error` when the `memmove` leaves the block. -/
def consume_body (name_ent : List Nat → Bool) (pid : Int) (st : State) : Except State State :=
  match strchr EQ st.buffer with
  | none =>
    match compact st with
    | none => .error st
    | some st1 => .ok st1
  | some env_name_size =>
    let env_name := st.buffer.take env_name_size
    let env_value := cstr (st.buffer.drop (env_name_size + 1))
    let st1 := { st with pairs := st.pairs ++ [(env_name, env_value)] }
    let st2 :=
      if name_ent env_name then
        { st1 with items := st1.items ++ [mk_item pid env_name env_value] }
      else st1
    match compact st2 with
    | none => .error st2
    | some st3 => .ok st3

/-! ## Shapes of the record of system calls -/

/-- Every event is a read on the stream of `pid` that did not return zero bytes. -/
def nonzero_reads (pid : Int) (evs : List IOEvent) : Prop :=
  ∀ ev ∈ evs, ∃ count r, ev = IOEvent.read pid count r ∧ r ≠ ReadResult.bytes []

/-- Nothing, or one read on the stream of `pid` that returned zero bytes. -/
def zero_read (pid : Int) (z : List IOEvent) : Prop :=
  z = [] ∨ ∃ count, z = [IOEvent.read pid count (ReadResult.bytes [])]

/-! ## Whole scans -/

/-- What the theorems on whole scans ask of an entry whose stream opens: no read
fails, the stream is short enough for the `unsigned int` sizes and for the fuel. -/
def reads_succeed (fuel : Nat) (e : Dirent) : Prop :=
  match e.environ with
  | .fail _ => True
  | .ok fd => none ∉ fd.sched ∧ fd.data.length + BUFFER_SIZE + 1 < UINT_MOD
      ∧ fd.data.length + 2 ≤ fuel

instance (fuel : Nat) (e : Dirent) : Decidable (reads_succeed fuel e) := by
  unfold reads_succeed
  split <;> infer_instance

/-- The entry is scanned: its name is made of digits and the pid comparison accepts
its pid. -/
def scanned (pid_ent : Int → Bool) (e : Dirent) : Bool :=
  all_digits e.d_name && pid_ent (atoi e.d_name)

/-- The entry makes `read_environment` return: it is scanned, its stream opens and
holds no byte. -/
def returns_early (pid_ent : Int → Bool) (e : Dirent) : Bool :=
  scanned pid_ent e &&
    match e.environ with
    | .fail _ => false
    | .ok fd => fd.data.isEmpty

/-- Pairs of the records of the stream of an entry that is scanned. -/
def entry_records (pid_ent : Int → Bool) (e : Dirent) : List (List Nat × List Nat) :=
  if scanned pid_ent e then
    match e.environ with
    | .fail _ => []
    | .ok fd => records fd.data
  else []

/-- Pairs that the splitter builds for the stream of an entry alone, from a buffer
just allocated with the junk `junk2`. -/
def fresh_pairs (junk2 : Nat → Nat) (pid_ent : Int → Bool) (name_ent : List Nat → Bool)
    (fuel : Nat) (e : Dirent) : List (List Nat × List Nat) :=
  if scanned pid_ent e then
    match e.environ with
    | .fail _ => []
    | .ok fd =>
      match scan_process junk2 name_ent (atoi e.d_name) fuel (init junk2) fd with
      | none => []
      | some r => r.2.pairs
  else []

/-! ## `probe_main` -/

/-- An entity of the probe's input. `first` is its first element (the name with the
attributes); `val` is the number that `PROBE_ENT_I32VAL` reads from it, `none` when
the entity has no value or its value is not a number. -/
structure Entity (α : Type) where
  first : α
  val : Option Int

/-- The object `probe_ctx_getobject` gives: its first element (`SEXP_list_first`)
and what `probe_obj_getent` finds for `"name"` and for `"pid"`. -/
structure ProbeObject (α ν : Type) where
  first : α
  name : Option ν
  pid : Option (Entity α)

/-- Result of `probe_main`: one of its own error codes, or what `read_environment`
gives. -/
inductive MainResult where
  | PROBE_ENOENT
  | PROBE_ERANGE
  | ran (r : Option (Option RetCode × State))

/-- The function `probe_main`. `pid_cmp` and `name_cmp` are
`probe_entobj_cmp (·, ·) == OVAL_RESULT_TRUE` on pid and name entities, `getpid` is
the result of `getpid ()`. -/
def probe_main {α ν : Type} (junk : Nat → Nat) (strerror : Nat → String)
    (pid_cmp : Entity α → Int → Bool) (name_cmp : ν → List Nat → Bool) (getpid : Nat)
    (fuel : Nat) (probe_in : ProbeObject α ν)
    (proc : Option (List Dirent)) (alloc_ok : Bool) : MainResult :=
  match probe_in.name with
  | none => .PROBE_ENOENT
  | some name_ent =>
    match probe_in.pid with
    | none => .PROBE_ENOENT
    | some pid_ent =>
      -- `PROBE_ENT_I32VAL(pid_ent, pid, pid = -1;)`
      let pid : Int := match pid_ent.val with
        | some v => v
        | none => -1
      if pid = -1 then .PROBE_ERANGE
      else
        let pid_ent1 : Entity α :=
          if pid = 0 then { first := probe_in.first, val := some (getpid : Int) }
          else pid_ent
        .ran (read_environment junk strerror (pid_cmp pid_ent1) (name_cmp name_ent) fuel
          proc alloc_ok)

/-- The bytes that a read event delivered. -/
def read_bytes : IOEvent → List Nat
  | .read _ _ (.bytes l) => l
  | _ => []

/-- Every event is a read on the stream of `pid` that asked for at least one byte and
delivered no more than it asked for. -/
def requests_ok (pid : Int) (evs : List IOEvent) : Prop :=
  ∀ ev ∈ evs, ∃ c l, ev = IOEvent.read pid c (ReadResult.bytes l) ∧ 1 ≤ c ∧ l.length ≤ c

/-- A sample state at a head of the consume loop: a block of 11 bytes holding
`A=b` NUL `C=d` NUL and three stale bytes, of which 8 are in use. -/
def sample_state : State :=
  { buffer := [65, 61, 98, 0, 67, 61, 100, 0, 120, 120, 0], buffer_size := 11, read_size := 8,
    items := [], pairs := [], io := [] }

/-- A sample state where the block is full: 255 of the 256 bytes are in use. -/
def full_state : State :=
  { buffer := List.replicate 255 65 ++ [0], buffer_size := 256, read_size := 255,
    items := [], pairs := [], io := [] }

/-! ## Lemmas on machine arithmetic and C strings -/

lemma uadd_eq {a b : Nat} (h : a + b < UINT_MOD) : uadd a b = a + b := by
  unfold uadd
  exact Nat.mod_eq_of_lt h

lemma usub_eq {a b : Nat} (hb : b ≤ a) (ha : a < UINT_MOD) : usub a b = a - b := by
  unfold usub
  have hb2 : b % UINT_MOD = b := Nat.mod_eq_of_lt (lt_of_le_of_lt hb ha)
  rw [hb2]
  have h1 : a + (UINT_MOD - b) = (a - b) + UINT_MOD := by omega
  rw [h1, Nat.add_mod_right]
  exact Nat.mod_eq_of_lt (by omega)

lemma strlen_le_length (l : List Nat) : strlen l ≤ l.length := by
  induction l with
  | nil => simp [strlen]
  | cons b rest ih =>
    simp only [strlen]
    split
    · simp
    · simp
      omega

lemma strlen_append_nul (seg rest : List Nat) (h : NUL ∉ seg) :
    strlen (seg ++ NUL :: rest) = seg.length := by
  induction seg with
  | nil => simp [strlen]
  | cons b seg ih =>
    simp only [List.mem_cons, not_or] at h
    have hb : ¬ b = NUL := fun e => h.1 e.symm
    simp [strlen, hb, ih h.2]

lemma strlen_append_ge (seg rest : List Nat) (h : NUL ∉ seg) :
    seg.length ≤ strlen (seg ++ rest) := by
  induction seg with
  | nil => simp
  | cons b seg ih =>
    simp only [List.mem_cons, not_or] at h
    have hb : ¬ b = NUL := fun e => h.1 e.symm
    simp [strlen, hb, ih h.2]

lemma strlen_eq_length_of_not_mem (seg : List Nat) (h : NUL ∉ seg) :
    strlen seg = seg.length := by
  have h1 := strlen_append_ge seg [] h
  have h2 := strlen_le_length seg
  simp at h1
  omega

lemma not_mem_take_strlen (l : List Nat) : NUL ∉ l.take (strlen l) := by
  induction l with
  | nil => simp [strlen]
  | cons b rest ih =>
    simp only [strlen]
    split
    · simp
    · rename_i hb
      simp only [List.take_succ_cons, List.mem_cons, not_or]
      exact ⟨fun e => hb e.symm, ih⟩

lemma drop_strlen (l : List Nat) (h : strlen l < l.length) :
    l.drop (strlen l) = NUL :: l.drop (strlen l + 1) := by
  induction l with
  | nil => simp at h
  | cons b rest ih =>
    simp only [strlen] at h ⊢
    split
    · rename_i hb
      simp [hb]
    · rename_i hb
      simp only [hb, if_false, List.length_cons, Nat.add_lt_add_iff_right] at h
      simpa using ih h

/-- A block with a terminator before its end splits at `strlen`. -/
lemma split_at_strlen (l : List Nat) (h : strlen l < l.length) :
    l = l.take (strlen l) ++ NUL :: l.drop (strlen l + 1) := by
  conv_lhs => rw [← List.take_append_drop (strlen l) l]
  rw [drop_strlen l h]

lemma not_mem_take_of_le_strlen (l : List Nat) (n : Nat) (h : n ≤ strlen l) :
    NUL ∉ l.take n := by
  intro hm
  apply not_mem_take_strlen l
  have : l.take n = (l.take (strlen l)).take n := by
    rw [List.take_take, Nat.min_eq_left h]
  rw [this] at hm
  exact List.mem_of_mem_take hm

lemma strlen_take_lt (l : List Nat) (n : Nat) (h : strlen l < n) :
    strlen (l.take n) = strlen l := by
  induction l generalizing n with
  | nil => simp [strlen]
  | cons b rest ih =>
    cases n with
    | zero => simp at h
    | succ n =>
      simp only [strlen, List.take_succ_cons] at h ⊢
      split
      · rfl
      · rename_i hb
        simp only [hb, if_false, Nat.add_lt_add_iff_right] at h
        rw [ih n h]

lemma strchr_append_nul (c : Nat) (hc : c ≠ NUL) (seg rest : List Nat) (h : NUL ∉ seg) :
    strchr c (seg ++ NUL :: rest) = strchr c seg := by
  induction seg with
  | nil =>
    have : ¬ NUL = c := fun e => hc e.symm
    simp [strchr, this]
  | cons b seg ih =>
    simp only [List.mem_cons, not_or] at h
    rw [List.cons_append]
    simp only [strchr]
    rw [ih h.2]

lemma strchr_lt_length (c : Nat) (l : List Nat) (k : Nat) (h : strchr c l = some k) :
    k < l.length := by
  induction l generalizing k with
  | nil => simp [strchr] at h
  | cons b rest ih =>
    simp only [strchr] at h
    split at h
    · simp at h; subst h; simp
    · split at h
      · simp at h
      · cases hr : strchr c rest with
        | none => simp [hr] at h
        | some j =>
          simp [hr] at h
          subst h
          have := ih j hr
          simp; omega

/-- The first occurrence found by `strchr` splits the list around it. -/
lemma strchr_some (c : Nat) (l : List Nat) (k : Nat) (h : strchr c l = some k) :
    l = l.take k ++ c :: l.drop (k + 1) ∧ c ∉ l.take k ∧ NUL ∉ l.take k := by
  induction l generalizing k with
  | nil => simp [strchr] at h
  | cons b rest ih =>
    simp only [strchr] at h
    split at h
    · rename_i hb
      simp at h; subst h; simp [hb]
    · rename_i hb
      split at h
      · simp at h
      · rename_i hb0
        cases hr : strchr c rest with
        | none => simp [hr] at h
        | some j =>
          simp [hr] at h
          subst h
          obtain ⟨h1, h2, h3⟩ := ih j hr
          refine ⟨?_, ?_, ?_⟩
          · simp only [List.take_succ_cons, List.drop_succ_cons, List.cons_append]
            rw [← h1]
          · simp only [List.take_succ_cons, List.mem_cons, not_or]
            exact ⟨fun e => hb e.symm, h2⟩
          · simp only [List.take_succ_cons, List.mem_cons, not_or]
            exact ⟨fun e => hb0 e.symm, h3⟩

lemma strchr_none (c : Nat) (l : List Nat) (hl : NUL ∉ l) (h : strchr c l = none) :
    c ∉ l := by
  induction l with
  | nil => simp
  | cons b rest ih =>
    simp only [List.mem_cons, not_or] at hl
    simp only [strchr] at h
    split at h
    · simp at h
    · rename_i hb
      have hb0 : ¬ b = NUL := fun e => hl.1 e.symm
      simp only [hb0, if_false, Option.map_eq_none'] at h
      simp only [List.mem_cons, not_or]
      exact ⟨fun e => hb e.symm, ih hl.2 h⟩

lemma strchr_first (c : Nat) (name value : List Nat) (h1 : c ∉ name) (h2 : NUL ∉ name) :
    strchr c (name ++ c :: value) = some name.length := by
  induction name with
  | nil => simp [strchr]
  | cons b name ih =>
    simp only [List.mem_cons, not_or] at h1 h2
    have hb : ¬ b = c := fun e => h1.1 e.symm
    have hb0 : ¬ b = NUL := fun e => h2.1 e.symm
    simp [strchr, hb, hb0, ih h1.2 h2.2]

lemma strchr_not_mem (c : Nat) (l : List Nat) (h : c ∉ l) : strchr c l = none := by
  induction l with
  | nil => simp [strchr]
  | cons b rest ih =>
    simp only [List.mem_cons, not_or] at h
    have hb : ¬ b = c := fun e => h.1 e.symm
    simp only [strchr, hb, if_false, ih h.2]
    split <;> simp


/-! ## Lemmas on the records of a stream -/

lemma records_from_no_nul (cur l : List Nat) (h : NUL ∉ l) : records_from cur l = [] := by
  induction l generalizing cur with
  | nil => simp [records_from]
  | cons b rest ih =>
    simp only [List.mem_cons, not_or] at h
    have hb : ¬ b = NUL := fun e => h.1 e.symm
    simp only [records_from, hb, if_false]
    exact ih _ h.2

lemma leftover_from_no_nul (cur l : List Nat) (h : NUL ∉ l) : leftover_from cur l = cur ++ l := by
  induction l generalizing cur with
  | nil => simp [leftover_from]
  | cons b rest ih =>
    simp only [List.mem_cons, not_or] at h
    have hb : ¬ b = NUL := fun e => h.1 e.symm
    simp only [leftover_from, hb, if_false]
    rw [ih _ h.2]
    simp

lemma records_from_append_nul (cur seg rest : List Nat) (h : NUL ∉ seg) :
    records_from cur (seg ++ NUL :: rest) = record (cur ++ seg) ++ records_from [] rest := by
  induction seg generalizing cur with
  | nil => simp [records_from]
  | cons b seg ih =>
    simp only [List.mem_cons, not_or] at h
    have hb : ¬ b = NUL := fun e => h.1 e.symm
    rw [List.cons_append]
    simp only [records_from, hb, if_false]
    rw [ih _ h.2]
    simp

lemma leftover_from_append_nul (cur seg rest : List Nat) (h : NUL ∉ seg) :
    leftover_from cur (seg ++ NUL :: rest) = leftover_from [] rest := by
  induction seg generalizing cur with
  | nil => simp [leftover_from]
  | cons b seg ih =>
    simp only [List.mem_cons, not_or] at h
    have hb : ¬ b = NUL := fun e => h.1 e.symm
    rw [List.cons_append]
    simp only [leftover_from, hb, if_false]
    rw [ih _ h.2]

lemma records_from_append (cur x y : List Nat) :
    records_from cur (x ++ y) = records_from cur x ++ records_from (leftover_from cur x) y := by
  induction x generalizing cur with
  | nil => simp [records_from, leftover_from]
  | cons b x ih =>
    rw [List.cons_append]
    simp only [records_from, leftover_from]
    split
    · rw [ih, List.append_assoc]
    · rw [ih]

lemma leftover_from_append (cur x y : List Nat) :
    leftover_from cur (x ++ y) = leftover_from (leftover_from cur x) y := by
  induction x generalizing cur with
  | nil => simp [leftover_from]
  | cons b x ih =>
    rw [List.cons_append]
    simp only [leftover_from]
    split
    · rw [ih]
    · rw [ih]

lemma leftover_from_not_mem (cur l : List Nat) (h : NUL ∉ cur) : NUL ∉ leftover_from cur l := by
  induction l generalizing cur with
  | nil => simpa [leftover_from] using h
  | cons b rest ih =>
    simp only [leftover_from]
    split
    · exact ih [] (by simp)
    · rename_i hb
      apply ih
      simp only [List.mem_append, List.mem_singleton, not_or]
      exact ⟨h, fun e => hb e.symm⟩

lemma records_from_eq (cur l : List Nat) (h : NUL ∉ cur) :
    records_from cur l = records (cur ++ l) := by
  unfold records
  rw [records_from_append, records_from_no_nul [] cur h, leftover_from_no_nul [] cur h]
  simp

lemma leftover_not_mem (l : List Nat) : NUL ∉ leftover l :=
  leftover_from_not_mem [] l (by simp)

/-- Reading on: the records of `x ++ y` are those of `x`, then those of what `x`
left unterminated followed by `y`. -/
lemma records_append (x y : List Nat) :
    records (x ++ y) = records x ++ records (leftover x ++ y) := by
  have h := records_from_append [] x y
  rw [records_from_eq _ _ (leftover_from_not_mem [] x (by simp))] at h
  exact h

lemma records_no_nul (l : List Nat) (h : NUL ∉ l) : records l = [] :=
  records_from_no_nul [] l h

lemma leftover_no_nul (l : List Nat) (h : NUL ∉ l) : leftover l = l := by
  simpa using leftover_from_no_nul [] l h

lemma records_segment (seg rest : List Nat) (h : NUL ∉ seg) :
    records (seg ++ NUL :: rest) = record seg ++ records rest := by
  simpa using records_from_append_nul [] seg rest h

lemma leftover_segment (seg rest : List Nat) (h : NUL ∉ seg) :
    leftover (seg ++ NUL :: rest) = leftover rest :=
  leftover_from_append_nul [] seg rest h

lemma items_of_append (name_ent : List Nat → Bool) (pid : Int)
    (a b : List (List Nat × List Nat)) :
    items_of name_ent pid (a ++ b) = items_of name_ent pid a ++ items_of name_ent pid b := by
  simp [items_of]

lemma cstr_append_nul (s rest : List Nat) (h : NUL ∉ s) : cstr (s ++ NUL :: rest) = s := by
  unfold cstr
  rw [strlen_append_nul s rest h]
  simp

/-! ## The consume loop -/

lemma filled_no_nul (st : State) (h : st.read_size ≤ strlen st.buffer) : NUL ∉ filled st :=
  not_mem_take_of_le_strlen _ _ h

lemma compact_spec (st : State) (hinv : Inv st) (ht : strlen st.buffer < st.read_size) :
    ∃ st1, compact st = some st1 ∧ Inv st1 ∧ st1.buffer_size = st.buffer_size
      ∧ filled st1 = (st.buffer.drop (strlen st.buffer + 1)).take
          (st.read_size - strlen st.buffer - 1)
      ∧ st1.read_size = st.read_size - strlen st.buffer - 1
      ∧ st1.items = st.items ∧ st1.pairs = st.pairs ∧ st1.io = st.io := by
  obtain ⟨hlen, hlt, hb⟩ := hinv
  have h1 : usub st.read_size (strlen st.buffer) = st.read_size - strlen st.buffer :=
    usub_eq (le_of_lt ht) (lt_trans hlt hb)
  have h2 : usub (st.read_size - strlen st.buffer) 1 = st.read_size - strlen st.buffer - 1 :=
    usub_eq (by omega) (by omega)
  have h3 : strlen st.buffer + 1 + (st.read_size - strlen st.buffer) ≤ st.buffer.length := by
    omega
  refine ⟨{ st with
    buffer := (st.buffer.drop (strlen st.buffer + 1)).take (st.read_size - strlen st.buffer)
      ++ st.buffer.drop (st.read_size - strlen st.buffer),
    read_size := st.read_size - strlen st.buffer - 1 }, ?_, ?_, rfl, ?_, rfl, rfl, rfl, rfl⟩
  · unfold compact memmove
    rw [h1]
    dsimp only
    rw [if_pos h3, h2]
  · refine ⟨?_, ?_, hb⟩
    · simp only [List.length_append, List.length_take, List.length_drop]
      omega
    · simp only
      omega
  · have hl : st.read_size - strlen st.buffer - 1 ≤
        ((st.buffer.drop (strlen st.buffer + 1)).take (st.read_size - strlen st.buffer)).length := by
      rw [List.length_take, List.length_drop]
      omega
    show List.take _ (_ ++ _) = _
    rw [List.take_append_of_le_length hl, List.take_take, Nat.min_eq_left (by omega)]


lemma le_strlen_of_filled_no_nul (st : State) (hle : st.read_size ≤ st.buffer.length)
    (h : NUL ∉ filled st) : st.read_size ≤ strlen st.buffer := by
  have h1 := strlen_append_ge (filled st) (st.buffer.drop st.read_size) h
  unfold filled at h1
  rw [List.take_append_drop, List.length_take, Nat.min_eq_left hle] at h1
  exact h1

/-- The buffer at the head of the consume loop, when a terminator is in use. -/
lemma buffer_split (st : State) (hinv : Inv st) (ht : strlen st.buffer < st.read_size) :
    ∃ seg rest, st.buffer = seg ++ NUL :: rest ∧ NUL ∉ seg ∧ seg.length = strlen st.buffer
      ∧ filled st = seg ++ NUL :: rest.take (st.read_size - strlen st.buffer - 1)
      ∧ rest = st.buffer.drop (strlen st.buffer + 1) := by
  obtain ⟨hlen, hlt, hb⟩ := hinv
  have htl : strlen st.buffer < st.buffer.length := by omega
  refine ⟨st.buffer.take (strlen st.buffer), st.buffer.drop (strlen st.buffer + 1),
    split_at_strlen _ htl, not_mem_take_strlen _, ?_, ?_, rfl⟩
  · rw [List.length_take]
    omega
  · have hs := split_at_strlen _ htl
    have hl : (st.buffer.take (strlen st.buffer)).length = strlen st.buffer := by
      rw [List.length_take]
      omega
    unfold filled
    conv_lhs => rw [hs]
    rw [List.take_append_eq_append_take, hl]
    rw [List.take_of_length_le (by omega)]
    have : st.read_size - strlen st.buffer = (st.read_size - strlen st.buffer - 1) + 1 := by
      omega
    rw [this, List.take_succ_cons]
    simp

lemma consume_loop_spec (name_ent : List Nat → Bool) (pid : Int) (fuel : Nat) (st : State)
    (hinv : Inv st) (hf : st.read_size < fuel) :
    ∃ st1, consume_loop name_ent pid fuel st = some (.ok st1) ∧ Inv st1
      ∧ st1.buffer_size = st.buffer_size
      ∧ filled st1 = leftover (filled st)
      ∧ st1.pairs = st.pairs ++ records (filled st)
      ∧ st1.items = st.items ++ items_of name_ent pid (records (filled st))
      ∧ st1.io = st.io ∧ st1.read_size ≤ st.read_size := by
  induction fuel generalizing st with
  | zero => omega
  | succ fuel ih =>
    unfold consume_loop
    by_cases hc : strlen st.buffer < st.read_size ∧ st.read_size > 0
    · rw [if_pos hc]
      obtain ⟨seg, rest, hbuf, hseg, hseglen, hfill, hrest⟩ := buffer_split st hinv hc.1
      have hrec := records_segment seg (rest.take (st.read_size - strlen st.buffer - 1)) hseg
      have hlo := leftover_segment seg (rest.take (st.read_size - strlen st.buffer - 1)) hseg
      rw [← hfill] at hrec hlo
      have hchr : strchr EQ st.buffer = strchr EQ seg := by
        rw [hbuf]
        exact strchr_append_nul EQ (by decide) seg rest hseg
      rw [hchr]
      cases hk : strchr EQ seg with
      | none =>
        dsimp only
        obtain ⟨st1, hc1, hinv1, hbs1, hfill1, hrs1, hit1, hpa1, hio1⟩ :=
          compact_spec st hinv hc.1
        rw [hc1]
        dsimp only
        obtain ⟨st2, h2, hinv2, hbs2, hfill2, hpa2, hit2, hio2, hrs2⟩ :=
          ih st1 hinv1 (by omega)
        refine ⟨st2, h2, hinv2, by rw [hbs2, hbs1], ?_, ?_, ?_, by rw [hio2, hio1], by omega⟩
        · rw [hfill2, hlo, hfill1, hrest]
        · rw [hpa2, hrec, hfill1, hpa1, ← hrest]
          simp [record, hk]
        · rw [hit2, hrec, hfill1, hit1, ← hrest]
          simp [record, hk]
      | some k =>
        dsimp only
        have hklt : k < seg.length := strchr_lt_length EQ seg k hk
        have hname : st.buffer.take k = seg.take k := by
          rw [hbuf, List.take_append_of_le_length (le_of_lt hklt)]
        have hvalue : cstr (st.buffer.drop (k + 1)) = seg.drop (k + 1) := by
          rw [hbuf, List.drop_append_of_le_length (by omega)]
          apply cstr_append_nul
          intro hm
          exact hseg (List.mem_of_mem_drop hm)
        rw [hname, hvalue]
        have hrk : record seg = [(seg.take k, seg.drop (k + 1))] := by
          simp [record, hk]
        by_cases hm : name_ent (seg.take k) = true
        · rw [if_pos hm]
          obtain ⟨st1, hc1, hinv1, hbs1, hfill1, hrs1, hit1, hpa1, hio1⟩ :=
            compact_spec { st with
              pairs := st.pairs ++ [(seg.take k, seg.drop (k + 1))],
              items := st.items ++ [mk_item pid (seg.take k) (seg.drop (k + 1))] }
              ⟨hinv.len, hinv.lt, hinv.bound⟩ hc.1
          rw [hc1]
          dsimp only
          dsimp only at hbs1 hfill1 hrs1 hit1 hpa1 hio1
          obtain ⟨st2, h2, hinv2, hbs2, hfill2, hpa2, hit2, hio2, hrs2⟩ :=
            ih st1 hinv1 (by omega)
          refine ⟨st2, h2, hinv2, by rw [hbs2, hbs1], ?_, ?_, ?_, by rw [hio2, hio1], by omega⟩
          · rw [hfill2, hlo, hfill1, hrest]
          · rw [hpa2, hrec, hfill1, hpa1, ← hrest, hrk, List.append_assoc]
          · rw [hit2, hrec, hfill1, hit1, ← hrest, hrk, items_of_append, List.append_assoc]
            simp [items_of, hm]
        · rw [if_neg hm]
          obtain ⟨st1, hc1, hinv1, hbs1, hfill1, hrs1, hit1, hpa1, hio1⟩ :=
            compact_spec { st with
              pairs := st.pairs ++ [(seg.take k, seg.drop (k + 1))] }
              ⟨hinv.len, hinv.lt, hinv.bound⟩ hc.1
          rw [hc1]
          dsimp only
          dsimp only at hbs1 hfill1 hrs1 hit1 hpa1 hio1
          obtain ⟨st2, h2, hinv2, hbs2, hfill2, hpa2, hit2, hio2, hrs2⟩ :=
            ih st1 hinv1 (by omega)
          refine ⟨st2, h2, hinv2, by rw [hbs2, hbs1], ?_, ?_, ?_, by rw [hio2, hio1], by omega⟩
          · rw [hfill2, hlo, hfill1, hrest]
          · rw [hpa2, hrec, hfill1, hpa1, ← hrest, hrk, List.append_assoc]
          · rw [hit2, hrec, hfill1, hit1, ← hrest, hrk, items_of_append]
            simp [items_of, hm]
    · rw [if_neg hc]
      have hle : st.read_size ≤ strlen st.buffer := by omega
      have hno := filled_no_nul st hle
      refine ⟨st, rfl, hinv, rfl, ?_, ?_, ?_, rfl, le_refl _⟩
      · rw [leftover_no_nul _ hno]
      · rw [records_no_nul _ hno, List.append_nil]
      · rw [records_no_nul _ hno]
        simp [items_of]


/-! ## The refill loop -/

lemma length_realloc (junk : Nat → Nat) (buffer : List Nat) (n : Nat) :
    (realloc junk buffer n).length = n := by
  simp [realloc]

lemma take_realloc (junk : Nat → Nat) (buffer : List Nat) (n m : Nat)
    (hn : n ≤ buffer.length) (hm : n ≤ m) :
    (realloc junk buffer m).take n = buffer.take n := by
  apply List.ext_getElem
  · rw [List.length_take, List.length_take, length_realloc]
    omega
  · intro i h1 h2
    rw [List.length_take] at h2
    have hi : i < buffer.length := by omega
    simp [realloc, List.getElem?_eq_getElem hi]

/-- The growth test of the refill loop keeps the bytes in use and leaves room for
at least one more byte. -/
lemma grow_if_spec (junk : Nat → Nat) (st : State) (M : Nat) (hM : M < UINT_MOD)
    (hinv : Inv st) (hbM : st.buffer_size ≤ M) (hrM : st.read_size + BUFFER_SIZE + 1 ≤ M) :
    ∃ st1, (if uadd st.read_size 1 ≥ st.buffer_size then grow junk st else st) = st1
      ∧ Inv st1 ∧ st1.read_size = st.read_size ∧ filled st1 = filled st
      ∧ st1.read_size + 1 < st1.buffer_size ∧ st.buffer_size ≤ st1.buffer_size
      ∧ st1.buffer_size ≤ M
      ∧ st1.pairs = st.pairs ∧ st1.items = st.items ∧ st1.io = st.io := by
  obtain ⟨hlen, hlt, hb⟩ := hinv
  have h1 : uadd st.read_size 1 = st.read_size + 1 := uadd_eq (by omega)
  rw [h1]
  by_cases hc : st.read_size + 1 ≥ st.buffer_size
  · rw [if_pos hc]
    have hB : BUFFER_SIZE = 256 := rfl
    have h2 : uadd st.buffer_size BUFFER_SIZE = st.buffer_size + BUFFER_SIZE :=
      uadd_eq (by omega)
    refine ⟨_, rfl, ⟨?_, ?_, ?_⟩, rfl, ?_, ?_, ?_, ?_, rfl, rfl, rfl⟩
    · show (realloc _ _ _).length = uadd st.buffer_size BUFFER_SIZE
      rw [length_realloc]
    · show st.read_size < uadd st.buffer_size BUFFER_SIZE
      rw [h2]; omega
    · show uadd st.buffer_size BUFFER_SIZE < UINT_MOD
      rw [h2]; omega
    · show (realloc _ _ _).take st.read_size = st.buffer.take st.read_size
      rw [h2]
      exact take_realloc _ _ _ _ (by omega) (by omega)
    · show st.read_size + 1 < uadd st.buffer_size BUFFER_SIZE
      rw [h2]; omega
    · show st.buffer_size ≤ uadd st.buffer_size BUFFER_SIZE
      rw [h2]; omega
    · show uadd st.buffer_size BUFFER_SIZE ≤ M
      rw [h2]; omega
  · rw [if_neg hc]
    exact ⟨st, rfl, ⟨hlen, hlt, hb⟩, rfl, rfl, by omega, le_refl _, hbM, rfl, rfl, rfl⟩

/-- A read that does not fail delivers a prefix of the stream, at least one byte
long when the stream and the request are not empty. -/
lemma read_spec (D : List Nat) (cs : List Nat) (count : Nat) (hcount : 1 ≤ count) :
    ∃ (n : Nat) (cs1 : List Nat), 1 ≤ n ∧ n ≤ count
      ∧ read ⟨D, cs.map some⟩ count = (.bytes (D.take n), ⟨D.drop n, cs1.map some⟩) := by
  cases cs with
  | nil => exact ⟨count, [], hcount, le_refl _, rfl⟩
  | cons c cs =>
    refine ⟨min (c + 1) count, cs, ?_, ?_, rfl⟩
    · simp only [Nat.le_min]
      omega
    · exact Nat.min_le_right _ _


lemma store_eq (buffer : List Nat) (i v : Nat) (h : i < buffer.length) :
    store buffer i v = some (buffer.set i v) := by
  unfold store
  rw [if_pos h]

lemma store_bytes_eq (buffer : List Nat) (off : Nat) (l : List Nat)
    (h : off + l.length ≤ buffer.length) :
    store_bytes buffer off l
      = some (buffer.take off ++ l ++ buffer.drop (off + l.length)) := by
  unfold store_bytes
  rw [if_pos h]

lemma length_stored (buffer : List Nat) (off : Nat) (l : List Nat)
    (h : off + l.length ≤ buffer.length) :
    (buffer.take off ++ l ++ buffer.drop (off + l.length)).length = buffer.length := by
  simp only [List.length_append, List.length_take, List.length_drop]
  omega

lemma take_set_le (l : List Nat) (m n v : Nat) (h : m ≤ n) :
    (l.set n v).take m = l.take m := by
  induction l generalizing m n with
  | nil => simp
  | cons b l ih =>
    cases m with
    | zero => simp
    | succ m =>
      cases n with
      | zero => omega
      | succ n =>
        simp only [List.set_cons_succ, List.take_succ_cons]
        rw [ih m n (by omega)]

/-- The bytes in use after a read appended `l` and the sentinel was set again. -/
lemma take_stored (buffer : List Nat) (off : Nat) (l : List Nat) (i : Nat)
    (h : off + l.length ≤ buffer.length) (hi : off + l.length ≤ i) :
    ((buffer.take off ++ l ++ buffer.drop (off + l.length)).set i NUL).take (off + l.length)
      = buffer.take off ++ l := by
  rw [take_set_le _ _ _ _ hi]
  apply List.take_left'
  rw [List.length_append, List.length_take]
  omega

lemma refill_loop_spec (junk : Nat → Nat) (pid : Int) (M : Nat) (hM : M < UINT_MOD)
    (fuel : Nat) (st : State) (D : List Nat) (cs : List Nat)
    (hinv : Inv st) (hbM : st.buffer_size ≤ M)
    (hrM : st.read_size + D.length + BUFFER_SIZE + 1 ≤ M)
    (hf : D.length + 1 < fuel) :
    ∃ (st1 : State) (D1 D2 : List Nat) (cs1 : List Nat) (empty : Bool),
      refill_loop junk pid fuel st ⟨D, cs.map some⟩
        = some (.ok (st1, ⟨D2, cs1.map some⟩, empty))
      ∧ Inv st1 ∧ st1.buffer_size ≤ M ∧ st.buffer_size ≤ st1.buffer_size
      ∧ D = D1 ++ D2 ∧ filled st1 = filled st ++ D1
      ∧ st1.read_size = st.read_size + D1.length
      ∧ st1.pairs = st.pairs ∧ st1.items = st.items
      ∧ (empty = true → D2 = [] ∧ st1.read_size ≤ strlen st1.buffer)
      ∧ (empty = false → strlen st1.buffer < st1.read_size
          ∧ (st.read_size ≤ strlen st.buffer → D2.length < D.length)) := by
  induction fuel generalizing st D cs with
  | zero => omega
  | succ fuel ih =>
    unfold refill_loop
    by_cases hc : strlen st.buffer ≥ st.read_size
    · rw [if_pos hc]
      obtain ⟨st1, hst1, hinv1, hrs1, hfill1, hroom, hge1, hbM1, hpa1, hit1, hio1⟩ :=
        grow_if_spec junk st M hM hinv hbM (by omega)
      dsimp only
      rw [hst1]
      have hcount : usub (usub st1.buffer_size st1.read_size) 1
          = st1.buffer_size - st1.read_size - 1 := by
        rw [usub_eq (by omega) hinv1.bound, usub_eq (by omega) (by have := hinv1.bound; omega)]
      rw [hcount]
      obtain ⟨n, cs1, hn1, hn2, hread⟩ :=
        read_spec D cs (st1.buffer_size - st1.read_size - 1) (by omega)
      rw [hread]
      dsimp only
      rcases hl : D.take n with _ | ⟨x, xs⟩
      · -- end of stream
        dsimp only
        have hD : D = [] := by
          cases D with
          | nil => rfl
          | cons d D =>
            have : n = (n - 1) + 1 := by omega
            rw [this] at hl
            simp at hl
        subst hD
        refine ⟨{ st1 with
            io := st1.io ++ [IOEvent.read pid (st1.buffer_size - st1.read_size - 1)
              (ReadResult.bytes [])] }, [], [], cs1, true, ?_,
          ⟨hinv1.len, hinv1.lt, hinv1.bound⟩, hbM1, hge1, rfl,
          ?_, ?_, hpa1, hit1, ?_, ?_⟩
        · simp
        · show filled st1 = filled st ++ []
          rw [hfill1, List.append_nil]
        · show st1.read_size = st.read_size + 0
          rw [hrs1]; rfl
        · intro _
          refine ⟨rfl, ?_⟩
          show st1.read_size ≤ strlen st1.buffer
          apply le_strlen_of_filled_no_nul st1 (by have := hinv1.len; have := hinv1.lt; omega)
          rw [hfill1]
          exact filled_no_nul st hc
        · intro h
          exact absurd h (by decide)
      · -- some bytes arrived
        dsimp only
        have hlen : (D.take n).length ≤ n := by
          rw [List.length_take]
          exact Nat.min_le_left _ _
        rw [hl] at hlen
        have hfit : st1.read_size + (x :: xs).length ≤ st1.buffer.length := by
          have := hinv1.len
          omega
        rw [store_bytes_eq _ _ _ hfit]
        dsimp only
        have hU : usub st1.buffer_size 1 = st1.buffer_size - 1 :=
          usub_eq (by omega) hinv1.bound
        rw [hU]
        have hsl : st1.buffer_size - 1 <
            (st1.buffer.take st1.read_size ++ (x :: xs)
              ++ st1.buffer.drop (st1.read_size + (x :: xs).length)).length := by
          rw [length_stored _ _ _ hfit, hinv1.len]
          omega
        rw [store_eq _ _ _ hsl]
        dsimp only
        have hDl : (x :: xs).length ≤ D.length := by
          rw [← hl, List.length_take]
          exact Nat.min_le_right _ _
        have hmod : (x :: xs).length % UINT_MOD = (x :: xs).length :=
          Nat.mod_eq_of_lt (by omega)
        have hrs2 : uadd st1.read_size ((x :: xs).length % UINT_MOD)
            = st1.read_size + (x :: xs).length := by
          rw [hmod]
          exact uadd_eq (by omega)
        rw [hrs2]
        have hdrop : (D.drop n).length + (x :: xs).length = D.length := by
          have := congrArg List.length (List.take_append_drop n D)
          rw [List.length_append, hl] at this
          omega
        obtain ⟨st2, D1, D2, cs2, empty, hrun, hinv2, hbM2, hge2, hD2, hfill2, hrs3, hpa2, hit2,
            he1, he2⟩ :=
          ih { st1 with
              io := st1.io ++ [IOEvent.read pid (st1.buffer_size - st1.read_size - 1)
                (ReadResult.bytes (x :: xs))],
              buffer := (st1.buffer.take st1.read_size ++ (x :: xs)
                ++ st1.buffer.drop (st1.read_size + (x :: xs).length)).set
                  (st1.buffer_size - 1) NUL,
              read_size := st1.read_size + (x :: xs).length }
            (D.drop n) cs1
            ⟨by
                show (List.set _ _ _).length = st1.buffer_size
                rw [List.length_set, length_stored _ _ _ hfit, hinv1.len],
              by
                show st1.read_size + (x :: xs).length < st1.buffer_size
                omega,
              hinv1.bound⟩
            hbM1
            (by
              show st1.read_size + (x :: xs).length + (D.drop n).length + BUFFER_SIZE + 1 ≤ M
              omega)
            (by
              have : 0 < (x :: xs).length := by simp
              omega)
        refine ⟨st2, (x :: xs) ++ D1, D2, cs2, empty, hrun, hinv2, hbM2, ?_, ?_, ?_, ?_,
          ?_, ?_, he1, ?_⟩
        · exact le_trans hge1 hge2
        · rw [List.append_assoc, ← hD2, ← hl, List.take_append_drop]
        · rw [hfill2]
          show List.take (st1.read_size + (x :: xs).length) _ ++ D1 = _
          rw [take_stored _ _ _ _ hfit (by omega), ← hfill1, List.append_assoc]
          rfl
        · rw [hrs3]
          show st1.read_size + (x :: xs).length + D1.length = _
          rw [hrs1, List.length_append]
          omega
        · rw [hpa2]; exact hpa1
        · rw [hit2]; exact hit1
        · intro h
          obtain ⟨h1, _⟩ := he2 h
          refine ⟨h1, fun _ => ?_⟩
          have := congrArg List.length hD2
          rw [List.length_append] at this
          have : 0 < (x :: xs).length := by simp
          omega
    · rw [if_neg hc]
      refine ⟨st, [], D, cs, false, rfl, hinv, hbM, le_refl _, rfl, ?_, rfl, rfl, rfl, ?_, ?_⟩
      · rw [List.append_nil]
      · intro h
        exact absurd h (by decide)
      · intro _
        exact ⟨by omega, fun h => absurd h hc⟩


/-! ## The splitter loop and one process -/

lemma splitter_loop_spec (junk : Nat → Nat) (name_ent : List Nat → Bool) (pid : Int)
    (M : Nat) (hM : M < UINT_MOD) (n fuel : Nat) (st : State) (D : List Nat) (cs : List Nat)
    (hinv : Inv st) (hbM : st.buffer_size ≤ M)
    (hrM : st.read_size + D.length + BUFFER_SIZE + 1 ≤ M)
    (hn : st.read_size + D.length + 1 < n)
    (hf : D.length + (if strlen st.buffer < st.read_size then 1 else 0) < fuel) :
    ∃ st1, splitter_loop junk name_ent pid n fuel st ⟨D, cs.map some⟩ = some (.ok st1)
      ∧ Inv st1 ∧ st1.buffer_size ≤ M ∧ st.buffer_size ≤ st1.buffer_size
      ∧ st1.pairs = st.pairs ++ records (filled st ++ D)
      ∧ st1.items = st.items ++ items_of name_ent pid (records (filled st ++ D)) := by
  induction fuel generalizing st D cs with
  | zero => omega
  | succ fuel ih =>
    unfold splitter_loop
    obtain ⟨st1, D1, D2, cs1, empty, hrun, hinv1, hbM1, hge1, hD, hfill1, hrs1, hpa1, hit1,
        he1, he2⟩ :=
      refill_loop_spec junk pid M hM n st D cs hinv hbM hrM (by omega)
    rw [hrun]
    dsimp only
    have hDl : D.length = D1.length + D2.length := by
      rw [hD, List.length_append]
    obtain ⟨st2, hrun2, hinv2, hbs2, hfill2, hpa2, hit2, _, hrs2⟩ :=
      consume_loop_spec name_ent pid n st1 hinv1 (by omega)
    rw [hrun2]
    dsimp only
    cases empty with
    | true =>
      obtain ⟨hD2, hle⟩ := he1 rfl
      subst hD2
      rw [List.append_nil] at hD
      subst hD
      have hno := filled_no_nul st1 hle
      rw [if_pos rfl]
      refine ⟨st2, rfl, hinv2, by rw [hbs2]; exact hbM1, by rw [hbs2]; exact hge1, ?_, ?_⟩
      · rw [hpa2, hpa1, ← hfill1]
      · rw [hit2, hit1, ← hfill1]
    | false =>
      obtain ⟨hlt, hprog⟩ := he2 rfl
      have hno2 : NUL ∉ filled st2 := by
        rw [hfill2]
        exact leftover_not_mem _
      have hle2 : st2.read_size ≤ strlen st2.buffer :=
        le_strlen_of_filled_no_nul st2 (by have := hinv2.len; have := hinv2.lt; omega) hno2
      have hflag : (if strlen st2.buffer < st2.read_size then 1 else 0) = 0 := by
        rw [if_neg (by omega)]
      have hfuel : D2.length < fuel := by
        by_cases hc : strlen st.buffer < st.read_size
        · rw [if_pos hc] at hf
          omega
        · rw [if_neg hc] at hf
          have := hprog (by omega)
          omega
      obtain ⟨st3, hrun3, hinv3, hbM3, hge3, hpa3, hit3⟩ :=
        ih st2 D2 cs1 hinv2 (by rw [hbs2]; exact hbM1) (by omega) (by omega)
          (by rw [hflag]; omega)
      refine ⟨st3, ?_, hinv3, hbM3, ?_, ?_, ?_⟩
      · simpa using hrun3
      · rw [hbs2] at hge3
        exact le_trans hge1 hge3
      · rw [hpa3, hpa2, hpa1, hfill2, hD, ← List.append_assoc (filled st), ← hfill1,
          records_append (filled st1) D2, List.append_assoc]
      · rw [hit3, hit2, hit1, hfill2, hD, ← List.append_assoc (filled st), ← hfill1,
          records_append (filled st1) D2, items_of_append, List.append_assoc]

/-- One opened stream whose reads do not fail: the pairs built and the items
collected are those of the records of the stream, the process ends with `return`
exactly when the stream is empty, and the capacity does not shrink nor exceed what
the stream needs. -/
lemma scan_process_run (junk : Nat → Nat) (name_ent : List Nat → Bool) (pid : Int)
    (fuel : Nat) (st : State) (D : List Nat) (cs : List Nat)
    (hok : BufferOk st) (hD : D.length + BUFFER_SIZE + 1 < UINT_MOD)
    (hf : D.length + 2 ≤ fuel) :
    ∃ st1, scan_process junk name_ent pid fuel st ⟨D, cs.map some⟩
        = some (if D = [] then Exit.returned else Exit.next, st1)
      ∧ BufferOk st1
      ∧ st1.pairs = st.pairs ++ records D
      ∧ st1.items = st.items ++ items_of name_ent pid (records D)
      ∧ st.buffer_size ≤ st1.buffer_size
      ∧ st1.buffer_size ≤ max st.buffer_size (D.length + BUFFER_SIZE + 1) := by
  obtain ⟨hlen, h256, hb⟩ := hok
  have hB : BUFFER_SIZE = 256 := rfl
  unfold scan_process
  rw [store_eq _ _ _ (by omega)]
  dsimp only
  have hU : usub st.buffer_size 1 = st.buffer_size - 1 := usub_eq (by omega) hb
  rw [hU]
  obtain ⟨n, cs1, hn1, hn2, hread⟩ := read_spec D cs (st.buffer_size - 1) (by omega)
  rw [hread]
  dsimp only
  have hDl : (D.take n).length ≤ D.length := by
    rw [List.length_take]
    exact Nat.min_le_right _ _
  have hnl : (D.take n).length ≤ n := by
    rw [List.length_take]
    exact Nat.min_le_left _ _
  have hmod : (D.take n).length % UINT_MOD = (D.take n).length := Nat.mod_eq_of_lt (by omega)
  rw [hmod]
  have hfit : 0 + (D.take n).length ≤ (st.buffer.set 0 NUL).length := by
    rw [List.length_set]
    omega
  rw [store_bytes_eq _ _ _ hfit]
  dsimp only
  by_cases hE : D = []
  · subst hE
    simp only [List.take_nil, List.length_nil, lt_self_iff_false, if_false, if_true]
    refine ⟨_, rfl, ⟨?_, h256, hb⟩, ?_, ?_, le_refl _, le_max_left _ _⟩
    · simp [hlen]
    · simp [records, records_from]
    · simp [records, records_from, items_of]
  · rw [if_neg hE]
    have hpos : 0 < (D.take n).length := by
      rw [List.length_take]
      have : 0 < D.length := List.length_pos.mpr hE
      omega
    rw [if_pos hpos]
    have hsl : st.buffer_size - 1 < ((st.buffer.set 0 NUL).take 0 ++ D.take n
        ++ (st.buffer.set 0 NUL).drop (0 + (D.take n).length)).length := by
      rw [length_stored _ _ _ hfit, List.length_set]
      omega
    rw [store_eq _ _ _ hsl]
    dsimp only
    have hdrop : (D.drop n).length + (D.take n).length = D.length := by
      have := congrArg List.length (List.take_append_drop n D)
      rw [List.length_append] at this
      omega
    have hM : max st.buffer_size (D.length + BUFFER_SIZE + 1) < UINT_MOD := by
      simp only [max_lt_iff]
      exact ⟨hb, hD⟩
    obtain ⟨st3, hrun, hinv3, hbM3, hge3, hpa3, hit3⟩ :=
      splitter_loop_spec junk name_ent pid _ hM fuel fuel
        { st with
            buffer := ((st.buffer.set 0 NUL).take 0 ++ D.take n
              ++ (st.buffer.set 0 NUL).drop (0 + (D.take n).length)).set
                (st.buffer_size - 1) NUL,
            io := st.io ++ [IOEvent.read pid (st.buffer_size - 1)
              (ReadResult.bytes (D.take n))],
            read_size := (D.take n).length }
        (D.drop n) cs1
        ⟨by
            show (List.set _ _ _).length = st.buffer_size
            rw [List.length_set, length_stored _ _ _ hfit, List.length_set, hlen],
          by
            show (D.take n).length < st.buffer_size
            omega,
          hb⟩
        (le_max_left _ _)
        (by
          show (D.take n).length + (D.drop n).length + BUFFER_SIZE + 1 ≤ _
          have := le_max_right st.buffer_size (D.length + BUFFER_SIZE + 1)
          omega)
        (by
          show (D.take n).length + (D.drop n).length + 1 < fuel
          omega)
        (by
          have : (D.drop n).length < D.length := by omega
          split <;> omega)
    rw [hrun]
    dsimp only
    have hfill : filled { st with
            buffer := ((st.buffer.set 0 NUL).take 0 ++ D.take n
              ++ (st.buffer.set 0 NUL).drop (0 + (D.take n).length)).set
                (st.buffer_size - 1) NUL,
            io := st.io ++ [IOEvent.read pid (st.buffer_size - 1)
              (ReadResult.bytes (D.take n))],
            read_size := (D.take n).length } ++ D.drop n = D := by
      show List.take (D.take n).length _ ++ _ = _
      have h0 : (D.take n).length = 0 + (D.take n).length := by omega
      conv_lhs => arg 1; arg 1; rw [h0]
      rw [take_stored _ _ _ _ hfit (by omega)]
      simp
    rw [hfill] at hpa3 hit3
    refine ⟨_, rfl, ⟨?_, ?_, hinv3.bound⟩, hpa3, hit3, hge3, hbM3⟩
    · exact hinv3.len
    · exact le_trans h256 hge3

/-- One opened stream whose reads do not fail: the pairs built and the items
collected are those of the records of the stream, and the process ends with
`return` exactly when the stream is empty. -/
lemma scan_process_spec (junk : Nat → Nat) (name_ent : List Nat → Bool) (pid : Int)
    (fuel : Nat) (st : State) (D : List Nat) (cs : List Nat)
    (hok : BufferOk st) (hD : D.length + BUFFER_SIZE + 1 < UINT_MOD)
    (hf : D.length + 2 ≤ fuel) :
    ∃ st1, scan_process junk name_ent pid fuel st ⟨D, cs.map some⟩
        = some (if D = [] then Exit.returned else Exit.next, st1)
      ∧ BufferOk st1
      ∧ st1.pairs = st.pairs ++ records D
      ∧ st1.items = st.items ++ items_of name_ent pid (records D) := by
  obtain ⟨st1, h1, h2, h3, h4, _⟩ :=
    scan_process_run junk name_ent pid fuel st D cs hok hD hf
  exact ⟨st1, h1, h2, h3, h4⟩

/-! ## Streams made of records -/

lemma init_ok (junk : Nat → Nat) : BufferOk (init junk) := by
  refine ⟨?_, le_refl _, ?_⟩
  · show (realloc junk [] BUFFER_SIZE).length = BUFFER_SIZE
    exact length_realloc _ _ _
  · show BUFFER_SIZE < UINT_MOD
    decide

lemma record_pair (name value : List Nat) (h1 : EQ ∉ name) (h2 : NUL ∉ name) :
    record (name ++ EQ :: value) = [(name, value)] := by
  unfold record
  rw [strchr_first EQ name value h1 h2]
  simp

lemma record_no_eq (seg : List Nat) (h : EQ ∉ seg) : record seg = [] := by
  unfold record
  rw [strchr_not_mem EQ seg h]

lemma record_split (seg : List Nat) (h0 : NUL ∉ seg) (h : EQ ∈ seg) :
    ∃ name value, record seg = [(name, value)] ∧ name ++ EQ :: value = seg
      ∧ EQ ∉ name ∧ NUL ∉ name ∧ NUL ∉ value := by
  cases hk : strchr EQ seg with
  | none => exact absurd h (strchr_none EQ seg h0 hk)
  | some k =>
    obtain ⟨h1, h2, h3⟩ := strchr_some EQ seg k hk
    refine ⟨seg.take k, seg.drop (k + 1), ?_, h1.symm, h2, h3, ?_⟩
    · simp [record, hk]
    · intro hm
      exact h0 (List.mem_of_mem_drop hm)

lemma records_encode (recs : List (List Nat × List Nat))
    (h : ∀ r ∈ recs, EQ ∉ r.1 ∧ NUL ∉ r.1 ∧ NUL ∉ r.2) : records (encode recs) = recs := by
  induction recs with
  | nil => rfl
  | cons r recs ih =>
    obtain ⟨name, value⟩ := r
    have hr := h (name, value) (List.mem_cons_self _ _)
    have hrest : ∀ r ∈ recs, EQ ∉ r.1 ∧ NUL ∉ r.1 ∧ NUL ∉ r.2 :=
      fun r hm => h r (List.mem_cons_of_mem _ hm)
    have hseg : NUL ∉ name ++ EQ :: value := by
      simp only [List.mem_append, List.mem_cons, not_or]
      exact ⟨hr.2.1, by decide, hr.2.2⟩
    have he : encode ((name, value) :: recs) = (name ++ EQ :: value) ++ NUL :: encode recs := by
      simp [encode]
    rw [he, records_segment _ _ hseg, record_pair name value hr.1 hr.2.1, ih hrest]
    rfl

lemma leftover_boundary (A : List Nat) (h : A = [] ∨ ∃ A0, A = A0 ++ [NUL]) :
    leftover A = [] := by
  rcases h with h | ⟨A0, h⟩
  · subst h
    rfl
  · subst h
    unfold leftover
    rw [leftover_from_append]
    simp [leftover_from]

/-- Records of a stream cut at a segment boundary. -/
lemma records_boundary (A B : List Nat) (h : A = [] ∨ ∃ A0, A = A0 ++ [NUL]) :
    records (A ++ B) = records A ++ records B := by
  rw [records_append, leftover_boundary A h, List.nil_append]

/-! ## Properties of the splitter -/

/-- C1: for every list of records `name=value` (names without `'='` and NUL, values
without NUL), each followed by one NUL, and every schedule of reads of at least one
byte, the splitter loop hands exactly these pairs, in order, to the name comparison. -/
theorem splitter_yields_records (junk : Nat → Nat) (name_ent : List Nat → Bool) (pid : Int)
    (fuel : Nat) (st : State) (recs : List (List Nat × List Nat)) (cs : List Nat)
    (hst : BufferOk st)
    (hrecs : ∀ r ∈ recs, EQ ∉ r.1 ∧ NUL ∉ r.1 ∧ NUL ∉ r.2)
    (hlen : (encode recs).length + BUFFER_SIZE + 1 < UINT_MOD)
    (hfuel : (encode recs).length + 2 ≤ fuel) :
    ∃ x st1, scan_process junk name_ent pid fuel st ⟨encode recs, cs.map some⟩ = some (x, st1)
      ∧ x ≠ Exit.fault ∧ st1.pairs = st.pairs ++ recs := by
  obtain ⟨st1, hrun, _, hpa, _⟩ :=
    scan_process_spec junk name_ent pid fuel st (encode recs) cs hst hlen hfuel
  refine ⟨_, st1, hrun, ?_, ?_⟩
  · split <;> simp
  · rw [hpa, records_encode recs hrecs]

/-- C2: for every stream and every two schedules of reads of at least one byte, the
splitter loop builds the same pairs in the same order (and collects the same items);
the empty schedule is the one where every read returns as much as requested. -/
theorem splitter_schedule_independent (junk : Nat → Nat) (name_ent : List Nat → Bool)
    (pid : Int) (fuel : Nat) (st : State) (D : List Nat) (cs1 cs2 : List Nat)
    (hst : BufferOk st)
    (hlen : D.length + BUFFER_SIZE + 1 < UINT_MOD)
    (hfuel : D.length + 2 ≤ fuel) :
    ∃ x st1 st2,
      scan_process junk name_ent pid fuel st ⟨D, cs1.map some⟩ = some (x, st1)
      ∧ scan_process junk name_ent pid fuel st ⟨D, cs2.map some⟩ = some (x, st2)
      ∧ x ≠ Exit.fault
      ∧ st1.pairs = st2.pairs ∧ st1.items = st2.items := by
  obtain ⟨st1, hrun1, _, hpa1, hit1⟩ :=
    scan_process_spec junk name_ent pid fuel st D cs1 hst hlen hfuel
  obtain ⟨st2, hrun2, _, hpa2, hit2⟩ :=
    scan_process_spec junk name_ent pid fuel st D cs2 hst hlen hfuel
  refine ⟨_, st1, st2, hrun1, hrun2, ?_, by rw [hpa1, hpa2], by rw [hit1, hit2]⟩
  split <;> simp

/-- C3: a NUL-terminated segment without `'='` yields no pair, and the pairs built
for the stream are those built for the stream with this segment and its terminator
removed. -/
theorem malformed_segment_dropped (junk : Nat → Nat) (name_ent : List Nat → Bool)
    (pid : Int) (fuel : Nat) (st : State) (A seg B : List Nat) (cs1 cs2 : List Nat)
    (hst : BufferOk st)
    (hA : A = [] ∨ ∃ A0, A = A0 ++ [NUL])
    (hseg : EQ ∉ seg ∧ NUL ∉ seg)
    (hlen : (A ++ seg ++ NUL :: B).length + BUFFER_SIZE + 1 < UINT_MOD)
    (hfuel : (A ++ seg ++ NUL :: B).length + 2 ≤ fuel) :
    ∃ x y st1 st2,
      scan_process junk name_ent pid fuel st ⟨A ++ seg ++ NUL :: B, cs1.map some⟩
        = some (x, st1)
      ∧ scan_process junk name_ent pid fuel st ⟨A ++ B, cs2.map some⟩ = some (y, st2)
      ∧ x ≠ Exit.fault ∧ y ≠ Exit.fault
      ∧ st1.pairs = st2.pairs := by
  have hl : (A ++ B).length ≤ (A ++ seg ++ NUL :: B).length := by
    simp only [List.length_append, List.length_cons]
    omega
  obtain ⟨st1, hrun1, _, hpa1, _⟩ :=
    scan_process_spec junk name_ent pid fuel st (A ++ seg ++ NUL :: B) cs1 hst hlen hfuel
  obtain ⟨st2, hrun2, _, hpa2, _⟩ :=
    scan_process_spec junk name_ent pid fuel st (A ++ B) cs2 hst (by omega) (by omega)
  refine ⟨_, _, st1, st2, hrun1, hrun2, ?_, ?_, ?_⟩
  · split <;> simp
  · split <;> simp
  · rw [hpa1, hpa2, List.append_assoc, records_boundary A _ hA, records_boundary A _ hA,
      records_segment seg B hseg.2, record_no_eq seg hseg.1, List.nil_append]

/-- C4: a NUL-terminated segment that holds a `'='` yields one pair, split at the
first `'='`: the name is what precedes it (no `'='`, no NUL), the value is all that
follows up to the terminator, and `name ++ "=" ++ value` is the segment. The pair
stands between the pairs of the stream before and of the stream after the segment. -/
theorem segment_split_at_first_eq (junk : Nat → Nat) (name_ent : List Nat → Bool)
    (pid : Int) (fuel : Nat) (st : State) (A seg B : List Nat) (cs csa csb : List Nat)
    (hst : BufferOk st)
    (hA : A = [] ∨ ∃ A0, A = A0 ++ [NUL])
    (hseg : NUL ∉ seg) (heq : EQ ∈ seg)
    (hlen : (A ++ seg ++ NUL :: B).length + BUFFER_SIZE + 1 < UINT_MOD)
    (hfuel : (A ++ seg ++ NUL :: B).length + 2 ≤ fuel) :
    ∃ name value x xa xb st1 sa sb pa pb,
      name ++ EQ :: value = seg ∧ EQ ∉ name ∧ NUL ∉ name ∧ NUL ∉ value
      ∧ scan_process junk name_ent pid fuel st ⟨A ++ seg ++ NUL :: B, cs.map some⟩
          = some (x, st1)
      ∧ scan_process junk name_ent pid fuel st ⟨A, csa.map some⟩ = some (xa, sa)
      ∧ scan_process junk name_ent pid fuel st ⟨B, csb.map some⟩ = some (xb, sb)
      ∧ sa.pairs = st.pairs ++ pa ∧ sb.pairs = st.pairs ++ pb
      ∧ st1.pairs = st.pairs ++ pa ++ [(name, value)] ++ pb := by
  have hl : A.length + B.length < (A ++ seg ++ NUL :: B).length := by
    simp only [List.length_append, List.length_cons]
    omega
  obtain ⟨name, value, hrec, hnv, h1, h2, h3⟩ := record_split seg hseg heq
  obtain ⟨st1, hrun1, _, hpa1, _⟩ :=
    scan_process_spec junk name_ent pid fuel st (A ++ seg ++ NUL :: B) cs hst hlen hfuel
  obtain ⟨sa, hruna, _, hpaa, _⟩ :=
    scan_process_spec junk name_ent pid fuel st A csa hst (by omega) (by omega)
  obtain ⟨sb, hrunb, _, hpab, _⟩ :=
    scan_process_spec junk name_ent pid fuel st B csb hst (by omega) (by omega)
  refine ⟨name, value, _, _, _, st1, sa, sb, records A, records B, hnv, h1, h2, h3,
    hrun1, hruna, hrunb, hpaa, hpab, ?_⟩
  rw [hpa1, List.append_assoc A, records_boundary A _ hA, records_segment seg B hseg, hrec]
  simp only [List.append_assoc]

lemma strchr_ne_nil (c : Nat) (l : List Nat) (k : Nat) (h : strchr c l = some k) : l ≠ [] := by
  intro hl
  subst hl
  simp [strchr] at h

lemma strchr_zero_head (c : Nat) (l : List Nat) (h : strchr c l = some 0) :
    l.head? = some c := by
  cases l with
  | nil => simp [strchr] at h
  | cons b rest =>
    simp only [strchr] at h
    split at h
    · rename_i hb
      simp [hb]
    · split at h
      · simp at h
      · cases hr : strchr c rest with
        | none => simp [hr] at h
        | some j => simp [hr] at h

lemma record_name_ne_nil (seg : List Nat) (h : seg.head? ≠ some EQ) :
    ∀ p ∈ record seg, p.1 ≠ [] := by
  intro p hp
  unfold record at hp
  cases hk : strchr EQ seg with
  | none => simp [hk] at hp
  | some k =>
    simp only [hk, List.mem_singleton] at hp
    subst hp
    cases k with
    | zero => exact absurd (strchr_zero_head EQ seg hk) h
    | succ k =>
      cases seg with
      | nil => exact absurd rfl (strchr_ne_nil EQ [] _ hk)
      | cons b rest => simp

lemma records_from_names (cur l : List Nat) (hcur : cur.head? ≠ some EQ)
    (hl : cur = [] → l.head? ≠ some EQ)
    (hinf : ¬ [NUL, EQ] <:+: l) :
    ∀ p ∈ records_from cur l, p.1 ≠ [] := by
  induction l generalizing cur with
  | nil => simp [records_from]
  | cons b rest ih =>
    have hshift : ¬ [NUL, EQ] <:+: rest := fun h => hinf (List.infix_cons h)
    intro p hp
    simp only [records_from] at hp
    split at hp
    · rename_i hb
      rcases List.mem_append.mp hp with h1 | h2
      · exact record_name_ne_nil cur hcur p h1
      · refine ih [] (by simp) (fun _ => ?_) hshift p h2
        intro hh
        cases rest with
        | nil => simp at hh
        | cons r rest =>
          simp only [List.head?_cons, Option.some.injEq] at hh
          apply hinf
          rw [hb, hh]
          exact ⟨[], rest, rfl⟩
    · refine ih (cur ++ [b]) ?_ (fun h => ?_) hshift p hp
      · cases cur with
        | nil =>
          have := hl rfl
          simpa using this
        | cons c cur => simpa using hcur
      · simp at h

lemma items_of_fields (name_ent : List Nat → Bool) (pid : Int)
    (ps : List (List Nat × List Nat)) :
    ∀ item ∈ items_of name_ent pid ps,
      item.status = Status.collected ∧ item.pid = pid
        ∧ ∃ p ∈ ps, item.name = some p.1 ∧ item.value = some p.2 := by
  intro item hi
  simp only [items_of, List.mem_map, List.mem_filter] at hi
  obtain ⟨p, ⟨hp, _⟩, rfl⟩ := hi
  exact ⟨rfl, rfl, p, hp, rfl, rfl⟩

lemma open_message_length (strerror : Nat → String) (pid : Int) (errno : Nat) :
    0 < (open_message strerror pid errno).length := by
  unfold open_message
  simp only [String.length_append]
  have : ("Can't open \"").length = 12 := by decide
  omega

/-- C5: for a pid-matched process whose stream opens, the items handed to the sink
are exactly the pairs of the splitter whose name the name comparison accepts, in
stream order, each with that pid, the name and the value; the other pairs give no
item and no error. -/
theorem matching_pairs_are_collected (junk : Nat → Nat) (strerror : Nat → String)
    (pid_ent : Int → Bool) (name_ent : List Nat → Bool) (fuel : Nat) (st : State)
    (d_name : String) (D : List Nat) (cs : List Nat)
    (hst : BufferOk st)
    (hd : all_digits d_name = true) (hp : pid_ent (atoi d_name) = true)
    (hlen : D.length + BUFFER_SIZE + 1 < UINT_MOD)
    (hfuel : D.length + 2 ≤ fuel) :
    ∃ x st1 ps,
      process_entry junk strerror pid_ent name_ent fuel st ⟨d_name, .ok ⟨D, cs.map some⟩⟩
        = some (x, st1)
      ∧ x ≠ Exit.fault
      ∧ st1.pairs = st.pairs ++ ps
      ∧ st1.items = st.items ++ (ps.filter (fun p => name_ent p.1)).map
          (fun p => { pid := atoi d_name, name := some p.1, value := some p.2,
                      status := Status.collected, message := none }) := by
  obtain ⟨st1, hrun, _, hpa, hit⟩ :=
    scan_process_spec junk name_ent (atoi d_name) fuel
      { st with io := st.io ++ [IOEvent.open_ (atoi d_name) true] } D cs
      ⟨hst.1, hst.2.1, hst.2.2⟩ hlen hfuel
  refine ⟨if D = [] then Exit.returned else Exit.next, st1, records D, ?_, ?_, hpa, hit⟩
  · unfold process_entry
    rw [if_pos hd]
    dsimp only
    rw [if_pos hp]
    exact hrun
  · split <;> simp

/-- C7: when `open` fails for a pid-matching entry, exactly one item is added, for
that pid, with status not-collected, no name and no value, and a non-empty message
that holds the path `/proc/<pid>/environ`, the `errno` and its `strerror` text; the
loop then goes on with the next entries. -/
theorem open_failure_reported (junk : Nat → Nat) (strerror : Nat → String)
    (pid_ent : Int → Bool) (name_ent : List Nat → Bool) (fuel : Nat) (st : State)
    (d_name : String) (errno : Nat) (rest : List Dirent)
    (hd : all_digits d_name = true) (hp : pid_ent (atoi d_name) = true) :
    ∃ item msg pre mid1 mid2 post,
      dir_loop junk strerror pid_ent name_ent fuel st (⟨d_name, .fail errno⟩ :: rest)
        = dir_loop junk strerror pid_ent name_ent fuel
            { st with io := st.io ++ [IOEvent.open_ (atoi d_name) false],
                      items := st.items ++ [item] } rest
      ∧ item.pid = atoi d_name ∧ item.status = Status.not_collected
      ∧ item.name = none ∧ item.value = none
      ∧ item.message = some msg ∧ msg ≠ ""
      ∧ msg = pre ++ ("/proc/" ++ toString (atoi d_name) ++ "/environ") ++ mid1
          ++ toString errno ++ mid2 ++ strerror errno ++ post := by
  refine ⟨open_failed_item strerror (atoi d_name) errno,
    open_message strerror (atoi d_name) errno, "Can't open \"", "\": errno=", ", ", ".",
    ?_, rfl, rfl, rfl, rfl, rfl, ?_, rfl⟩
  · conv_lhs => unfold dir_loop
    unfold process_entry
    rw [if_pos hd]
    dsimp only
    rw [if_pos hp]
  · intro h
    have := open_message_length strerror (atoi d_name) errno
    rw [h] at this
    exact absurd this (by decide)

/-- C8 (as amended): for every content of an opened stream whose reads do not fail
and every name comparison, every item emitted in the scan of the stream has status
collected with a defined name and a defined value; when no record of the stream
begins with `'='` (the stream does not start with `'='` and nowhere holds a NUL
followed by `'='`), the name is not empty. -/
theorem collected_items_named (junk : Nat → Nat) (name_ent : List Nat → Bool) (pid : Int)
    (fuel : Nat) (st : State) (D : List Nat) (cs : List Nat)
    (hst : BufferOk st)
    (hlen : D.length + BUFFER_SIZE + 1 < UINT_MOD)
    (hfuel : D.length + 2 ≤ fuel) :
    ∃ x st1 new,
      scan_process junk name_ent pid fuel st ⟨D, cs.map some⟩ = some (x, st1)
      ∧ st1.items = st.items ++ new
      ∧ (∀ item ∈ new, item.status = Status.collected
          ∧ ∃ n v, item.name = some n ∧ item.value = some v)
      ∧ ((D.head? ≠ some EQ ∧ ¬ [NUL, EQ] <:+: D) →
          ∀ item ∈ new, item.name ≠ some []) := by
  obtain ⟨st1, hrun, _, _, hit⟩ :=
    scan_process_spec junk name_ent pid fuel st D cs hst hlen hfuel
  refine ⟨_, st1, items_of name_ent pid (records D), hrun, hit, ?_, ?_⟩
  · intro item hi
    obtain ⟨h1, _, p, _, h2, h3⟩ := items_of_fields name_ent pid _ item hi
    exact ⟨h1, p.1, p.2, h2, h3⟩
  · intro ⟨hhead, hinf⟩ item hi
    obtain ⟨_, _, p, hp, h2, _⟩ := items_of_fields name_ent pid _ item hi
    have hne := records_from_names [] D (by simp) (fun _ => hhead) hinf p hp
    rw [h2]
    intro h
    exact hne (Option.some.inj h)

/-- C9: for a pid-matching entry whose stream opens and whose first read returns
zero bytes, no pair is built and no item is emitted (in particular no not-collected
item); `read_environment` executes its `return` there. -/
theorem zero_byte_stream_emits_nothing (junk : Nat → Nat) (strerror : Nat → String)
    (pid_ent : Int → Bool) (name_ent : List Nat → Bool) (fuel : Nat) (st : State)
    (d_name : String) (fd : Fd)
    (hst : BufferOk st)
    (hd : all_digits d_name = true) (hp : pid_ent (atoi d_name) = true)
    (hzero : (read fd (usub st.buffer_size 1)).1 = ReadResult.bytes []) :
    ∃ st1,
      process_entry junk strerror pid_ent name_ent fuel st ⟨d_name, .ok fd⟩
        = some (Exit.returned, st1)
      ∧ st1.items = st.items ∧ st1.pairs = st.pairs := by
  obtain ⟨hlen, h256, hb⟩ := hst
  have hB : BUFFER_SIZE = 256 := rfl
  unfold process_entry
  rw [if_pos hd]
  dsimp only
  rw [if_pos hp]
  unfold scan_process
  dsimp only
  rw [store_eq _ _ _ (by omega), hzero]
  dsimp only
  rw [store_bytes_eq _ _ _ (by simp)]
  simp

/-- C10: bytes left without terminator when the stream ends are discarded: for a
stream `S ++ T` where `S` is empty or ends with NUL and `T` holds no NUL, the pairs
built and the items collected are those of `S` alone. -/
theorem unterminated_tail_discarded (junk : Nat → Nat) (name_ent : List Nat → Bool)
    (pid : Int) (fuel : Nat) (st : State) (S T : List Nat) (cs1 cs2 : List Nat)
    (hst : BufferOk st)
    (hS : S = [] ∨ ∃ S0, S = S0 ++ [NUL])
    (hT : NUL ∉ T)
    (hlen : (S ++ T).length + BUFFER_SIZE + 1 < UINT_MOD)
    (hfuel : (S ++ T).length + 2 ≤ fuel) :
    ∃ x y st1 st2,
      scan_process junk name_ent pid fuel st ⟨S ++ T, cs1.map some⟩ = some (x, st1)
      ∧ scan_process junk name_ent pid fuel st ⟨S, cs2.map some⟩ = some (y, st2)
      ∧ x ≠ Exit.fault ∧ y ≠ Exit.fault
      ∧ st1.pairs = st2.pairs ∧ st1.items = st2.items := by
  have hl : S.length ≤ (S ++ T).length := by
    rw [List.length_append]
    omega
  obtain ⟨st1, hrun1, _, hpa1, hit1⟩ :=
    scan_process_spec junk name_ent pid fuel st (S ++ T) cs1 hst hlen hfuel
  obtain ⟨st2, hrun2, _, hpa2, hit2⟩ :=
    scan_process_spec junk name_ent pid fuel st S cs2 hst (by omega) (by omega)
  have hrec : records (S ++ T) = records S := by
    rw [records_boundary S T hS, records_no_nul T hT, List.append_nil]
  refine ⟨_, _, st1, st2, hrun1, hrun2, ?_, ?_, ?_, ?_⟩
  · split <;> simp
  · split <;> simp
  · rw [hpa1, hpa2, hrec]
  · rw [hit1, hit2, hrec]

/-! ## The loops, one pass at a time -/

/-- The refill loop runs `refill_body` while its test holds. -/
lemma refill_loop_succ (junk : Nat → Nat) (pid : Int) (fuel : Nat) (st : State) (fd : Fd) :
    refill_loop junk pid (fuel + 1) st fd
      = if strlen st.buffer ≥ st.read_size then
          match refill_body junk pid st fd with
          | .eof s f => some (.ok (s, f, true))
          | .again s f => refill_loop junk pid fuel s f
          | .fault s => some (.error s)
        else some (.ok (st, fd, false)) := by
  rw [refill_loop]
  unfold refill_body
  dsimp only
  split
  · split
    · rfl
    · split
      · rfl
      · split
        · rfl
        · rfl
    · split
      · rfl
      · rfl
  · rfl

/-- The consume loop runs `consume_body` while its test holds. -/
lemma consume_loop_succ (name_ent : List Nat → Bool) (pid : Int) (fuel : Nat) (st : State) :
    consume_loop name_ent pid (fuel + 1) st
      = if strlen st.buffer < st.read_size ∧ st.read_size > 0 then
          match consume_body name_ent pid st with
          | .error s => some (.error s)
          | .ok s => consume_loop name_ent pid fuel s
        else some (.ok st) := by
  rw [consume_loop]
  unfold consume_body
  dsimp only
  split
  · split
    · split
      · rfl
      · rfl
    · split
      · rfl
      · rfl
  · rfl

lemma compact_eq (st : State) (hinv : Inv st) (ht : strlen st.buffer < st.read_size) :
    compact st = some { st with
      buffer := (st.buffer.drop (strlen st.buffer + 1)).take (st.read_size - strlen st.buffer)
        ++ st.buffer.drop (st.read_size - strlen st.buffer),
      read_size := st.read_size - strlen st.buffer - 1 } := by
  obtain ⟨hlen, hlt, hb⟩ := hinv
  have h1 : usub st.read_size (strlen st.buffer) = st.read_size - strlen st.buffer :=
    usub_eq (le_of_lt ht) (lt_trans hlt hb)
  have h2 : usub (st.read_size - strlen st.buffer) 1 = st.read_size - strlen st.buffer - 1 :=
    usub_eq (by omega) (by omega)
  have h3 : strlen st.buffer + 1 + (st.read_size - strlen st.buffer) ≤ st.buffer.length := by
    omega
  unfold compact memmove
  rw [h1]
  dsimp only
  rw [if_pos h3, h2]

/-- Bytes of the block after the `memmove` of a compaction by `t + 1` bytes, where
`n` bytes are in use: the bytes in use move to the front, the others stay. -/
lemma getElem?_compacted (buffer : List Nat) (t n : Nat) (ht : t < n) (hn : n < buffer.length) :
    (∀ i, i < n - t → ((buffer.drop (t + 1)).take (n - t) ++ buffer.drop (n - t))[i]?
        = buffer[t + 1 + i]?)
    ∧ (∀ j, n - t ≤ j → ((buffer.drop (t + 1)).take (n - t) ++ buffer.drop (n - t))[j]?
        = buffer[j]?)
    ∧ ((buffer.drop (t + 1)).take (n - t) ++ buffer.drop (n - t)).length = buffer.length := by
  have hl : ((buffer.drop (t + 1)).take (n - t)).length = n - t := by
    rw [List.length_take, List.length_drop]
    omega
  refine ⟨?_, ?_, ?_⟩
  · intro i hi
    rw [List.getElem?_append_left (by omega), List.getElem?_take_of_lt hi, List.getElem?_drop]
  · intro j hj
    rw [List.getElem?_append_right (by omega), hl, List.getElem?_drop]
    congr 1
    omega
  · rw [List.length_append, hl, List.length_drop]
    omega

lemma consume_body_spec (name_ent : List Nat → Bool) (pid : Int) (st : State)
    (hinv : Inv st) (ht : strlen st.buffer < st.read_size) :
    ∃ st1, consume_body name_ent pid st = .ok st1 ∧ Inv st1
      ∧ st1.buffer_size = st.buffer_size
      ∧ st1.read_size = st.read_size - (strlen st.buffer + 1)
      ∧ st1.buffer
          = (st.buffer.drop (strlen st.buffer + 1)).take (st.read_size - strlen st.buffer)
            ++ st.buffer.drop (st.read_size - strlen st.buffer)
      ∧ st1.io = st.io := by
  have hlen' := (getElem?_compacted st.buffer (strlen st.buffer) st.read_size ht
    (by have := hinv.len; have := hinv.lt; omega)).2.2
  unfold consume_body
  cases hk : strchr EQ st.buffer with
  | none =>
    dsimp only
    rw [compact_eq st hinv ht]
    refine ⟨_, rfl, ⟨?_, ?_, hinv.bound⟩, rfl, ?_, rfl, rfl⟩
    · show List.length _ = st.buffer_size
      rw [hlen', hinv.len]
    · show st.read_size - strlen st.buffer - 1 < st.buffer_size
      have := hinv.lt
      omega
    · show st.read_size - strlen st.buffer - 1 = _
      omega
  | some k =>
    dsimp only
    by_cases hm : name_ent (st.buffer.take k) = true
    · rw [if_pos hm]
      rw [compact_eq { st with
          pairs := st.pairs ++ [(st.buffer.take k, cstr (st.buffer.drop (k + 1)))],
          items := st.items
            ++ [mk_item pid (st.buffer.take k) (cstr (st.buffer.drop (k + 1)))] }
        ⟨hinv.len, hinv.lt, hinv.bound⟩ ht]
      refine ⟨_, rfl, ⟨?_, ?_, hinv.bound⟩, rfl, ?_, rfl, rfl⟩
      · show List.length _ = st.buffer_size
        rw [hlen', hinv.len]
      · show st.read_size - strlen st.buffer - 1 < st.buffer_size
        have := hinv.lt
        omega
      · show st.read_size - strlen st.buffer - 1 = _
        omega
    · rw [if_neg hm]
      rw [compact_eq { st with
          pairs := st.pairs ++ [(st.buffer.take k, cstr (st.buffer.drop (k + 1)))] }
        ⟨hinv.len, hinv.lt, hinv.bound⟩ ht]
      refine ⟨_, rfl, ⟨?_, ?_, hinv.bound⟩, rfl, ?_, rfl, rfl⟩
      · show List.length _ = st.buffer_size
        rw [hlen', hinv.len]
      · show st.read_size - strlen st.buffer - 1 < st.buffer_size
        have := hinv.lt
        omega
      · show st.read_size - strlen st.buffer - 1 = _
        omega

/-- C15: one pass of the consume loop taken when the bytes in use hold a NUL, the
first one at offset `t = strlen buffer`: in the malformed and in the well-formed
branch alike the `t + 1` bytes in front are removed, `read_size` drops by `t + 1`
and byte `i` of the new buffer is byte `t + 1 + i` of the old one for every `i`
below the new `read_size`; the capacity and the block size stay. -/
theorem consume_step_compacts (name_ent : List Nat → Bool) (pid : Int) (st : State)
    (hlen : st.buffer.length = st.buffer_size) (hlt : st.read_size < st.buffer_size)
    (hb : st.buffer_size < UINT_MOD) (ht : strlen st.buffer < st.read_size) :
    ∃ st1, consume_body name_ent pid st = .ok st1
      ∧ (∀ fuel, consume_loop name_ent pid (fuel + 1) st = consume_loop name_ent pid fuel st1)
      ∧ st1.read_size = st.read_size - (strlen st.buffer + 1)
      ∧ (∀ i, i < st1.read_size → st1.buffer[i]? = st.buffer[strlen st.buffer + 1 + i]?)
      ∧ st1.buffer_size = st.buffer_size ∧ st1.buffer.length = st.buffer.length := by
  obtain ⟨st1, hbody, _, hbs, hrs, hbuf, _⟩ :=
    consume_body_spec name_ent pid st ⟨hlen, hlt, hb⟩ ht
  obtain ⟨hfront, _, hsame⟩ :=
    getElem?_compacted st.buffer (strlen st.buffer) st.read_size ht (by omega)
  refine ⟨st1, hbody, ?_, hrs, ?_, hbs, ?_⟩
  · intro fuel
    rw [consume_loop_succ, if_pos ⟨ht, by omega⟩, hbody]
  · intro i hi
    rw [hbuf]
    exact hfront i (by omega)
  · rw [hbuf]
    exact hsame

/-- One pass of the refill loop when the read does not fail: the request is for at
least one byte; at end of stream the pass ends the loop with the bytes in use
untouched, otherwise the bytes delivered are appended to the bytes in use, below
the last byte of the block. -/
lemma refill_body_spec (junk : Nat → Nat) (pid : Int) (st : State) (D : List Nat)
    (cs : List Nat) (hinv : Inv st) (hb : st.buffer_size + BUFFER_SIZE < UINT_MOD) :
    ∃ count, 1 ≤ count
      ∧ (D = [] → ∃ (s : State) (cs1 : List Nat),
          refill_body junk pid st ⟨D, cs.map some⟩ = .eof s ⟨[], cs1.map some⟩
          ∧ Inv s ∧ s.read_size = st.read_size ∧ filled s = filled st
          ∧ st.buffer_size ≤ s.buffer_size
          ∧ s.io = st.io ++ [IOEvent.read pid count (ReadResult.bytes [])]
          ∧ s.pairs = st.pairs ∧ s.items = st.items)
      ∧ (D ≠ [] → ∃ (s : State) (f : Fd) (l cs1 : List Nat), refill_body junk pid st ⟨D, cs.map some⟩ = .again s f
          ∧ Inv s ∧ l ≠ [] ∧ l.length ≤ count ∧ D = l ++ f.data ∧ f.sched = cs1.map some
          ∧ s.read_size = st.read_size + l.length ∧ filled s = filled st ++ l
          ∧ st.read_size + count + 1 = s.buffer_size
          ∧ st.buffer_size ≤ s.buffer_size
          ∧ s.buffer[s.buffer_size - 1]? = some NUL
          ∧ s.io = st.io ++ [IOEvent.read pid count (ReadResult.bytes l)]
          ∧ s.pairs = st.pairs ∧ s.items = st.items) := by
  have hB : BUFFER_SIZE = 256 := rfl
  obtain ⟨st1, hst1, hinv1, hrs1, hfill1, hroom, hge1, hbM1, hpa1, hit1, hio1⟩ :=
    grow_if_spec junk st (st.buffer_size + BUFFER_SIZE) hb hinv (by omega)
      (by have := hinv.lt; omega)
  have hcount : usub (usub st1.buffer_size st1.read_size) 1
      = st1.buffer_size - st1.read_size - 1 := by
    rw [usub_eq (by omega) hinv1.bound, usub_eq (by omega) (by have := hinv1.bound; omega)]
  obtain ⟨n, cs1, hn1, hn2, hread⟩ :=
    read_spec D cs (st1.buffer_size - st1.read_size - 1) (by omega)
  refine ⟨st1.buffer_size - st1.read_size - 1, by omega, ?_, ?_⟩
  · intro hD
    subst hD
    refine ⟨{ st1 with io := st1.io ++ [IOEvent.read pid
        (st1.buffer_size - st1.read_size - 1) (ReadResult.bytes [])] }, cs1,
      ?_, ⟨hinv1.len, hinv1.lt, hinv1.bound⟩, hrs1, hfill1, hge1, ?_, hpa1, hit1⟩
    · unfold refill_body
      dsimp only
      rw [hst1, hcount, hread]
      simp
    · show st1.io ++ _ = _
      rw [hio1]
  · intro hD
    have hlen : (D.take n).length ≤ n := by
      rw [List.length_take]
      exact Nat.min_le_left _ _
    have hpos : 0 < (D.take n).length := by
      rw [List.length_take]
      have : 0 < D.length := List.length_pos.mpr hD
      omega
    have hfit : st1.read_size + (D.take n).length ≤ st1.buffer.length := by
      have := hinv1.len
      omega
    have hU : usub st1.buffer_size 1 = st1.buffer_size - 1 :=
      usub_eq (by omega) hinv1.bound
    have hsl : st1.buffer_size - 1 <
        (st1.buffer.take st1.read_size ++ D.take n
          ++ st1.buffer.drop (st1.read_size + (D.take n).length)).length := by
      rw [length_stored _ _ _ hfit, hinv1.len]
      omega
    have hmod : (D.take n).length % UINT_MOD = (D.take n).length :=
      Nat.mod_eq_of_lt (by have := hinv1.bound; omega)
    have hrs2 : uadd st1.read_size ((D.take n).length % UINT_MOD)
        = st1.read_size + (D.take n).length := by
      rw [hmod]
      exact uadd_eq (by have := hinv1.bound; omega)
    refine ⟨{ st1 with
        io := st1.io ++ [IOEvent.read pid (st1.buffer_size - st1.read_size - 1)
          (ReadResult.bytes (D.take n))],
        buffer := (st1.buffer.take st1.read_size ++ D.take n
          ++ st1.buffer.drop (st1.read_size + (D.take n).length)).set
            (st1.buffer_size - 1) NUL,
        read_size := st1.read_size + (D.take n).length },
      ⟨D.drop n, cs1.map some⟩, D.take n, cs1, ?_, ⟨?_, ?_, hinv1.bound⟩, ?_, by omega, ?_, rfl,
      ?_, ?_, ?_, hge1, ?_, ?_, hpa1, hit1⟩
    · unfold refill_body
      dsimp only
      rw [hst1, hcount, hread]
      dsimp only
      rcases hl : D.take n with _ | ⟨x, xs⟩
      · rw [hl] at hpos
        simp at hpos
      · dsimp only
        rw [hl] at hfit hsl hrs2
        rw [store_bytes_eq _ _ _ hfit]
        dsimp only
        rw [hU, store_eq _ _ _ hsl]
        dsimp only
        rw [hrs2]
    · show (List.set _ _ _).length = st1.buffer_size
      rw [List.length_set, length_stored _ _ _ hfit, hinv1.len]
    · show st1.read_size + (D.take n).length < st1.buffer_size
      omega
    · intro h
      rw [h] at hpos
      simp at hpos
    · show D = D.take n ++ D.drop n
      rw [List.take_append_drop]
    · show st1.read_size + (D.take n).length = _
      rw [hrs1]
    · show List.take (st1.read_size + (D.take n).length) _ = _
      rw [take_stored _ _ _ _ hfit (by omega), ← hfill1]
      rfl
    · show st.read_size + (st1.buffer_size - st1.read_size - 1) + 1 = st1.buffer_size
      omega
    · show (List.set _ _ _)[st1.buffer_size - 1]? = some NUL
      exact List.getElem?_set_self hsl
    · show st1.io ++ _ = _
      rw [hio1]

/-! ## Reads after the end of a stream -/

lemma refill_body_io (junk : Nat → Nat) (pid : Int) (st : State) (fd : Fd) :
    match refill_body junk pid st fd with
    | .eof s _ => ∃ c, s.io = st.io ++ [IOEvent.read pid c (ReadResult.bytes [])]
    | .again s _ => ∃ c r, s.io = st.io ++ [IOEvent.read pid c r] ∧ r ≠ ReadResult.bytes []
    | .fault s => ∃ c r, s.io = st.io ++ [IOEvent.read pid c r] ∧ r ≠ ReadResult.bytes [] := by
  have hio0 : (if uadd st.read_size 1 ≥ st.buffer_size then grow junk st else st).io = st.io := by
    split <;> rfl
  unfold refill_body
  dsimp only
  generalize (if uadd st.read_size 1 ≥ st.buffer_size then grow junk st else st) = st1 at hio0 ⊢
  generalize read fd (usub (usub st1.buffer_size st1.read_size) 1) = r
  obtain ⟨r1, r2⟩ := r
  dsimp only
  cases r1 with
  | error =>
    dsimp only
    cases hs : store st1.buffer (usub st1.buffer_size 1) NUL with
    | none =>
      dsimp only
      exact ⟨_, _, by rw [← hio0], by simp⟩
    | some b1 =>
      dsimp only
      exact ⟨_, _, by rw [← hio0], by simp⟩
  | bytes l =>
    cases l with
    | nil =>
      dsimp only
      exact ⟨_, by rw [← hio0]⟩
    | cons x xs =>
      dsimp only
      cases hs1 : store_bytes st1.buffer st1.read_size (x :: xs) with
      | none =>
        dsimp only
        exact ⟨_, _, by rw [← hio0], by simp⟩
      | some b =>
        dsimp only
        cases hs2 : store b (usub st1.buffer_size 1) NUL with
        | none =>
          dsimp only
          exact ⟨_, _, by rw [← hio0], by simp⟩
        | some b1 =>
          dsimp only
          exact ⟨_, _, by rw [← hio0], by simp⟩

lemma nonzero_reads_append (pid : Int) (a b : List IOEvent)
    (ha : nonzero_reads pid a) (hb : nonzero_reads pid b) : nonzero_reads pid (a ++ b) := by
  intro ev hev
  rcases List.mem_append.mp hev with h | h
  · exact ha ev h
  · exact hb ev h

lemma nonzero_reads_nil (pid : Int) : nonzero_reads pid [] := by
  intro ev hev
  simp at hev

lemma nonzero_reads_single (pid : Int) (c : Nat) (r : ReadResult)
    (h : r ≠ ReadResult.bytes []) : nonzero_reads pid [IOEvent.read pid c r] := by
  intro ev hev
  simp only [List.mem_singleton] at hev
  exact ⟨c, r, hev, h⟩

lemma refill_loop_io (junk : Nat → Nat) (pid : Int) (fuel : Nat) (st : State) (fd : Fd)
    (res : Except State (State × Fd × Bool))
    (h : refill_loop junk pid fuel st fd = some res) :
    (∀ s, res = .error s → ∃ reads, s.io = st.io ++ reads ∧ nonzero_reads pid reads)
    ∧ (∀ s f e, res = .ok (s, f, e) → ∃ reads z, s.io = st.io ++ reads ++ z
        ∧ nonzero_reads pid reads
        ∧ (e = true → ∃ c, z = [IOEvent.read pid c (ReadResult.bytes [])])
        ∧ (e = false → z = [])) := by
  induction fuel generalizing st fd res with
  | zero => simp [refill_loop] at h
  | succ fuel ih =>
    rw [refill_loop_succ] at h
    split at h
    · have hb := refill_body_io junk pid st fd
      split at h
      · rename_i s f hbody
        rw [hbody] at hb
        obtain ⟨c, hc⟩ := hb
        simp only [Option.some.injEq] at h
        subst h
        refine ⟨fun s1 h1 => by simp at h1, fun s1 f1 e1 h1 => ?_⟩
        simp only [Except.ok.injEq, Prod.mk.injEq] at h1
        obtain ⟨rfl, rfl, rfl⟩ := h1
        exact ⟨[], _, by rw [List.append_nil]; exact hc, nonzero_reads_nil pid,
          fun _ => ⟨c, rfl⟩, fun h2 => by simp at h2⟩
      · rename_i s f hbody
        rw [hbody] at hb
        obtain ⟨c, r, hc, hr⟩ := hb
        obtain ⟨ih1, ih2⟩ := ih s f res h
        refine ⟨fun s1 h1 => ?_, fun s1 f1 e1 h1 => ?_⟩
        · obtain ⟨reads, h3, h4⟩ := ih1 s1 h1
          refine ⟨[IOEvent.read pid c r] ++ reads, ?_,
            nonzero_reads_append pid _ _ (nonzero_reads_single pid c r hr) h4⟩
          rw [h3, hc, List.append_assoc]
        · obtain ⟨reads, z, h3, h4, h5, h6⟩ := ih2 s1 f1 e1 h1
          refine ⟨[IOEvent.read pid c r] ++ reads, z, ?_,
            nonzero_reads_append pid _ _ (nonzero_reads_single pid c r hr) h4, h5, h6⟩
          rw [h3, hc]
          simp only [List.append_assoc]
      · rename_i s hbody
        rw [hbody] at hb
        obtain ⟨c, r, hc, hr⟩ := hb
        simp only [Option.some.injEq] at h
        subst h
        refine ⟨fun s1 h1 => ?_, fun s1 f1 e1 h1 => by simp at h1⟩
        simp only [Except.error.injEq] at h1
        subst h1
        exact ⟨_, hc, nonzero_reads_single pid c r hr⟩
    · simp only [Option.some.injEq] at h
      subst h
      refine ⟨fun s1 h1 => by simp at h1, fun s1 f1 e1 h1 => ?_⟩
      simp only [Except.ok.injEq, Prod.mk.injEq] at h1
      obtain ⟨rfl, rfl, rfl⟩ := h1
      exact ⟨[], [], by simp, nonzero_reads_nil pid, fun h2 => by simp at h2, fun _ => rfl⟩

lemma compact_io (st s : State) (h : compact st = some s) : s.io = st.io := by
  unfold compact at h
  dsimp only at h
  split at h
  · simp at h
  · simp only [Option.some.injEq] at h
    subst h
    rfl

lemma compact_match_io (st S : State) (h : S.io = st.io) :
    match (match compact S with
      | none => Except.error S
      | some st3 => Except.ok st3 : Except State State) with
    | .error s => s.io = st.io
    | .ok s => s.io = st.io := by
  cases hc : compact S with
  | none => exact h
  | some s =>
    dsimp only
    rw [compact_io _ _ hc]
    exact h

lemma consume_body_io (name_ent : List Nat → Bool) (pid : Int) (st : State) :
    match consume_body name_ent pid st with
    | .error s => s.io = st.io
    | .ok s => s.io = st.io := by
  unfold consume_body
  cases hk : strchr EQ st.buffer with
  | none =>
    dsimp only
    exact compact_match_io st st rfl
  | some k =>
    dsimp only
    by_cases hm : name_ent (st.buffer.take k) = true
    · rw [if_pos hm]
      exact compact_match_io st _ rfl
    · rw [if_neg hm]
      exact compact_match_io st _ rfl

lemma consume_loop_io (name_ent : List Nat → Bool) (pid : Int) (fuel : Nat) (st : State)
    (res : Except State State) (h : consume_loop name_ent pid fuel st = some res) :
    ∀ s, (res = .error s ∨ res = .ok s) → s.io = st.io := by
  induction fuel generalizing st res with
  | zero => simp [consume_loop] at h
  | succ fuel ih =>
    rw [consume_loop_succ] at h
    split at h
    · have hb := consume_body_io name_ent pid st
      split at h
      · rename_i s hbody
        rw [hbody] at hb
        simp only [Option.some.injEq] at h
        subst h
        intro s1 h1
        rcases h1 with h1 | h1
        · simp only [Except.error.injEq] at h1
          subst h1
          exact hb
        · simp at h1
      · rename_i s hbody
        rw [hbody] at hb
        intro s1 h1
        rw [ih s res h s1 h1, hb]
    · simp only [Option.some.injEq] at h
      subst h
      intro s1 h1
      rcases h1 with h1 | h1
      · simp at h1
      · simp only [Except.ok.injEq] at h1
        subst h1
        rfl

lemma splitter_loop_io (junk : Nat → Nat) (name_ent : List Nat → Bool) (pid : Int)
    (n fuel : Nat) (st : State) (fd : Fd) (res : Except State State)
    (h : splitter_loop junk name_ent pid n fuel st fd = some res) :
    ∀ s, (res = .error s ∨ res = .ok s) →
      ∃ reads z, s.io = st.io ++ reads ++ z ∧ nonzero_reads pid reads ∧ zero_read pid z := by
  induction fuel generalizing st fd res with
  | zero => simp [splitter_loop] at h
  | succ fuel ih =>
    unfold splitter_loop at h
    cases hr : refill_loop junk pid n st fd with
    | none =>
      rw [hr] at h
      simp at h
    | some r =>
      rw [hr] at h
      obtain ⟨hr1, hr2⟩ := refill_loop_io junk pid n st fd r hr
      cases r with
      | error s1 =>
        dsimp only at h
        simp only [Option.some.injEq] at h
        subst h
        intro s hs
        rcases hs with hs | hs
        · simp only [Except.error.injEq] at hs
          subst hs
          obtain ⟨reads, h1, h2⟩ := hr1 s1 rfl
          exact ⟨reads, [], by rw [List.append_nil]; exact h1, h2, Or.inl rfl⟩
        · simp at hs
      | ok t =>
        obtain ⟨s1, fd1, e⟩ := t
        dsimp only at h
        obtain ⟨reads, z, h1, h2, h3, h4⟩ := hr2 s1 fd1 e rfl
        have hz : zero_read pid z := by
          cases e with
          | true =>
            obtain ⟨c, hc⟩ := h3 rfl
            exact Or.inr ⟨c, hc⟩
          | false => exact Or.inl (h4 rfl)
        cases hc : consume_loop name_ent pid n s1 with
        | none =>
          rw [hc] at h
          simp at h
        | some c =>
          rw [hc] at h
          have hio := consume_loop_io name_ent pid n s1 c hc
          cases c with
          | error s2 =>
            dsimp only at h
            simp only [Option.some.injEq] at h
            subst h
            intro s hs
            rcases hs with hs | hs
            · simp only [Except.error.injEq] at hs
              subst hs
              exact ⟨reads, z, by rw [hio s2 (Or.inl rfl)]; exact h1, h2, hz⟩
            · simp at hs
          | ok s2 =>
            dsimp only at h
            cases e with
            | true =>
              simp only [if_true, Option.some.injEq] at h
              subst h
              intro s hs
              rcases hs with hs | hs
              · simp at hs
              · simp only [Except.ok.injEq] at hs
                subst hs
                exact ⟨reads, z, by rw [hio s2 (Or.inr rfl)]; exact h1, h2, hz⟩
            | false =>
              simp only [Bool.false_eq_true, if_false] at h
              intro s hs
              obtain ⟨reads2, z2, h5, h6, h7⟩ := ih s2 fd1 res h s hs
              refine ⟨reads ++ reads2, z2, ?_, nonzero_reads_append pid _ _ h2 h6, h7⟩
              rw [h5, hio s2 (Or.inr rfl), h1, h4 rfl]
              simp only [List.append_assoc, List.nil_append, List.append_nil]

/-- One read event is a read that returned something, or the read that returned zero. -/
lemma read_event_shape (pid : Int) (c : Nat) (r : ReadResult) :
    ∃ reads z, [IOEvent.read pid c r] = reads ++ z ∧ nonzero_reads pid reads
      ∧ zero_read pid z ∧ (r ≠ ReadResult.bytes [] → z = []) := by
  by_cases hr : r = ReadResult.bytes []
  · subst hr
    exact ⟨[], _, rfl, nonzero_reads_nil pid, Or.inr ⟨c, rfl⟩, fun h => absurd rfl h⟩
  · exact ⟨_, [], by simp, nonzero_reads_single pid c r hr, Or.inl rfl, fun _ => rfl⟩

/-- C16: in the record of system calls of one opened stream, for every stream and
every schedule (failing reads included) and whatever way the scan of the process
ends, the reads come first, all but possibly the last returned something, a read
that returned zero bytes is the last read, and only `close` may follow. -/
theorem no_read_after_end_of_stream (junk : Nat → Nat) (name_ent : List Nat → Bool)
    (pid : Int) (fuel : Nat) (st : State) (fd : Fd) (x : Exit) (st1 : State)
    (h : scan_process junk name_ent pid fuel st fd = some (x, st1)) :
    ∃ reads z c, st1.io = st.io ++ reads ++ z ++ c
      ∧ nonzero_reads pid reads ∧ zero_read pid z
      ∧ (c = [] ∨ c = [IOEvent.close pid]) := by
  unfold scan_process at h
  cases hs0 : store st.buffer 0 NUL with
  | none =>
    rw [hs0] at h
    simp only [Option.some.injEq, Prod.mk.injEq] at h
    obtain ⟨_, rfl⟩ := h
    exact ⟨[], [], [], by simp, nonzero_reads_nil pid, Or.inl rfl, Or.inl rfl⟩
  | some b0 =>
    rw [hs0] at h
    dsimp only at h
    generalize read fd (usub st.buffer_size 1) = r at h
    obtain ⟨r1, r2⟩ := r
    dsimp only at h
    obtain ⟨reads, z, hev, hnz, hz, hzn⟩ := read_event_shape pid (usub st.buffer_size 1) r1
    split at h
    · -- the store of the bytes read left the block
      simp only [Option.some.injEq, Prod.mk.injEq] at h
      obtain ⟨_, rfl⟩ := h
      exact ⟨reads, z, [], by show st.io ++ _ = _; rw [hev]; simp, hnz, hz, Or.inl rfl⟩
    · rename_i b1 hb1
      split at h
      · rename_i hpos
        have hr1 : r1 ≠ ReadResult.bytes [] := by
          intro hr
          subst hr
          simp at hpos
        have hz0 := hzn hr1
        subst hz0
        rw [List.append_nil] at hev
        split at h
        · simp only [Option.some.injEq, Prod.mk.injEq] at h
          obtain ⟨_, rfl⟩ := h
          exact ⟨reads, [], [], by show st.io ++ _ = _; rw [hev]; simp, hnz, Or.inl rfl,
            Or.inl rfl⟩
        · rename_i b2 hb2
          split at h
          · simp at h
          · rename_i s3 hrun
            simp only [Option.some.injEq, Prod.mk.injEq] at h
            obtain ⟨_, rfl⟩ := h
            obtain ⟨reads2, z2, h5, h6, h7⟩ :=
              splitter_loop_io junk name_ent pid fuel fuel _ r2 _ hrun s3 (Or.inl rfl)
            refine ⟨reads ++ reads2, z2, [], ?_, nonzero_reads_append pid _ _ hnz h6, h7,
              Or.inl rfl⟩
            rw [h5]
            show st.io ++ _ ++ reads2 ++ z2 = _
            rw [hev]
            simp only [List.append_assoc, List.append_nil]
          · rename_i s3 hrun
            simp only [Option.some.injEq, Prod.mk.injEq] at h
            obtain ⟨_, rfl⟩ := h
            obtain ⟨reads2, z2, h5, h6, h7⟩ :=
              splitter_loop_io junk name_ent pid fuel fuel _ r2 _ hrun s3 (Or.inr rfl)
            refine ⟨reads ++ reads2, z2, [IOEvent.close pid], ?_,
              nonzero_reads_append pid _ _ hnz h6, h7, Or.inr rfl⟩
            show s3.io ++ _ = _
            rw [h5]
            show st.io ++ _ ++ reads2 ++ z2 ++ _ = _
            rw [hev]
            simp only [List.append_assoc]
      · simp only [Option.some.injEq, Prod.mk.injEq] at h
        obtain ⟨_, rfl⟩ := h
        refine ⟨reads, z, [IOEvent.close pid], ?_, hnz, hz, Or.inr rfl⟩
        show st.io ++ _ ++ _ = _
        rw [hev]
        simp only [List.append_assoc]

/-! ## Whole scans -/

lemma sched_all_some (l : List (Option Nat)) (h : none ∉ l) :
    ∃ cs : List Nat, l = cs.map some := by
  induction l with
  | nil => exact ⟨[], rfl⟩
  | cons a l ih =>
    simp only [List.mem_cons, not_or] at h
    obtain ⟨cs, hcs⟩ := ih h.2
    cases a with
    | none => exact absurd rfl h.1
    | some k => exact ⟨k :: cs, by rw [hcs]; rfl⟩

/-- One entry whose reads do not fail: the entry ends without fault, the buffer
keeps its shape, and the pairs built are the records of its stream. -/
lemma process_entry_spec (junk : Nat → Nat) (strerror : Nat → String)
    (pid_ent : Int → Bool) (name_ent : List Nat → Bool) (fuel : Nat) (st : State)
    (e : Dirent) (hok : BufferOk st) (hgood : reads_succeed fuel e) :
    ∃ x st1, process_entry junk strerror pid_ent name_ent fuel st e = some (x, st1)
      ∧ (x = Exit.next ∨ x = Exit.returned)
      ∧ (x = Exit.returned ↔ returns_early pid_ent e = true)
      ∧ BufferOk st1
      ∧ st1.pairs = st.pairs ++ entry_records pid_ent e := by
  obtain ⟨d_name, environ⟩ := e
  unfold process_entry returns_early entry_records scanned
  dsimp only
  by_cases hd : all_digits d_name = true
  · rw [if_pos hd]
    by_cases hp : pid_ent (atoi d_name) = true
    · rw [if_pos hp]
      cases environ with
      | fail errno =>
        dsimp only
        refine ⟨_, _, rfl, Or.inl rfl, ?_, ⟨hok.1, hok.2.1, hok.2.2⟩, ?_⟩
        · simp
        · simp [hd, hp]
      | ok fd =>
        dsimp only
        obtain ⟨D, sched⟩ := fd
        unfold reads_succeed at hgood
        dsimp only at hgood
        obtain ⟨hs, hlen, hfuel⟩ := hgood
        obtain ⟨cs, hcs⟩ := sched_all_some sched hs
        subst hcs
        obtain ⟨st1, hrun, hok1, hpa, _⟩ :=
          scan_process_spec junk name_ent (atoi d_name) fuel
            { st with io := st.io ++ [IOEvent.open_ (atoi d_name) true] } D cs
            ⟨hok.1, hok.2.1, hok.2.2⟩ hlen hfuel
        refine ⟨_, st1, hrun, ?_, ?_, hok1, ?_⟩
        · split
          · exact Or.inr rfl
          · exact Or.inl rfl
        · by_cases hE : D = []
          · simp [hE, hd, hp]
          · simp [hE, hd, hp]
        · rw [hpa]
          simp [hd, hp]
    · rw [if_neg hp]
      refine ⟨_, _, rfl, Or.inl rfl, ?_, hok, ?_⟩
      · simp [hd, hp]
      · simp [hd, hp]
  · rw [if_neg hd]
    refine ⟨_, _, rfl, Or.inl rfl, ?_, hok, ?_⟩
    · simp [hd]
    · simp [hd]

/-- A scan whose reads do not fail ends with `return`, without fault; when no entry
makes it return early, the pairs built are the records of the streams of the
scanned entries, in order. -/
lemma dir_loop_spec (junk : Nat → Nat) (strerror : Nat → String)
    (pid_ent : Int → Bool) (name_ent : List Nat → Bool) (fuel : Nat) (st : State)
    (es : List Dirent) (hok : BufferOk st) (hgood : ∀ e ∈ es, reads_succeed fuel e) :
    ∃ st1, dir_loop junk strerror pid_ent name_ent fuel st es = some (Exit.returned, st1)
      ∧ BufferOk st1
      ∧ ((∀ e ∈ es, returns_early pid_ent e = false) →
          st1.pairs = st.pairs ++ es.flatMap (entry_records pid_ent)) := by
  induction es generalizing st with
  | nil =>
    exact ⟨st, rfl, hok, fun _ => by simp⟩
  | cons e es ih =>
    obtain ⟨x, st1, hrun, hx, hret, hok1, hpa⟩ :=
      process_entry_spec junk strerror pid_ent name_ent fuel st e hok
        (hgood e (List.mem_cons_self _ _))
    unfold dir_loop
    rw [hrun]
    rcases hx with hx | hx
    · subst hx
      dsimp only
      obtain ⟨st2, hrun2, hok2, hpa2⟩ :=
        ih st1 hok1 (fun e' he' => hgood e' (List.mem_cons_of_mem _ he'))
      refine ⟨st2, hrun2, hok2, fun hne => ?_⟩
      rw [hpa2 (fun e' he' => hne e' (List.mem_cons_of_mem _ he')), hpa]
      simp only [List.flatMap_cons, List.append_assoc]
    · subst hx
      dsimp only
      refine ⟨st1, rfl, hok1, fun hne => ?_⟩
      have h1 := hne e (List.mem_cons_self _ _)
      have h2 := hret.mp rfl
      rw [h1] at h2
      exact absurd h2 (by decide)

/-! ## Properties of whole scans and of `probe_main` -/

/-- C11: when the caller's pid entity has the value 0, `probe_main` calls
`read_environment` once, with the entity made of the first element of the object
and the value `getpid ()` as pid entity, so this one entity is compared with every
candidate pid; for a value other than 0 and -1 the caller's entity is passed
unchanged; the value -1, like an entity without a number, gives `PROBE_ERANGE`. -/
theorem probe_main_pid_entity {α ν : Type} (junk : Nat → Nat) (strerror : Nat → String)
    (pid_cmp : Entity α → Int → Bool) (name_cmp : ν → List Nat → Bool) (getpid : Nat)
    (fuel : Nat) (first : α) (name_ent : ν) (pid_ent : Entity α)
    (proc : Option (List Dirent)) (alloc_ok : Bool) :
    (pid_ent.val = some 0 →
      probe_main junk strerror pid_cmp name_cmp getpid fuel
          ⟨first, some name_ent, some pid_ent⟩ proc alloc_ok
        = MainResult.ran (read_environment junk strerror
            (pid_cmp { first := first, val := some (getpid : Int) }) (name_cmp name_ent)
            fuel proc alloc_ok))
    ∧ (∀ v : Int, pid_ent.val = some v → v ≠ 0 → v ≠ -1 →
      probe_main junk strerror pid_cmp name_cmp getpid fuel
          ⟨first, some name_ent, some pid_ent⟩ proc alloc_ok
        = MainResult.ran (read_environment junk strerror
            (pid_cmp pid_ent) (name_cmp name_ent) fuel proc alloc_ok))
    ∧ ((pid_ent.val = some (-1) ∨ pid_ent.val = none) →
      probe_main junk strerror pid_cmp name_cmp getpid fuel
          ⟨first, some name_ent, some pid_ent⟩ proc alloc_ok
        = MainResult.PROBE_ERANGE) := by
  refine ⟨fun h => ?_, fun v h h0 h1 => ?_, fun h => ?_⟩
  · unfold probe_main
    dsimp only
    rw [h]
    dsimp only
    rw [if_neg (by decide), if_pos rfl]
  · unfold probe_main
    dsimp only
    rw [h]
    dsimp only
    rw [if_neg h1, if_neg h0]
  · unfold probe_main
    dsimp only
    rcases h with h | h
    · rw [h]
      dsimp only
      rw [if_pos rfl]
    · rw [h]
      dsimp only
      rw [if_pos rfl]

/-- C12: an entry whose name is not made of decimal digits only, or whose pid the
pid comparison does not accept, leaves the state as it is: no `open`, no `read`
and no item are recorded for it, and the loop goes on with the next entries. -/
theorem unmatched_entry_skipped (junk : Nat → Nat) (strerror : Nat → String)
    (pid_ent : Int → Bool) (name_ent : List Nat → Bool) (fuel : Nat) (st : State)
    (e : Dirent) (rest : List Dirent)
    (h : all_digits e.d_name = false ∨ pid_ent (atoi e.d_name) = false) :
    process_entry junk strerror pid_ent name_ent fuel st e = some (Exit.next, st)
    ∧ dir_loop junk strerror pid_ent name_ent fuel st (e :: rest)
        = dir_loop junk strerror pid_ent name_ent fuel st rest := by
  have h1 : process_entry junk strerror pid_ent name_ent fuel st e = some (Exit.next, st) := by
    unfold process_entry
    rcases h with h | h
    · rw [h]
      rfl
    · by_cases hd : all_digits e.d_name = true
      · rw [if_pos hd]
        dsimp only
        rw [h]
        rfl
      · rw [if_neg hd]
  refine ⟨h1, ?_⟩
  conv_lhs => unfold dir_loop
  rw [h1]

/-- Return codes of scans whose reads do not fail: with the first allocation
successful, `read_environment` returns `PROBE_EACCESS` when `/proc` cannot be opened,
with no system call on a stream and no item; when `/proc` opens, whatever it returns
is 0, and it does return 0 for every list of entries whose reads do not fail, also
when streams cannot be opened or nothing matches. -/
theorem return_codes (junk : Nat → Nat) (strerror : Nat → String)
    (pid_ent : Int → Bool) (name_ent : List Nat → Bool) (fuel : Nat) :
    (∃ st, read_environment junk strerror pid_ent name_ent fuel none true
        = some (some RetCode.PROBE_EACCESS, st) ∧ st.items = [] ∧ st.io = [])
    ∧ (∀ es code st, read_environment junk strerror pid_ent name_ent fuel (some es) true
        = some (some code, st) → code = RetCode.zero)
    ∧ (∀ es, (∀ e ∈ es, reads_succeed fuel e) →
        ∃ st, read_environment junk strerror pid_ent name_ent fuel (some es) true
          = some (some RetCode.zero, st)) := by
  refine ⟨⟨no_buffer, rfl, rfl, rfl⟩, fun es code st h => ?_, fun es hgood => ?_⟩
  · unfold read_environment at h
    dsimp only at h
    rw [if_pos rfl] at h
    split at h
    · simp at h
    · simp at h
    · simp only [Option.some.injEq, Prod.mk.injEq] at h
      exact h.1.symm
  · obtain ⟨st1, hrun, _, _⟩ :=
      dir_loop_spec junk strerror pid_ent name_ent fuel (init junk) es (init_ok junk) hgood
    refine ⟨st1, ?_⟩
    unfold read_environment
    dsimp only
    rw [if_pos rfl, hrun]

/-- The capacity after a refill pass is the capacity after its growth test. -/
lemma refill_body_capacity (junk : Nat → Nat) (pid : Int) (st : State) (fd : Fd)
    (s : State) (f : Fd)
    (h : refill_body junk pid st fd = RefillStep.eof s f
      ∨ refill_body junk pid st fd = RefillStep.again s f) :
    s.buffer_size
      = (if uadd st.read_size 1 ≥ st.buffer_size then grow junk st else st).buffer_size := by
  unfold refill_body at h
  dsimp only at h
  generalize (if uadd st.read_size 1 ≥ st.buffer_size then grow junk st else st) = st1 at h ⊢
  generalize read fd (usub (usub st1.buffer_size st1.read_size) 1) = r at h
  obtain ⟨r1, r2⟩ := r
  dsimp only at h
  cases r1 with
  | error =>
    dsimp only at h
    cases hs : store st1.buffer (usub st1.buffer_size 1) NUL with
    | none =>
      rw [hs] at h
      rcases h with h | h <;> cases h
    | some b1 =>
      rw [hs] at h
      rcases h with h | h <;> cases h
      rfl
  | bytes l =>
    cases l with
    | nil =>
      rcases h with h | h <;> cases h
      rfl
    | cons x xs =>
      dsimp only at h
      cases hs1 : store_bytes st1.buffer st1.read_size (x :: xs) with
      | none =>
        rw [hs1] at h
        rcases h with h | h <;> cases h
      | some b =>
        rw [hs1] at h
        dsimp only at h
        cases hs2 : store b (usub st1.buffer_size 1) NUL with
        | none =>
          rw [hs2] at h
          rcases h with h | h <;> cases h
        | some b1 =>
          rw [hs2] at h
          rcases h with h | h <;> cases h
          rfl

lemma getElem?_realloc (junk : Nat → Nat) (buffer : List Nat) (m i : Nat)
    (hi : i < buffer.length) (hm : i < m) :
    (realloc junk buffer m)[i]? = buffer[i]? := by
  unfold realloc
  rw [List.getElem?_map, List.getElem?_range hm]
  simp [List.getElem?_eq_getElem hi]

/-- C17: the capacity starts at `BUFFER_SIZE = 256`; a growth step adds exactly 256,
keeps `read_size` and every byte of the old block; the refill pass grows the block
exactly when `read_size + 1 >= buffer_size`; the consume pass keeps the capacity;
over the scan of one process whose reads do not fail the capacity does not
decrease. -/
theorem buffer_growth (junk : Nat → Nat) (name_ent : List Nat → Bool) (pid : Int)
    (st : State)
    (hlen : st.buffer.length = st.buffer_size) (hlt : st.read_size < st.buffer_size)
    (hb : st.buffer_size + BUFFER_SIZE < UINT_MOD) :
    (init junk).buffer_size = 256
    ∧ (grow junk st).buffer_size = st.buffer_size + 256
    ∧ (grow junk st).buffer.length = st.buffer_size + 256
    ∧ (grow junk st).read_size = st.read_size
    ∧ (∀ i, i < st.buffer_size → (grow junk st).buffer[i]? = st.buffer[i]?)
    ∧ filled (grow junk st) = filled st
    ∧ (∀ fd s f, (refill_body junk pid st fd = RefillStep.eof s f
          ∨ refill_body junk pid st fd = RefillStep.again s f) →
        s.buffer_size
          = if st.read_size + 1 ≥ st.buffer_size then st.buffer_size + 256
            else st.buffer_size)
    ∧ (∀ s, consume_body name_ent pid st = Except.ok s → s.buffer_size = st.buffer_size)
    ∧ (∀ (fuel : Nat) (D cs : List Nat), BUFFER_SIZE ≤ st.buffer_size → D.length + BUFFER_SIZE + 1 < UINT_MOD →
        D.length + 2 ≤ fuel →
        ∃ x st1, scan_process junk name_ent pid fuel st ⟨D, cs.map some⟩ = some (x, st1)
          ∧ st.buffer_size ≤ st1.buffer_size
          ∧ st1.buffer_size ≤ max st.buffer_size (D.length + BUFFER_SIZE + 1)) := by
  have hB : BUFFER_SIZE = 256 := rfl
  have hgrow : uadd st.buffer_size BUFFER_SIZE = st.buffer_size + 256 := uadd_eq hb
  have h1 : uadd st.read_size 1 = st.read_size + 1 := uadd_eq (by omega)
  refine ⟨rfl, hgrow, ?_, rfl, ?_, ?_, ?_, ?_, ?_⟩
  · show (realloc _ _ _).length = _
    rw [length_realloc, hgrow]
  · intro i hi
    show (realloc junk st.buffer (uadd st.buffer_size BUFFER_SIZE))[i]? = _
    rw [hgrow]
    exact getElem?_realloc _ _ _ _ (by omega) (by omega)
  · show (realloc junk st.buffer (uadd st.buffer_size BUFFER_SIZE)).take st.read_size = _
    rw [hgrow]
    exact take_realloc _ _ _ _ (by omega) (by omega)
  · intro fd s f h
    rw [refill_body_capacity junk pid st fd s f h, h1]
    split
    · exact hgrow
    · rfl
  · intro s h
    have hio : ∀ (S s : State), (match compact S with
          | none => Except.error S
          | some st3 => Except.ok st3 : Except State State) = Except.ok s →
        S.buffer_size = st.buffer_size → s.buffer_size = st.buffer_size := by
      intro S s hs hS
      unfold compact at hs
      dsimp only at hs
      split at hs
      · simp at hs
      · rename_i x b heq
        split at heq
        · simp at heq
        · simp only [Option.some.injEq] at heq
          simp only [Except.ok.injEq] at hs
          rw [← hs, ← heq]
          exact hS
    unfold consume_body at h
    cases hk : strchr EQ st.buffer with
    | none =>
      rw [hk] at h
      exact hio st s h rfl
    | some k =>
      rw [hk] at h
      dsimp only at h
      by_cases hm : name_ent (st.buffer.take k) = true
      · rw [if_pos hm] at h
        exact hio _ s h rfl
      · rw [if_neg hm] at h
        exact hio _ s h rfl
  · intro fuel D cs h256 hD hf
    obtain ⟨st1, hrun, _, _, _, hge, hle⟩ :=
      scan_process_run junk name_ent pid fuel st D cs ⟨hlen, h256, by omega⟩ hD hf
    exact ⟨_, st1, hrun, hge, hle⟩

lemma fresh_pairs_eq (junk2 : Nat → Nat) (pid_ent : Int → Bool) (name_ent : List Nat → Bool)
    (fuel : Nat) (e : Dirent) (hgood : reads_succeed fuel e) :
    fresh_pairs junk2 pid_ent name_ent fuel e = entry_records pid_ent e := by
  obtain ⟨d_name, environ⟩ := e
  unfold fresh_pairs entry_records
  by_cases hs : scanned pid_ent ⟨d_name, environ⟩ = true
  · rw [if_pos hs, if_pos hs]
    cases environ with
    | fail errno => rfl
    | ok fd =>
      dsimp only
      obtain ⟨D, sched⟩ := fd
      unfold reads_succeed at hgood
      dsimp only at hgood
      obtain ⟨hsome, hlen, hfuel⟩ := hgood
      obtain ⟨cs, hcs⟩ := sched_all_some sched hsome
      subst hcs
      obtain ⟨st1, hrun, _, hpa, _⟩ :=
        scan_process_spec junk2 name_ent (atoi d_name) fuel (init junk2) D cs
          (init_ok junk2) hlen hfuel
      rw [hrun]
      dsimp only
      rw [hpa]
      rfl
  · rw [if_neg hs, if_neg hs]

lemma flatMap_eq_of_forall {α β : Type} (l : List α) (f g : α → List β)
    (h : ∀ a ∈ l, f a = g a) : l.flatMap f = l.flatMap g := by
  induction l with
  | nil => rfl
  | cons a l ih =>
    rw [List.flatMap_cons, List.flatMap_cons, h a (List.mem_cons_self _ _),
      ih (fun b hb => h b (List.mem_cons_of_mem _ hb))]

/-- Isolation of the processes of a scan whose reads do not fail and where no scanned
stream is empty: the pairs built are, process after process, the pairs that the
splitter builds for that process's stream alone from a buffer just allocated,
whatever junk that buffer holds: what an earlier process left in the buffer, and the
capacity it left, change nothing. -/
theorem shared_buffer_isolation (junk junk2 : Nat → Nat) (strerror : Nat → String)
    (pid_ent : Int → Bool) (name_ent : List Nat → Bool) (fuel : Nat) (es : List Dirent)
    (hgood : ∀ e ∈ es, reads_succeed fuel e)
    (hne : ∀ e ∈ es, returns_early pid_ent e = false) :
    ∃ st1, read_environment junk strerror pid_ent name_ent fuel (some es) true
        = some (some RetCode.zero, st1)
      ∧ st1.pairs = es.flatMap (fresh_pairs junk2 pid_ent name_ent fuel) := by
  obtain ⟨st1, hrun, _, hpa⟩ :=
    dir_loop_spec junk strerror pid_ent name_ent fuel (init junk) es (init_ok junk) hgood
  refine ⟨st1, ?_, ?_⟩
  · unfold read_environment
    dsimp only
    rw [if_pos rfl, hrun]
  · rw [hpa hne]
    show [] ++ _ = _
    rw [List.nil_append]
    exact (flatMap_eq_of_forall es _ _
      (fun e he => fresh_pairs_eq junk2 pid_ent name_ent fuel e (hgood e he))).symm

/-- C20: for every finite stream and every schedule of reads that do not fail, the
scan of one process ends for every fuel above the length of the stream plus one,
without fault; a refill pass ends the loop at end of stream and otherwise takes at
least one byte from the stream into the buffer; a consume pass strictly decreases
`read_size`. -/
theorem splitter_terminates (junk : Nat → Nat) (name_ent : List Nat → Bool) (pid : Int)
    (st : State) (D : List Nat) (cs : List Nat)
    (hst : BufferOk st) (hlen : D.length + BUFFER_SIZE + 1 < UINT_MOD) :
    (∀ fuel, D.length + 2 ≤ fuel →
      ∃ x st1, scan_process junk name_ent pid fuel st ⟨D, cs.map some⟩ = some (x, st1)
        ∧ x ≠ Exit.fault)
    ∧ (∀ s : State, Inv s → s.buffer_size + BUFFER_SIZE < UINT_MOD →
        (D = [] → ∃ s1 f, refill_body junk pid s ⟨D, cs.map some⟩ = RefillStep.eof s1 f)
        ∧ (D ≠ [] → ∃ s1 f, refill_body junk pid s ⟨D, cs.map some⟩ = RefillStep.again s1 f
            ∧ s.read_size < s1.read_size ∧ f.data.length < D.length
            ∧ s1.read_size + f.data.length = s.read_size + D.length))
    ∧ (∀ s : State, Inv s → strlen s.buffer < s.read_size →
        ∃ s1, consume_body name_ent pid s = Except.ok s1 ∧ s1.read_size < s.read_size) := by
  refine ⟨fun fuel hfuel => ?_, fun s hinv hb => ?_, fun s hinv ht => ?_⟩
  · obtain ⟨st1, hrun, _⟩ := scan_process_spec junk name_ent pid fuel st D cs hst hlen hfuel
    refine ⟨_, st1, hrun, ?_⟩
    split <;> simp
  · obtain ⟨count, _, heof, hagain⟩ := refill_body_spec junk pid s D cs hinv hb
    refine ⟨fun hD => ?_, fun hD => ?_⟩
    · obtain ⟨s1, cs1, h, _⟩ := heof hD
      exact ⟨s1, _, h⟩
    · obtain ⟨s1, f, l, cs1, h, _, hl, _, hDl, _, hrs, _⟩ := hagain hD
      have hpos : 0 < l.length := List.length_pos.mpr hl
      have hlenD : D.length = l.length + f.data.length := by
        rw [hDl, List.length_append]
      exact ⟨s1, f, h, by omega, by omega, by omega⟩
  · obtain ⟨s1, h, _, _, hrs, _⟩ := consume_body_spec name_ent pid s hinv ht
    exact ⟨s1, h, by omega⟩

/-! ## What the reads ask for and deliver -/

lemma requests_ok_nil (pid : Int) : requests_ok pid [] := by
  intro ev hev
  simp at hev

lemma requests_ok_append (pid : Int) (a b : List IOEvent)
    (ha : requests_ok pid a) (hb : requests_ok pid b) : requests_ok pid (a ++ b) := by
  intro ev hev
  rcases List.mem_append.mp hev with h | h
  · exact ha ev h
  · exact hb ev h

lemma requests_ok_single (pid : Int) (c : Nat) (l : List Nat) (hc : 1 ≤ c)
    (hl : l.length ≤ c) : requests_ok pid [IOEvent.read pid c (ReadResult.bytes l)] := by
  intro ev hev
  simp only [List.mem_singleton] at hev
  exact ⟨c, l, hev, hc, hl⟩

lemma refill_loop_reads (junk : Nat → Nat) (pid : Int) (M : Nat)
    (hM : M + BUFFER_SIZE < UINT_MOD)
    (fuel : Nat) (st : State) (D : List Nat) (cs : List Nat)
    (hinv : Inv st) (hbM : st.buffer_size ≤ M)
    (hrM : st.read_size + D.length + BUFFER_SIZE + 1 ≤ M)
    (hf : D.length + 1 < fuel) :
    ∃ (s : State) (D2 cs1 : List Nat) (e : Bool) (evs : List IOEvent),
      refill_loop junk pid fuel st ⟨D, cs.map some⟩ = some (.ok (s, ⟨D2, cs1.map some⟩, e))
      ∧ s.io = st.io ++ evs ∧ requests_ok pid evs
      ∧ evs.flatMap read_bytes ++ D2 = D := by
  have hB : BUFFER_SIZE = 256 := rfl
  induction fuel generalizing st D cs with
  | zero => omega
  | succ fuel ih =>
    rw [refill_loop_succ]
    by_cases hc : strlen st.buffer ≥ st.read_size
    · rw [if_pos hc]
      obtain ⟨count, hcount, heof, hagain⟩ :=
        refill_body_spec junk pid st D cs hinv (by omega)
      by_cases hD : D = []
      · obtain ⟨s, cs1, hbody, _, _, _, _, hio, _⟩ := heof hD
        rw [hbody]
        dsimp only
        subst hD
        exact ⟨s, [], cs1, true, _, rfl, hio,
          requests_ok_single pid count [] hcount (by simp), by simp [read_bytes]⟩
      · obtain ⟨s, f, l, cs1, hbody, hinv1, hl, hlc, hDl, hsched, hrs, _, hcap, hge, _, hio, _⟩ :=
          hagain hD
        rw [hbody]
        dsimp only
        obtain ⟨fdata, fsched⟩ := f
        dsimp only at hDl hsched
        subst hsched
        have hlenD : D.length = l.length + fdata.length := by
          rw [hDl, List.length_append]
        have hpos : 0 < l.length := List.length_pos.mpr hl
        have hcap2 := refill_body_capacity junk pid st _ s _ (Or.inr hbody)
        have hsM : s.buffer_size ≤ M := by
          rw [hcap2]
          split
          · rename_i hg
            have h1 : uadd st.read_size 1 = st.read_size + 1 :=
              uadd_eq (by have := hinv.lt; omega)
            rw [h1] at hg
            show uadd st.buffer_size BUFFER_SIZE ≤ M
            rw [uadd_eq (by omega)]
            omega
          · exact hbM
        obtain ⟨s2, D2, cs2, e, evs, hrun, hio2, hreq, hdel⟩ :=
          ih s fdata cs1 hinv1 hsM (by omega) (by omega)
        refine ⟨s2, D2, cs2, e, [IOEvent.read pid count (ReadResult.bytes l)] ++ evs, hrun,
          ?_, requests_ok_append pid _ _ (requests_ok_single pid count l hcount hlc) hreq, ?_⟩
        · rw [hio2, hio, List.append_assoc]
        · rw [List.flatMap_append, List.append_assoc, hdel, hDl]
          simp [read_bytes]
    · rw [if_neg hc]
      exact ⟨st, D, cs, false, [], rfl, by simp, requests_ok_nil pid, by simp⟩

lemma splitter_loop_reads (junk : Nat → Nat) (name_ent : List Nat → Bool) (pid : Int)
    (M : Nat) (hM : M + BUFFER_SIZE < UINT_MOD) (n fuel : Nat) (st : State) (D : List Nat)
    (cs : List Nat) (hinv : Inv st) (hbM : st.buffer_size ≤ M)
    (hrM : st.read_size + D.length + BUFFER_SIZE + 1 ≤ M)
    (hn : st.read_size + D.length + 1 < n)
    (hf : D.length + (if strlen st.buffer < st.read_size then 1 else 0) < fuel) :
    ∃ (s : State) (evs : List IOEvent),
      splitter_loop junk name_ent pid n fuel st ⟨D, cs.map some⟩ = some (.ok s)
      ∧ s.io = st.io ++ evs ∧ requests_ok pid evs ∧ evs.flatMap read_bytes = D := by
  have hM0 : M < UINT_MOD := by omega
  induction fuel generalizing st D cs with
  | zero => omega
  | succ fuel ih =>
    unfold splitter_loop
    obtain ⟨st1, D1, D2, cs1, empty, hrun, hinv1, hbM1, hge1, hD, hfill1, hrs1, hpa1, hit1,
        he1, he2⟩ :=
      refill_loop_spec junk pid M hM0 n st D cs hinv hbM hrM (by omega)
    obtain ⟨s', D2', cs1', e', evs, hrun', hio, hreq, hdel⟩ :=
      refill_loop_reads junk pid M hM n st D cs hinv hbM hrM (by omega)
    rw [hrun] at hrun'
    simp only [Option.some.injEq, Except.ok.injEq, Prod.mk.injEq, Fd.mk.injEq] at hrun'
    obtain ⟨hs, ⟨hD2, _⟩, he⟩ := hrun'
    subst hs hD2 he
    rw [hrun]
    dsimp only
    have hDl : D.length = D1.length + D2.length := by
      rw [hD, List.length_append]
    obtain ⟨st2, hrun2, hinv2, hbs2, hfill2, hpa2, hit2, hio2, hrs2⟩ :=
      consume_loop_spec name_ent pid n st1 hinv1 (by omega)
    rw [hrun2]
    dsimp only
    cases empty with
    | true =>
      obtain ⟨hD2, _⟩ := he1 rfl
      subst hD2
      rw [if_pos rfl]
      refine ⟨st2, evs, rfl, by rw [hio2, hio], hreq, ?_⟩
      rw [List.append_nil] at hdel
      exact hdel
    | false =>
      obtain ⟨hlt, hprog⟩ := he2 rfl
      have hno2 : NUL ∉ filled st2 := by
        rw [hfill2]
        exact leftover_not_mem _
      have hle2 : st2.read_size ≤ strlen st2.buffer :=
        le_strlen_of_filled_no_nul st2 (by have := hinv2.len; have := hinv2.lt; omega) hno2
      have hflag : (if strlen st2.buffer < st2.read_size then 1 else 0) = 0 := by
        rw [if_neg (by omega)]
      have hfuel : D2.length < fuel := by
        by_cases hc : strlen st.buffer < st.read_size
        · rw [if_pos hc] at hf
          omega
        · rw [if_neg hc] at hf
          have := hprog (by omega)
          omega
      obtain ⟨s3, evs3, hrun3, hio3, hreq3, hdel3⟩ :=
        ih st2 D2 cs1 hinv2 (by rw [hbs2]; exact hbM1) (by omega) (by omega)
          (by rw [hflag]; omega)
      refine ⟨s3, evs ++ evs3, ?_, ?_, requests_ok_append pid _ _ hreq hreq3, ?_⟩
      · simpa using hrun3
      · rw [hio3, hio2, hio, List.append_assoc]
      · rw [List.flatMap_append, hdel3]
        exact hdel

/-- The scan of an opened stream that is not empty, up to the first head of the
splitter loop. -/
lemma scan_process_entry (junk : Nat → Nat) (name_ent : List Nat → Bool) (pid : Int)
    (st : State) (D : List Nat) (cs : List Nat) (hok : BufferOk st) (hD : D ≠ []) :
    ∃ (st2 : State) (n : Nat) (cs1 : List Nat), 1 ≤ n ∧ n ≤ st.buffer_size - 1
      ∧ Inv st2 ∧ st2.buffer_size = st.buffer_size
      ∧ st2.read_size = (D.take n).length ∧ filled st2 = D.take n
      ∧ st2.buffer[st2.buffer_size - 1]? = some NUL
      ∧ st2.io = st.io ++ [IOEvent.read pid (st.buffer_size - 1) (ReadResult.bytes (D.take n))]
      ∧ st2.pairs = st.pairs ∧ st2.items = st.items
      ∧ ∀ fuel, scan_process junk name_ent pid fuel st ⟨D, cs.map some⟩
          = match splitter_loop junk name_ent pid fuel fuel st2 ⟨D.drop n, cs1.map some⟩ with
            | none => none
            | some (.error s) => some (Exit.fault, s)
            | some (.ok s) => some (Exit.next, { s with io := s.io ++ [IOEvent.close pid] }) := by
  obtain ⟨hlen, h256, hb⟩ := hok
  have hB : BUFFER_SIZE = 256 := rfl
  have hU : usub st.buffer_size 1 = st.buffer_size - 1 := usub_eq (by omega) hb
  obtain ⟨n, cs1, hn1, hn2, hread⟩ := read_spec D cs (st.buffer_size - 1) (by omega)
  have hnl : (D.take n).length ≤ n := by
    rw [List.length_take]
    exact Nat.min_le_left _ _
  have hmod : (D.take n).length % UINT_MOD = (D.take n).length := Nat.mod_eq_of_lt (by omega)
  have hfit : 0 + (D.take n).length ≤ (st.buffer.set 0 NUL).length := by
    rw [List.length_set]
    omega
  have hpos : 0 < (D.take n).length := by
    rw [List.length_take]
    have : 0 < D.length := List.length_pos.mpr hD
    omega
  have hsl : st.buffer_size - 1 < ((st.buffer.set 0 NUL).take 0 ++ D.take n
      ++ (st.buffer.set 0 NUL).drop (0 + (D.take n).length)).length := by
    rw [length_stored _ _ _ hfit, List.length_set]
    omega
  refine ⟨{ st with
      buffer := ((st.buffer.set 0 NUL).take 0 ++ D.take n
        ++ (st.buffer.set 0 NUL).drop (0 + (D.take n).length)).set (st.buffer_size - 1) NUL,
      io := st.io ++ [IOEvent.read pid (st.buffer_size - 1) (ReadResult.bytes (D.take n))],
      read_size := (D.take n).length }, n, cs1, hn1, hn2, ⟨?_, ?_, hb⟩, rfl, rfl, ?_, ?_,
    rfl, rfl, rfl, ?_⟩
  · show (List.set _ _ _).length = st.buffer_size
    rw [List.length_set, length_stored _ _ _ hfit, List.length_set, hlen]
  · show (D.take n).length < st.buffer_size
    omega
  · show List.take (D.take n).length _ = _
    have h0 : (D.take n).length = 0 + (D.take n).length := by omega
    conv_lhs => arg 1; rw [h0]
    rw [take_stored _ _ _ _ hfit (by omega)]
    simp
  · show (List.set _ _ _)[st.buffer_size - 1]? = some NUL
    exact List.getElem?_set_self hsl
  · intro fuel
    unfold scan_process
    rw [store_eq _ _ _ (by omega)]
    dsimp only
    rw [hU, hread]
    dsimp only
    rw [hmod, store_bytes_eq _ _ _ hfit]
    dsimp only
    rw [if_pos hpos, store_eq _ _ _ hsl]

/-- The reads of the scan of one opened stream, when no read fails: each asks for at
least one byte, and together they deliver the stream. -/
lemma scan_process_reads (junk : Nat → Nat) (name_ent : List Nat → Bool) (pid : Int)
    (fuel : Nat) (st : State) (D : List Nat) (cs : List Nat)
    (hok : BufferOk st) (hb : st.buffer_size + BUFFER_SIZE < UINT_MOD)
    (hD : D.length + 2 * BUFFER_SIZE + 1 < UINT_MOD) (hf : D.length + 2 ≤ fuel) :
    ∃ (x : Exit) (st1 : State) (evs : List IOEvent),
      scan_process junk name_ent pid fuel st ⟨D, cs.map some⟩ = some (x, st1)
      ∧ x ≠ Exit.fault
      ∧ st1.io = st.io ++ evs ++ [IOEvent.close pid]
      ∧ requests_ok pid evs ∧ evs.flatMap read_bytes = D := by
  have hB : BUFFER_SIZE = 256 := rfl
  by_cases hE : D = []
  · subst hE
    obtain ⟨st1, hrun, _⟩ :=
      scan_process_spec junk name_ent pid fuel st [] cs hok (by omega) hf
    obtain ⟨hlen, h256, hb'⟩ := hok
    have hU : usub st.buffer_size 1 = st.buffer_size - 1 := usub_eq (by omega) hb'
    have hrun2 : scan_process junk name_ent pid fuel st ⟨[], cs.map some⟩
        = some (Exit.returned, { st with
            buffer := st.buffer.set 0 NUL,
            read_size := 0,
            io := st.io ++ [IOEvent.read pid (st.buffer_size - 1) (ReadResult.bytes [])]
              ++ [IOEvent.close pid] }) := by
      unfold scan_process
      rw [store_eq _ _ _ (by omega)]
      dsimp only
      rw [hU]
      obtain ⟨n, cs1, _, _, hread⟩ := read_spec [] cs (st.buffer_size - 1) (by omega)
      rw [hread]
      dsimp only
      rw [store_bytes_eq _ _ _ (by simp)]
      simp
    refine ⟨_, _, [IOEvent.read pid (st.buffer_size - 1) (ReadResult.bytes [])], hrun2,
      by simp, rfl, requests_ok_single pid _ _ (by omega) (by simp), by simp [read_bytes]⟩
  · obtain ⟨st2, n, cs1, hn1, hn2, hinv2, hbs2, hrs2, hfill2, _, hio2, _, _, hrun⟩ :=
      scan_process_entry junk name_ent pid st D cs hok hE
    have hdrop : (D.drop n).length + (D.take n).length = D.length := by
      have := congrArg List.length (List.take_append_drop n D)
      rw [List.length_append] at this
      omega
    have hnl : (D.take n).length ≤ n := by
      rw [List.length_take]
      exact Nat.min_le_left _ _
    have hM : max st.buffer_size (D.length + BUFFER_SIZE + 1) + BUFFER_SIZE < UINT_MOD := by
      rcases Nat.le_total st.buffer_size (D.length + BUFFER_SIZE + 1) with h | h
      · rw [Nat.max_eq_right h]
        omega
      · rw [Nat.max_eq_left h]
        exact hb
    obtain ⟨s, evs, hrun3, hio3, hreq3, hdel3⟩ :=
      splitter_loop_reads junk name_ent pid _ hM fuel fuel st2 (D.drop n) cs1 hinv2
        (by rw [hbs2]; exact le_max_left _ _)
        (by
          have := le_max_right st.buffer_size (D.length + BUFFER_SIZE + 1)
          omega)
        (by omega)
        (by
          have : (D.drop n).length < D.length := by
            have : 0 < (D.take n).length := by
              rw [List.length_take]
              have : 0 < D.length := List.length_pos.mpr hE
              omega
            omega
          split <;> omega)
    refine ⟨Exit.next, { s with io := s.io ++ [IOEvent.close pid] },
      [IOEvent.read pid (st.buffer_size - 1) (ReadResult.bytes (D.take n))] ++ evs, ?_,
      by simp, ?_,
      requests_ok_append pid _ _
        (requests_ok_single pid _ _ (by have := hok.2.1; omega) (by omega)) hreq3, ?_⟩
    · rw [hrun fuel, hrun3]
    · show s.io ++ _ = _
      rw [hio3, hio2]
      simp only [List.append_assoc]
    · rw [List.flatMap_append, hdel3]
      simp [read_bytes]

/-- C19: when no read fails, `read_size <= buffer_size - 1` (`Inv`) holds at every
head of the loops of the splitter: it holds at the first head, and a refill pass and
a consume pass started where it holds end where it holds. A refill pass asks for at
least one byte and stores what it gets below the last byte of the block, which then
holds NUL; the `memmove` of a consume pass stays inside the block and leaves its
last byte as it is. Over the whole scan of a process no access leaves the block,
every read asks for at least one byte, and the reads deliver the stream exactly. -/
theorem splitter_loop_invariant (junk : Nat → Nat) (name_ent : List Nat → Bool) (pid : Int)
    (st : State) (D : List Nat) (cs : List Nat)
    (hst : BufferOk st) (hb : st.buffer_size + BUFFER_SIZE < UINT_MOD)
    (hD : D.length + 2 * BUFFER_SIZE + 1 < UINT_MOD) :
    (D ≠ [] → ∃ (st2 : State) (fd2 : Fd), Inv st2
        ∧ st2.buffer[st2.buffer_size - 1]? = some NUL
        ∧ ∀ fuel, scan_process junk name_ent pid fuel st ⟨D, cs.map some⟩
            = match splitter_loop junk name_ent pid fuel fuel st2 fd2 with
              | none => none
              | some (.error s) => some (Exit.fault, s)
              | some (.ok s) =>
                some (Exit.next, { s with io := s.io ++ [IOEvent.close pid] }))
    ∧ (∀ (s : State) (D1 cs1 : List Nat), Inv s → s.buffer_size + BUFFER_SIZE < UINT_MOD →
        ∃ count, 1 ≤ count
          ∧ (D1 = [] → ∃ (s1 : State) (f : Fd),
              refill_body junk pid s ⟨D1, cs1.map some⟩ = RefillStep.eof s1 f ∧ Inv s1
              ∧ s1.io = s.io ++ [IOEvent.read pid count (ReadResult.bytes [])])
          ∧ (D1 ≠ [] → ∃ (s1 : State) (f : Fd) (l : List Nat),
              refill_body junk pid s ⟨D1, cs1.map some⟩ = RefillStep.again s1 f ∧ Inv s1
              ∧ s1.io = s.io ++ [IOEvent.read pid count (ReadResult.bytes l)]
              ∧ l ≠ [] ∧ l.length ≤ count
              ∧ s.read_size + count + 1 = s1.buffer_size
              ∧ s1.read_size = s.read_size + l.length
              ∧ s1.buffer[s1.buffer_size - 1]? = some NUL))
    ∧ (∀ s : State, Inv s → strlen s.buffer < s.read_size →
        ∃ s1, consume_body name_ent pid s = Except.ok s1 ∧ Inv s1
          ∧ strlen s.buffer + 1 + (s.read_size - strlen s.buffer) ≤ s.buffer.length
          ∧ s1.buffer[s.buffer_size - 1]? = s.buffer[s.buffer_size - 1]?)
    ∧ (∀ fuel, D.length + 2 ≤ fuel →
        ∃ (x : Exit) (st1 : State) (evs : List IOEvent),
          scan_process junk name_ent pid fuel st ⟨D, cs.map some⟩ = some (x, st1)
          ∧ x ≠ Exit.fault
          ∧ st1.io = st.io ++ evs ++ [IOEvent.close pid]
          ∧ requests_ok pid evs ∧ evs.flatMap read_bytes = D) := by
  refine ⟨fun hE => ?_, fun s D1 cs1 hinv hbs => ?_, fun s hinv ht => ?_, fun fuel hf => ?_⟩
  · obtain ⟨st2, n, cs1, _, _, hinv2, _, _, _, hlast, _, _, _, hrun⟩ :=
      scan_process_entry junk name_ent pid st D cs hst hE
    exact ⟨st2, _, hinv2, hlast, hrun⟩
  · obtain ⟨count, hcount, heof, hagain⟩ := refill_body_spec junk pid s D1 cs1 hinv hbs
    refine ⟨count, hcount, fun h => ?_, fun h => ?_⟩
    · obtain ⟨s1, cs2, hbody, hinv1, _, _, _, hio, _⟩ := heof h
      exact ⟨s1, _, hbody, hinv1, hio⟩
    · obtain ⟨s1, f, l, cs2, hbody, hinv1, hl, hlc, _, _, hrs, _, hcap, _, hlast, hio, _⟩ :=
        hagain h
      exact ⟨s1, f, l, hbody, hinv1, hio, hl, hlc, hcap, hrs, hlast⟩
  · obtain ⟨s1, hbody, hinv1, _, _, hbuf, _⟩ := consume_body_spec name_ent pid s hinv ht
    obtain ⟨_, hrest, _⟩ :=
      getElem?_compacted s.buffer (strlen s.buffer) s.read_size ht
        (by have := hinv.len; have := hinv.lt; omega)
    refine ⟨s1, hbody, hinv1, ?_, ?_⟩
    · have := hinv.len
      have := hinv.lt
      omega
    · rw [hbuf]
      exact hrest _ (by have := hinv.lt; omega)
  · exact scan_process_reads junk name_ent pid fuel st D cs hst hb hD hf

/-! ## The properties on sample inputs -/

set_option maxRecDepth 100000

/-- Sample run for C1: three records, read in chunks of 1, 3, 1 bytes and then in full. -/
theorem splitter_yields_records_witness :
    BufferOk (init junk0)
    ∧ (∀ r ∈ [(bytes "PATH", bytes "/bin"), (bytes "HOME", bytes "/root"), ([], [])],
        EQ ∉ r.1 ∧ NUL ∉ r.1 ∧ NUL ∉ r.2)
    ∧ ∃ x st1,
      scan_process junk0 (fun _ => true) 7 40 (init junk0)
          ⟨encode [(bytes "PATH", bytes "/bin"), (bytes "HOME", bytes "/root"), ([], [])],
            [0, 2, 0].map some⟩ = some (x, st1)
        ∧ x ≠ Exit.fault
        ∧ st1.pairs = (init junk0).pairs
            ++ [(bytes "PATH", bytes "/bin"), (bytes "HOME", bytes "/root"), ([], [])] :=
  ⟨init_ok junk0, by decide,
    splitter_yields_records junk0 (fun _ => true) 7 40 (init junk0)
      [(bytes "PATH", bytes "/bin"), (bytes "HOME", bytes "/root"), ([], [])] [0, 2, 0]
      (init_ok junk0) (by decide) (by decide) (by decide)⟩

/-- Sample run for C2: partial reads against full reads. -/
theorem splitter_schedule_independent_witness :
    BufferOk (init junk0)
    ∧ ∃ x st1 st2,
      scan_process junk0 (fun _ => true) 7 40 (init junk0)
          ⟨bytes "PATH=/bin" ++ NUL :: bytes "HOME=/root" ++ [NUL], [0, 0, 3].map some⟩
        = some (x, st1)
      ∧ scan_process junk0 (fun _ => true) 7 40 (init junk0)
          ⟨bytes "PATH=/bin" ++ NUL :: bytes "HOME=/root" ++ [NUL], ([] : List Nat).map some⟩
        = some (x, st2)
      ∧ x ≠ Exit.fault
      ∧ st1.pairs = st2.pairs ∧ st1.items = st2.items :=
  ⟨init_ok junk0,
    splitter_schedule_independent junk0 (fun _ => true) 7 40 (init junk0)
      (bytes "PATH=/bin" ++ NUL :: bytes "HOME=/root" ++ [NUL]) [0, 0, 3] []
      (init_ok junk0) (by decide) (by decide)⟩

/-- Sample run for C3: the stream `GARBAGE` NUL `PATH=/bin` NUL gives the one pair
`(PATH, /bin)`. -/
theorem malformed_segment_dropped_witness :
    (EQ ∉ bytes "GARBAGE" ∧ NUL ∉ bytes "GARBAGE")
    ∧ (∃ x y st1 st2,
      scan_process junk0 (fun _ => true) 7 40 (init junk0)
          ⟨[] ++ bytes "GARBAGE" ++ NUL :: (bytes "PATH=/bin" ++ [NUL]), [1, 1].map some⟩
        = some (x, st1)
      ∧ scan_process junk0 (fun _ => true) 7 40 (init junk0)
          ⟨[] ++ (bytes "PATH=/bin" ++ [NUL]), ([] : List Nat).map some⟩ = some (y, st2)
      ∧ x ≠ Exit.fault ∧ y ≠ Exit.fault
      ∧ st1.pairs = st2.pairs)
    ∧ (scan_process junk0 (fun _ => true) 7 40 (init junk0)
          ⟨[] ++ bytes "GARBAGE" ++ NUL :: (bytes "PATH=/bin" ++ [NUL]), [1, 1].map some⟩).map
        (fun r => (r.2.pairs, r.2.items))
      = some ([(bytes "PATH", bytes "/bin")],
          [{ pid := 7, name := some (bytes "PATH"), value := some (bytes "/bin"),
             status := Status.collected, message := none }]) :=
  ⟨by decide,
    malformed_segment_dropped junk0 (fun _ => true) 7 40 (init junk0)
      [] (bytes "GARBAGE") (bytes "PATH=/bin" ++ [NUL]) [1, 1] []
      (init_ok junk0) (Or.inl rfl) (by decide) (by decide) (by decide),
    by rfl⟩

/-- Sample run for C4: the segment `K=a=b` gives the pair `(K, a=b)`; the tail `Y=`
has no terminator. -/
theorem segment_split_at_first_eq_witness :
    (NUL ∉ bytes "K=a=b" ∧ EQ ∈ bytes "K=a=b")
    ∧ (∃ name value x xa xb st1 sa sb pa pb,
      name ++ EQ :: value = bytes "K=a=b" ∧ EQ ∉ name ∧ NUL ∉ name ∧ NUL ∉ value
      ∧ scan_process junk0 (fun _ => true) 7 40 (init junk0)
          ⟨(bytes "X=1" ++ [NUL]) ++ bytes "K=a=b" ++ NUL :: bytes "Y=", [2].map some⟩
          = some (x, st1)
      ∧ scan_process junk0 (fun _ => true) 7 40 (init junk0)
          ⟨bytes "X=1" ++ [NUL], ([] : List Nat).map some⟩ = some (xa, sa)
      ∧ scan_process junk0 (fun _ => true) 7 40 (init junk0)
          ⟨bytes "Y=", ([] : List Nat).map some⟩ = some (xb, sb)
      ∧ sa.pairs = (init junk0).pairs ++ pa ∧ sb.pairs = (init junk0).pairs ++ pb
      ∧ st1.pairs = (init junk0).pairs ++ pa ++ [(name, value)] ++ pb)
    ∧ (scan_process junk0 (fun _ => true) 7 40 (init junk0)
          ⟨(bytes "X=1" ++ [NUL]) ++ bytes "K=a=b" ++ NUL :: bytes "Y=", [2].map some⟩).map
        (fun r => r.2.pairs)
      = some [(bytes "X", bytes "1"), (bytes "K", bytes "a=b")] :=
  ⟨by decide,
    segment_split_at_first_eq junk0 (fun _ => true) 7 40 (init junk0)
      (bytes "X=1" ++ [NUL]) (bytes "K=a=b") (bytes "Y=") [2] [] []
      (init_ok junk0) (Or.inr ⟨bytes "X=1", rfl⟩) (by decide) (by decide) (by decide)
      (by decide),
    by rfl⟩

/-- Sample run for C5: the stream `PATH=/bin` NUL `HOME=/root` NUL with the name
comparison that accepts `HOME` gives the one item `HOME`, `/root`. -/
theorem matching_pairs_are_collected_witness :
    (all_digits "42" = true ∧ atoi "42" = 42)
    ∧ (∃ x st1 ps,
      process_entry junk0 strerror0 (fun p => p == 42) (fun n => n == bytes "HOME") 40
          (init junk0)
          ⟨"42", .ok ⟨bytes "PATH=/bin" ++ NUL :: bytes "HOME=/root" ++ [NUL],
            [3, 0].map some⟩⟩
        = some (x, st1)
      ∧ x ≠ Exit.fault
      ∧ st1.pairs = (init junk0).pairs ++ ps
      ∧ st1.items = (init junk0).items
          ++ (ps.filter (fun p => (fun n => n == bytes "HOME") p.1)).map
            (fun p => { pid := atoi "42", name := some p.1, value := some p.2,
                        status := Status.collected, message := none }))
    ∧ (process_entry junk0 strerror0 (fun p => p == 42) (fun n => n == bytes "HOME") 40
          (init junk0)
          ⟨"42", .ok ⟨bytes "PATH=/bin" ++ NUL :: bytes "HOME=/root" ++ [NUL],
            [3, 0].map some⟩⟩).map (fun r => (r.1, r.2.items))
      = some (Exit.next,
          [{ pid := 42, name := some (bytes "HOME"), value := some (bytes "/root"),
             status := Status.collected, message := none }]) :=
  ⟨by decide,
    matching_pairs_are_collected junk0 strerror0 (fun p => p == 42)
      (fun n => n == bytes "HOME") 40 (init junk0) "42"
      (bytes "PATH=/bin" ++ NUL :: bytes "HOME=/root" ++ [NUL]) [3, 0]
      (init_ok junk0) (by decide) (by decide) (by decide) (by decide),
    by rfl⟩

/-- C6 (the code at the failing input): with two pid-matching entries, the first with
an empty stream and the second with the stream `A=b` NUL, `read_environment`
returns after the first one: the second is never opened and its pair is not
emitted; in the other order the pair of the second is emitted. -/
theorem scan_stops_at_empty_stream :
    (read_environment junk0 strerror0 (fun _ => true) (fun _ => true) 40
        (some [⟨"1", .ok ⟨[], []⟩⟩, ⟨"2", .ok ⟨bytes "A=b" ++ [NUL], []⟩⟩]) true).map
      (fun r => (r.1, r.2.items, r.2.io))
      = some (some RetCode.zero, [],
          [IOEvent.open_ 1 true, IOEvent.read 1 255 (ReadResult.bytes []), IOEvent.close 1])
    ∧ (read_environment junk0 strerror0 (fun _ => true) (fun _ => true) 40
        (some [⟨"2", .ok ⟨bytes "A=b" ++ [NUL], []⟩⟩, ⟨"1", .ok ⟨[], []⟩⟩]) true).map
      (fun r => (r.1, r.2.items))
      = some (some RetCode.zero,
          [{ pid := 2, name := some (bytes "A"), value := some (bytes "b"),
             status := Status.collected, message := none }]) :=
  ⟨by rfl, by rfl⟩

/-- Sample run for C7: `open` fails with `errno` 13 for pid 7, pid 8 is scanned next. -/
theorem open_failure_reported_witness :
    (all_digits "7" = true ∧ atoi "7" = 7)
    ∧ (∃ item msg pre mid1 mid2 post,
      dir_loop junk0 strerror0 (fun _ => true) (fun _ => true) 40 (init junk0)
          (⟨"7", .fail 13⟩ :: [⟨"8", .ok ⟨bytes "A=b" ++ [NUL], []⟩⟩])
        = dir_loop junk0 strerror0 (fun _ => true) (fun _ => true) 40
            { (init junk0) with
                io := (init junk0).io ++ [IOEvent.open_ (atoi "7") false],
                items := (init junk0).items ++ [item] }
            [⟨"8", .ok ⟨bytes "A=b" ++ [NUL], []⟩⟩]
      ∧ item.pid = atoi "7" ∧ item.status = Status.not_collected
      ∧ item.name = none ∧ item.value = none
      ∧ item.message = some msg ∧ msg ≠ ""
      ∧ msg = pre ++ ("/proc/" ++ toString (atoi "7") ++ "/environ") ++ mid1
          ++ toString 13 ++ mid2 ++ strerror0 13 ++ post)
    ∧ (dir_loop junk0 strerror0 (fun _ => true) (fun _ => true) 40 (init junk0)
          (⟨"7", .fail 13⟩ :: [⟨"8", .ok ⟨bytes "A=b" ++ [NUL], []⟩⟩])).map
        (fun r => (r.1, r.2.items))
      = some (Exit.returned,
          [{ pid := 7, name := none, value := none, status := Status.not_collected,
             message := some "Can't open \"/proc/7/environ\": errno=13, Permission denied." },
           { pid := 8, name := some (bytes "A"), value := some (bytes "b"),
             status := Status.collected, message := none }]) :=
  ⟨by decide,
    open_failure_reported junk0 strerror0 (fun _ => true) (fun _ => true) 40 (init junk0)
      "7" 13 [⟨"8", .ok ⟨bytes "A=b" ++ [NUL], []⟩⟩] (by decide) (by decide),
    by rfl⟩

/-- C8 (counterexample): the stream `=x` NUL with a name comparison that accepts every
name gives a collected item whose name is empty. -/
theorem empty_name_collected :
    (read_environment junk0 strerror0 (fun _ => true) (fun _ => true) 40
        (some [⟨"1", .ok ⟨[EQ, 120, NUL], []⟩⟩]) true).map (fun r => (r.1, r.2.items))
      = some (some RetCode.zero,
          [{ pid := 1, name := some [], value := some [120],
             status := Status.collected, message := none }]) := by
  rfl

/-- Sample run for C8 as amended: the stream `A=b` NUL `C=` NUL, read two bytes at
first and then without limit; none of its records begins with `'='`. -/
theorem collected_items_named_witness :
    ((bytes "A=b" ++ NUL :: bytes "C=" ++ [NUL]).head? ≠ some EQ
      ∧ ¬ [NUL, EQ] <:+: bytes "A=b" ++ NUL :: bytes "C=" ++ [NUL])
    ∧ (∃ x st1 new,
      scan_process junk0 (fun _ => true) 7 40 (init junk0)
          ⟨bytes "A=b" ++ NUL :: bytes "C=" ++ [NUL], [1].map some⟩ = some (x, st1)
      ∧ st1.items = (init junk0).items ++ new
      ∧ (∀ item ∈ new, item.status = Status.collected
          ∧ ∃ n v, item.name = some n ∧ item.value = some v)
      ∧ (((bytes "A=b" ++ NUL :: bytes "C=" ++ [NUL]).head? ≠ some EQ
            ∧ ¬ [NUL, EQ] <:+: bytes "A=b" ++ NUL :: bytes "C=" ++ [NUL]) →
          ∀ item ∈ new, item.name ≠ some []))
    ∧ (scan_process junk0 (fun _ => true) 7 40 (init junk0)
          ⟨bytes "A=b" ++ NUL :: bytes "C=" ++ [NUL], [1].map some⟩).map (fun r => r.2.items)
      = some [{ pid := 7, name := some (bytes "A"), value := some (bytes "b"),
                status := Status.collected, message := none },
              { pid := 7, name := some (bytes "C"), value := some [],
                status := Status.collected, message := none }] :=
  ⟨by decide,
    collected_items_named junk0 (fun _ => true) 7 40 (init junk0)
      (bytes "A=b" ++ NUL :: bytes "C=" ++ [NUL]) [1] (init_ok junk0) (by decide) (by decide),
    by rfl⟩

/-- Sample run for C9: an empty stream. -/
theorem zero_byte_stream_emits_nothing_witness :
    ((read ⟨[], [some 3]⟩ (usub (init junk0).buffer_size 1)).1 = ReadResult.bytes [])
    ∧ ∃ st1,
      process_entry junk0 strerror0 (fun _ => true) (fun _ => true) 40 (init junk0)
          ⟨"12", .ok ⟨[], [some 3]⟩⟩ = some (Exit.returned, st1)
      ∧ st1.items = (init junk0).items ∧ st1.pairs = (init junk0).pairs :=
  ⟨by decide,
    zero_byte_stream_emits_nothing junk0 strerror0 (fun _ => true) (fun _ => true) 40
      (init junk0) "12" ⟨[], [some 3]⟩ (init_ok junk0) (by decide) (by decide) (by decide)⟩

/-- Sample run for C10: the tail `tail=3` has no terminator and gives no pair. -/
theorem unterminated_tail_discarded_witness :
    (NUL ∉ bytes "tail=3")
    ∧ (∃ x y st1 st2,
      scan_process junk0 (fun _ => true) 7 40 (init junk0)
          ⟨(bytes "A=b" ++ [NUL]) ++ bytes "tail=3", [0].map some⟩ = some (x, st1)
      ∧ scan_process junk0 (fun _ => true) 7 40 (init junk0)
          ⟨bytes "A=b" ++ [NUL], ([] : List Nat).map some⟩ = some (y, st2)
      ∧ x ≠ Exit.fault ∧ y ≠ Exit.fault
      ∧ st1.pairs = st2.pairs ∧ st1.items = st2.items)
    ∧ (scan_process junk0 (fun _ => true) 7 40 (init junk0)
          ⟨(bytes "A=b" ++ [NUL]) ++ bytes "tail=3", [0].map some⟩).map (fun r => r.2.pairs)
      = some [(bytes "A", bytes "b")] :=
  ⟨by decide,
    unterminated_tail_discarded junk0 (fun _ => true) 7 40 (init junk0)
      (bytes "A=b" ++ [NUL]) (bytes "tail=3") [0] []
      (init_ok junk0) (Or.inr ⟨bytes "A=b", rfl⟩) (by decide) (by decide) (by decide),
    by rfl⟩

/-- Sample run for C11: the pid entity `0` with `getpid () = 4242` and comparison by
equality: of the entries `7` and `4242` only `4242` is scanned. -/
theorem probe_main_pid_entity_witness :
    probe_main junk0 strerror0 (fun (e : Entity String) p => e.val == some p)
        (fun (n : List Nat) x => n == x) 4242 40
        ⟨"environmentvariable58_object", some (bytes "HOME"), some ⟨"pid", some 0⟩⟩
        (some [⟨"7", .ok ⟨bytes "HOME=/a" ++ [NUL], []⟩⟩,
               ⟨"4242", .ok ⟨bytes "HOME=/b" ++ [NUL], []⟩⟩]) true
      = MainResult.ran (read_environment junk0 strerror0
          ((fun (e : Entity String) p => e.val == some p)
            { first := "environmentvariable58_object", val := some ((4242 : Nat) : Int) })
          ((fun (n : List Nat) x => n == x) (bytes "HOME")) 40
          (some [⟨"7", .ok ⟨bytes "HOME=/a" ++ [NUL], []⟩⟩,
                 ⟨"4242", .ok ⟨bytes "HOME=/b" ++ [NUL], []⟩⟩]) true)
    ∧ (read_environment junk0 strerror0
          ((fun (e : Entity String) p => e.val == some p)
            { first := "environmentvariable58_object", val := some ((4242 : Nat) : Int) })
          ((fun (n : List Nat) x => n == x) (bytes "HOME")) 40
          (some [⟨"7", .ok ⟨bytes "HOME=/a" ++ [NUL], []⟩⟩,
                 ⟨"4242", .ok ⟨bytes "HOME=/b" ++ [NUL], []⟩⟩]) true).map
        (fun r => (r.1, r.2.items))
      = some (some RetCode.zero,
          [{ pid := 4242, name := some (bytes "HOME"), value := some (bytes "/b"),
             status := Status.collected, message := none }]) :=
  ⟨(probe_main_pid_entity junk0 strerror0 (fun (e : Entity String) p => e.val == some p)
      (fun (n : List Nat) x => n == x) 4242 40 "environmentvariable58_object"
      (bytes "HOME") ⟨"pid", some 0⟩
      (some [⟨"7", .ok ⟨bytes "HOME=/a" ++ [NUL], []⟩⟩,
             ⟨"4242", .ok ⟨bytes "HOME=/b" ++ [NUL], []⟩⟩]) true).1 rfl,
    by rfl⟩

/-- Sample run for C12: the entry `self` is not made of digits. -/
theorem unmatched_entry_skipped_witness :
    (all_digits "self" = false ∨ (fun _ => true) (atoi "self") = false)
    ∧ process_entry junk0 strerror0 (fun _ => true) (fun _ => true) 40 (init junk0)
        ⟨"self", .ok ⟨bytes "A=b" ++ [NUL], []⟩⟩ = some (Exit.next, init junk0)
    ∧ dir_loop junk0 strerror0 (fun _ => true) (fun _ => true) 40 (init junk0)
        (⟨"self", .ok ⟨bytes "A=b" ++ [NUL], []⟩⟩ :: [⟨"9", .fail 2⟩])
      = dir_loop junk0 strerror0 (fun _ => true) (fun _ => true) 40 (init junk0)
        [⟨"9", .fail 2⟩] :=
  ⟨Or.inl (by decide),
    unmatched_entry_skipped junk0 strerror0 (fun _ => true) (fun _ => true) 40 (init junk0)
      ⟨"self", .ok ⟨bytes "A=b" ++ [NUL], []⟩⟩ [⟨"9", .fail 2⟩] (Or.inl (by decide))⟩

/-- Sample run for the return codes: a stream that cannot be opened and a name that
matches nothing; the return value is 0. -/
theorem return_codes_witness :
    (∀ e ∈ [(⟨"3", .fail 13⟩ : Dirent), ⟨"4", .ok ⟨bytes "A=b" ++ [NUL], [some 0]⟩⟩],
        reads_succeed 40 e)
    ∧ (∃ st, read_environment junk0 strerror0 (fun _ => true) (fun _ => false) 40
        (some [⟨"3", .fail 13⟩, ⟨"4", .ok ⟨bytes "A=b" ++ [NUL], [some 0]⟩⟩]) true
        = some (some RetCode.zero, st))
    ∧ (read_environment junk0 strerror0 (fun _ => true) (fun _ => false) 40
        (some [⟨"3", .fail 13⟩, ⟨"4", .ok ⟨bytes "A=b" ++ [NUL], [some 0]⟩⟩]) true).map
        (fun r => (r.1, r.2.items.map (fun i => (i.pid, i.status))))
      = some (some RetCode.zero, [(3, Status.not_collected)]) :=
  ⟨by decide,
    (return_codes junk0 strerror0 (fun _ => true) (fun _ => false) 40).2.2
      [⟨"3", .fail 13⟩, ⟨"4", .ok ⟨bytes "A=b" ++ [NUL], [some 0]⟩⟩] (by decide),
    by rfl⟩

/-- C13 (the code at a failing input): `/proc` opens, the stream of pid 3 cannot be
opened, the first read on the stream of pid 4 returns -1. `read_environment` emits
the not-collected item of pid 3, stores the -1 in the unsigned `read_size`
(4294967295) and leaves defined behaviour in the scan of pid 4, at the `memmove` of
the consume loop: it returns no code, neither 0 nor `PROBE_EACCESS`, and pid 5 is
never opened. The defect is the one of C14. -/
theorem no_return_code_after_failing_read :
    (read_environment junk0 strerror0 (fun _ => true) (fun _ => true) 40
        (some [⟨"3", .fail 13⟩,
               ⟨"4", .ok ⟨bytes "A=b" ++ [NUL], [none]⟩⟩,
               ⟨"5", .ok ⟨bytes "C=d" ++ [NUL], []⟩⟩]) true).map
      (fun r => (r.1, r.2.items.map (fun i => (i.pid, i.status)), r.2.read_size, r.2.io))
      = some (none, [(3, Status.not_collected)], 4294967295,
          [IOEvent.open_ 3 false, IOEvent.open_ 4 true,
           IOEvent.read 4 255 ReadResult.error]) := by
  rfl

/-- C14 (the code at failing inputs): when the first read of a pid-matching process
fails, no not-collected item is emitted and the scan ends in a fault, the next
process being never opened; when reads fail after a first byte, `read_size` wraps
around and a collected item is built for pid 2 from bytes that pid 1 left in the
buffer, before the fault. -/
theorem failing_read_not_reported :
    (read_environment junk0 strerror0 (fun _ => true) (fun _ => true) 40
        (some [⟨"1", .ok ⟨bytes "A=b" ++ [NUL], [none]⟩⟩,
               ⟨"2", .ok ⟨bytes "C=d" ++ [NUL], []⟩⟩]) true).map
      (fun r => (r.1, r.2.items, r.2.read_size, r.2.io))
      = some (none, [], 4294967295,
          [IOEvent.open_ 1 true, IOEvent.read 1 255 ReadResult.error])
    ∧ (read_environment junk0 strerror0 (fun _ => true) (fun _ => true) 40
        (some [⟨"1", .ok ⟨bytes "AB=secret" ++ [NUL], []⟩⟩,
               ⟨"2", .ok ⟨bytes "X", [some 0, none, none]⟩⟩,
               ⟨"3", .ok ⟨bytes "C=d" ++ [NUL], []⟩⟩]) true).map
      (fun r => (r.1, r.2.items, r.2.read_size))
      = some (none,
          [{ pid := 1, name := some (bytes "AB"), value := some (bytes "secret"),
             status := Status.collected, message := none },
           { pid := 2, name := some (bytes "XB"), value := some (bytes "secret"),
             status := Status.collected, message := none }], 4294967295) :=
  ⟨by rfl, by rfl⟩

/-- Sample run for C15: from `A=b` NUL `C=d` NUL with 8 bytes in use, one pass leaves
`C=d` NUL in front with 4 bytes in use. -/
theorem consume_step_compacts_witness :
    (strlen sample_state.buffer < sample_state.read_size)
    ∧ (∃ st1, consume_body (fun _ => true) 7 sample_state = .ok st1
      ∧ (∀ fuel, consume_loop (fun _ => true) 7 (fuel + 1) sample_state
          = consume_loop (fun _ => true) 7 fuel st1)
      ∧ st1.read_size = sample_state.read_size - (strlen sample_state.buffer + 1)
      ∧ (∀ i, i < st1.read_size →
          st1.buffer[i]? = sample_state.buffer[strlen sample_state.buffer + 1 + i]?)
      ∧ st1.buffer_size = sample_state.buffer_size
      ∧ st1.buffer.length = sample_state.buffer.length)
    ∧ consume_body (fun _ => true) 7 sample_state
      = .ok { buffer := [67, 61, 100, 0, 120, 61, 100, 0, 120, 120, 0], buffer_size := 11,
              read_size := 4,
              items := [{ pid := 7, name := some [65], value := some [98],
                          status := Status.collected, message := none }],
              pairs := [([65], [98])], io := [] } :=
  ⟨by decide,
    consume_step_compacts (fun _ => true) 7 sample_state (by decide) (by decide) (by decide)
      (by decide),
    by rfl⟩

/-- Sample run for C16: the stream `A=b` NUL read in two pieces; the read that returns
zero bytes is followed by `close` only. -/
theorem no_read_after_end_of_stream_witness :
    (∃ reads z c,
      ((scan_process junk0 (fun _ => true) 7 40 (init junk0)
          ⟨bytes "A=b" ++ [NUL], [some 1]⟩).getD (Exit.fault, init junk0)).2.io
        = (init junk0).io ++ reads ++ z ++ c
      ∧ nonzero_reads 7 reads ∧ zero_read 7 z ∧ (c = [] ∨ c = [IOEvent.close 7]))
    ∧ ((scan_process junk0 (fun _ => true) 7 40 (init junk0)
          ⟨bytes "A=b" ++ [NUL], [some 1]⟩).getD (Exit.fault, init junk0)).2.io
      = [IOEvent.read 7 255 (ReadResult.bytes (bytes "A=")),
         IOEvent.read 7 253 (ReadResult.bytes (bytes "b" ++ [NUL])),
         IOEvent.read 7 255 (ReadResult.bytes []),
         IOEvent.close 7] :=
  ⟨no_read_after_end_of_stream junk0 (fun _ => true) 7 40 (init junk0)
      ⟨bytes "A=b" ++ [NUL], [some 1]⟩
      ((scan_process junk0 (fun _ => true) 7 40 (init junk0)
          ⟨bytes "A=b" ++ [NUL], [some 1]⟩).getD (Exit.fault, init junk0)).1
      ((scan_process junk0 (fun _ => true) 7 40 (init junk0)
          ⟨bytes "A=b" ++ [NUL], [some 1]⟩).getD (Exit.fault, init junk0)).2
      (by rfl),
    by rfl⟩

/-- Sample run for C17: a full block of 256 bytes grows to 512 bytes, and a stream of
304 bytes leaves the capacity at 512. -/
theorem buffer_growth_witness :
    (full_state.buffer.length = full_state.buffer_size
      ∧ full_state.read_size < full_state.buffer_size
      ∧ full_state.buffer_size + BUFFER_SIZE < UINT_MOD)
    ∧ (grow junk0 full_state).buffer_size = full_state.buffer_size + 256
    ∧ filled (grow junk0 full_state) = filled full_state
    ∧ (∃ x st1, scan_process junk0 (fun _ => true) 7 400 full_state
          ⟨List.replicate 300 65 ++ bytes "=xy" ++ [NUL], ([] : List Nat).map some⟩
          = some (x, st1)
        ∧ full_state.buffer_size ≤ st1.buffer_size
        ∧ st1.buffer_size ≤ max full_state.buffer_size
            ((List.replicate 300 65 ++ bytes "=xy" ++ [NUL]).length + BUFFER_SIZE + 1))
    ∧ (scan_process junk0 (fun _ => true) 7 400 full_state
          ⟨List.replicate 300 65 ++ bytes "=xy" ++ [NUL], ([] : List Nat).map some⟩).map
        (fun r => (r.2.buffer_size, r.2.pairs.map (fun p => (p.1.length, p.2))))
      = some (512, [(300, bytes "xy")]) :=
  ⟨⟨by decide, by decide, by decide⟩,
    (buffer_growth junk0 (fun _ => true) 7 full_state (by decide) (by decide) (by decide)).2.1,
    (buffer_growth junk0 (fun _ => true) 7 full_state (by decide) (by decide)
      (by decide)).2.2.2.2.2.1,
    (buffer_growth junk0 (fun _ => true) 7 full_state (by decide) (by decide)
      (by decide)).2.2.2.2.2.2.2.2 400 (List.replicate 300 65 ++ bytes "=xy" ++ [NUL]) []
      (by decide) (by decide) (by decide),
    by rfl⟩

/-- Sample run for the isolation of processes: the first process has a name of 300
bytes, which makes the block grow, and an unterminated tail; the pairs of the second
process are those of its stream alone. -/
theorem shared_buffer_isolation_witness :
    (∀ e ∈ [(⟨"1", .ok ⟨List.replicate 300 65 ++ bytes "=x" ++ [NUL] ++ bytes "tail=1",
                [some 9]⟩⟩ : Dirent),
            ⟨"2", .ok ⟨bytes "B=c" ++ [NUL], [some 0]⟩⟩], reads_succeed 400 e)
    ∧ (∀ e ∈ [(⟨"1", .ok ⟨List.replicate 300 65 ++ bytes "=x" ++ [NUL] ++ bytes "tail=1",
                [some 9]⟩⟩ : Dirent),
            ⟨"2", .ok ⟨bytes "B=c" ++ [NUL], [some 0]⟩⟩],
        returns_early (fun _ => true) e = false)
    ∧ (∃ st1, read_environment junk0 strerror0 (fun _ => true) (fun _ => true) 400
          (some [⟨"1", .ok ⟨List.replicate 300 65 ++ bytes "=x" ++ [NUL] ++ bytes "tail=1",
                  [some 9]⟩⟩,
                 ⟨"2", .ok ⟨bytes "B=c" ++ [NUL], [some 0]⟩⟩]) true
          = some (some RetCode.zero, st1)
        ∧ st1.pairs
          = [(⟨"1", .ok ⟨List.replicate 300 65 ++ bytes "=x" ++ [NUL] ++ bytes "tail=1",
                [some 9]⟩⟩ : Dirent),
             ⟨"2", .ok ⟨bytes "B=c" ++ [NUL], [some 0]⟩⟩].flatMap
              (fresh_pairs (fun _ => 0) (fun _ => true) (fun _ => true) 400))
    ∧ (read_environment junk0 strerror0 (fun _ => true) (fun _ => true) 400
          (some [⟨"1", .ok ⟨List.replicate 300 65 ++ bytes "=x" ++ [NUL] ++ bytes "tail=1",
                  [some 9]⟩⟩,
                 ⟨"2", .ok ⟨bytes "B=c" ++ [NUL], [some 0]⟩⟩]) true).map
        (fun r => (r.2.buffer_size, r.2.pairs.map (fun p => (p.1.length, p.2))))
      = some (512, [(300, bytes "x"), (1, bytes "c")]) :=
  ⟨by decide, by decide,
    shared_buffer_isolation junk0 (fun _ => 0) strerror0 (fun _ => true) (fun _ => true) 400
      [⟨"1", .ok ⟨List.replicate 300 65 ++ bytes "=x" ++ [NUL] ++ bytes "tail=1", [some 9]⟩⟩,
       ⟨"2", .ok ⟨bytes "B=c" ++ [NUL], [some 0]⟩⟩] (by decide) (by decide),
    by rfl⟩

/-- C18 (the code at a failing input): two scans that differ only in the stream of
pid 1, `PW=alpha` NUL in one and `PW=omega` NUL in the other; the stream of pid 2 is
the byte `K` in both, its first read delivers the `K` and its next two reads return
-1. The pair built for pid 2 is `(KW, alpha)` in the first scan and `(KW, omega)` in
the second, made of bytes that pid 1 left in the buffer, while the same stream and
reads give no pair from a buffer just allocated. The defect is the one of C14. -/
theorem stale_bytes_reach_later_process :
    (read_environment junk0 strerror0 (fun _ => true) (fun _ => true) 40
        (some [⟨"1", .ok ⟨bytes "PW=alpha" ++ [NUL], []⟩⟩,
               ⟨"2", .ok ⟨bytes "K", [some 0, none, none]⟩⟩]) true).map
      (fun r => (r.1, r.2.items.map (fun i => (i.pid, i.name, i.value))))
      = some (none, [(1, some (bytes "PW"), some (bytes "alpha")),
                     (2, some (bytes "KW"), some (bytes "alpha"))])
    ∧ (read_environment junk0 strerror0 (fun _ => true) (fun _ => true) 40
        (some [⟨"1", .ok ⟨bytes "PW=omega" ++ [NUL], []⟩⟩,
               ⟨"2", .ok ⟨bytes "K", [some 0, none, none]⟩⟩]) true).map
      (fun r => (r.1, r.2.items.map (fun i => (i.pid, i.name, i.value))))
      = some (none, [(1, some (bytes "PW"), some (bytes "omega")),
                     (2, some (bytes "KW"), some (bytes "omega"))])
    ∧ fresh_pairs junk0 (fun _ => true) (fun _ => true) 40
        ⟨"2", .ok ⟨bytes "K", [some 0, none, none]⟩⟩ = [] :=
  ⟨by rfl, by rfl, by rfl⟩

/-- Sample run for C19: the stream `A=b` NUL read in two pieces from a block just
allocated. -/
theorem splitter_loop_invariant_witness :
    (BufferOk (init junk0) ∧ (init junk0).buffer_size + BUFFER_SIZE < UINT_MOD
      ∧ (bytes "A=b" ++ [NUL]).length + 2 * BUFFER_SIZE + 1 < UINT_MOD)
    ∧ (∃ (x : Exit) (st1 : State) (evs : List IOEvent),
        scan_process junk0 (fun _ => true) 7 40 (init junk0)
            ⟨bytes "A=b" ++ [NUL], [1].map some⟩ = some (x, st1)
        ∧ x ≠ Exit.fault
        ∧ st1.io = (init junk0).io ++ evs ++ [IOEvent.close 7]
        ∧ requests_ok 7 evs ∧ evs.flatMap read_bytes = bytes "A=b" ++ [NUL]) :=
  ⟨⟨init_ok junk0, by decide, by decide⟩,
    (splitter_loop_invariant junk0 (fun _ => true) 7 (init junk0) (bytes "A=b" ++ [NUL]) [1]
      (init_ok junk0) (by decide) (by decide)).2.2.2 40 (by decide)⟩

/-- Sample run for C20: the stream `A=b` NUL `tail` read byte by byte ends with fuel 40. -/
theorem splitter_terminates_witness :
    (BufferOk (init junk0)
      ∧ (bytes "A=b" ++ [NUL] ++ bytes "tail").length + BUFFER_SIZE + 1 < UINT_MOD)
    ∧ (∃ x st1, scan_process junk0 (fun _ => true) 7 40 (init junk0)
          ⟨bytes "A=b" ++ [NUL] ++ bytes "tail", [0, 0, 0, 0, 0, 0, 0, 0].map some⟩
          = some (x, st1)
        ∧ x ≠ Exit.fault) :=
  ⟨⟨init_ok junk0, by decide⟩,
    (splitter_terminates junk0 (fun _ => true) 7 (init junk0)
      (bytes "A=b" ++ [NUL] ++ bytes "tail") [0, 0, 0, 0, 0, 0, 0, 0] (init_ok junk0)
      (by decide)).1 40 (by decide)⟩

end Envvar58
